import Mathlib

/-! mm-plugin-audit: classification, version comparison and audit engine

A shallow embedding of `audit.go`, of the library functions it calls, and the
properties of the engine.

Go `string` values are modelled by Lean `String`; byte-wise operations of the Go
code (`v[0]`, `v[i:]`, `strings.Contains`, `<` on strings) are carried out on the
character list `String.data`.  For well-formed UTF-8 text the two views agree:
UTF-8 is self-synchronising (substring and prefix tests coincide) and its byte
order is the code-point order.
-/

namespace MMPluginAudit

/-! ## Go string helpers (package `strings` and the built-in operators) -/

/-- Go's `strings.HasPrefix(s, p)`. -/
def stringsHasPrefix (s p : String) : Bool :=
  p.data.isPrefixOf s.data

/-- Whether `sub` occurs in `s` starting at some position (list level). -/
def containsAt : List Char → List Char → Bool
  | [], sub => sub.isEmpty
  | c :: cs, sub => sub.isPrefixOf (c :: cs) || containsAt cs sub

/-- Go's `strings.Contains(s, substr)`. -/
def stringsContains (s substr : String) : Bool :=
  containsAt s.data substr.data

/-- Go's `x < y` on strings: lexicographic order. -/
def strLess : List Char → List Char → Bool
  | _, [] => false
  | [], _ :: _ => true
  | a :: as, b :: bs => if a < b then true else if b < a then false else strLess as bs

/-! ## Plugin source categories (`audit.go`, lines 11-35) -/

def SourceMarketplace : String := "marketplace"
def SourceBundled : String := "bundled"
def SourceMattermost : String := "mattermost-plugin"
def SourceThirdParty : String := "third-party"

/-- The keys of the `bundledPlugins` map; every key is stored with value `true`. -/
def bundledPluginKeys : List String :=
  [ "mattermost-ai",
    "focalboard",
    "com.mattermost.calls",
    "com.mattermost.plugin-channel-export",
    "github",
    "com.github.manland.mattermost-plugin-gitlab",
    "jira",
    "com.mattermost.mattermost-plugin-metrics",
    "com.mattermost.mscalendar",
    "com.mattermost.msteamsmeetings",
    "playbooks",
    "mattermost-plugin-servicenow",
    "com.mattermost.user-survey",
    "zoom" ]

/-- The lookup `bundledPlugins[pluginID]` of the `map[string]bool`: the stored value
(`true`) for a key, the zero value `false` otherwise. -/
def bundledPlugins (pluginID : String) : Bool :=
  bundledPluginKeys.contains pluginID

/-- `ClassifyPluginSource` (`audit.go`, lines 125-137). -/
def ClassifyPluginSource (pluginID : String) (inMarketplace : Bool) (homepageURL : String) :
    String :=
  if bundledPlugins pluginID then SourceBundled
  else if inMarketplace then SourceMarketplace
  else if stringsContains homepageURL "github.com/mattermost/" &&
      !stringsContains homepageURL "github.com/mattermost-community/" then SourceMattermost
  else SourceThirdParty

/-! ## Semantic versions: the library `golang.org/x/mod/semver`

`CompareVersions` calls `semver.IsValid` and `semver.Compare`.  The library is not part of
the repository; the definitions below transcribe its source (`semver.go`), function by
function, on character lists.  A scanning loop `for i < len(v) && ... { i++ }` followed by
`return v[:i], v[i:]` is rendered as a recursive scan that returns the scanned text and
the remainder. -/

namespace semver

/-- The parsed form of a semantic version string (struct `parsed`). -/
structure parsed where
  major : List Char
  minor : List Char
  patch : List Char
  short : List Char
  prerelease : List Char
  build : List Char
  deriving DecidableEq, Repr

/-- The test `'0' <= c && c <= '9'`. -/
def isDigit (c : Char) : Bool := decide ('0' ≤ c) && decide (c ≤ '9')

/-- `isIdentChar`: ASCII alphanumerics and hyphen. -/
def isIdentChar (c : Char) : Bool :=
  (decide ('A' ≤ c) && decide (c ≤ 'Z')) || (decide ('a' ≤ c) && decide (c ≤ 'z')) ||
    (decide ('0' ≤ c) && decide (c ≤ '9')) || c == '-'

/-- `isBadNum`: all digits, more than one of them, and a leading zero. -/
def isBadNum (v : List Char) : Bool :=
  let i := (v.takeWhile isDigit).length
  i == v.length && decide (1 < i) && v.head? == some '0'

/-- `isNum`: all characters are digits. -/
def isNum (v : List Char) : Bool :=
  (v.takeWhile isDigit).length == v.length

/-- `parseInt`: a maximal run of digits without a leading zero, and the rest. -/
def parseInt : List Char → Option (List Char × List Char)
  | [] => none
  | c :: cs =>
    if c < '0' ∨ '9' < c then none
    else
      let i := 1 + (cs.takeWhile isDigit).length
      if c = '0' ∧ i ≠ 1 then none
      else some (c :: cs.takeWhile isDigit, cs.dropWhile isDigit)

/-- The loop of `parsePrerelease`; `ident` is the text `v[start:i]` of the identifier being
scanned, the argument list is `v[i:]`.  Returns `v[1:i]` at the end of the scan (without the
leading hyphen) and `v[i:]`. -/
def parsePrereleaseLoop : List Char → List Char → Option (List Char × List Char)
  | ident, [] =>
    if ident.isEmpty || isBadNum ident then none else some ([], [])
  | ident, c :: cs =>
    if c = '+' then
      if ident.isEmpty || isBadNum ident then none else some ([], c :: cs)
    else if !isIdentChar c && c != '.' then none
    else if c = '.' then
      if ident.isEmpty || isBadNum ident then none
      else (parsePrereleaseLoop [] cs).map (fun r => (c :: r.1, r.2))
    else (parsePrereleaseLoop (ident ++ [c]) cs).map (fun r => (c :: r.1, r.2))

/-- `parsePrerelease`: a hyphen and dot-separated identifiers. -/
def parsePrerelease : List Char → Option (List Char × List Char)
  | [] => none
  | c :: cs =>
    if c ≠ '-' then none
    else (parsePrereleaseLoop [] cs).map (fun r => (c :: r.1, r.2))

/-- The loop of `parseBuild`; `ident` is `v[start:i]`. -/
def parseBuildLoop : List Char → List Char → Option (List Char × List Char)
  | ident, [] => if ident.isEmpty then none else some ([], [])
  | ident, c :: cs =>
    if !isIdentChar c && c != '.' then none
    else if c = '.' then
      if ident.isEmpty then none
      else (parseBuildLoop [] cs).map (fun r => (c :: r.1, r.2))
    else (parseBuildLoop (ident ++ [c]) cs).map (fun r => (c :: r.1, r.2))

/-- `parseBuild`: a plus sign and dot-separated identifiers. -/
def parseBuild : List Char → Option (List Char × List Char)
  | [] => none
  | c :: cs =>
    if c ≠ '+' then none
    else (parseBuildLoop [] cs).map (fun r => (c :: r.1, r.2))

/-- The tail of `parse` after the patch number: optional pre-release, optional build, and
nothing else. -/
def parseTail (major minor patch : List Char) (v : List Char) : Option parsed :=
  let pre : Option (List Char × List Char) :=
    match v with
    | '-' :: _ => parsePrerelease v
    | _ => some ([], v)
  match pre with
  | none => none
  | some (prerelease, v) =>
    let bld : Option (List Char × List Char) :=
      match v with
      | '+' :: _ => parseBuild v
      | _ => some ([], v)
    match bld with
    | none => none
    | some (build, v) =>
      if v ≠ [] then none
      else some { major := major, minor := minor, patch := patch, short := [],
                  prerelease := prerelease, build := build }

/-- `parse`: the parsed form of `v`, or `none` where the Go function returns `ok = false`. -/
def parse : List Char → Option parsed
  | [] => none
  | c :: v =>
    if c ≠ 'v' then none
    else
      match parseInt v with
      | none => none
      | some (major, []) =>
        some { major := major, minor := ['0'], patch := ['0'], short := ".0.0".data,
               prerelease := [], build := [] }
      | some (major, d :: v) =>
        if d ≠ '.' then none
        else
          match parseInt v with
          | none => none
          | some (minor, []) =>
            some { major := major, minor := minor, patch := ['0'], short := ".0".data,
                   prerelease := [], build := [] }
          | some (minor, e :: v) =>
            if e ≠ '.' then none
            else
              match parseInt v with
              | none => none
              | some (patch, v) => parseTail major minor patch v

/-- `compareInt`: decimal strings compared by length, then lexicographically. -/
def compareInt (x y : List Char) : Int :=
  if x = y then 0
  else if x.length < y.length then -1
  else if x.length > y.length then 1
  else if strLess x y then -1
  else 1

/-- `nextIdent`: the text up to the next dot, and the rest. -/
def nextIdent (x : List Char) : List Char × List Char :=
  (x.takeWhile (fun c => c != '.'), x.dropWhile (fun c => c != '.'))

/-- The loop `for x != "" && y != ""` of `comparePrerelease` with the final
`if x == "" { return -1 } else { return +1 }`. -/
def comparePrereleaseLoop (x y : List Char) : Int :=
  match x, y with
  | [], _ => -1
  | _ :: _, [] => 1
  | _ :: x1, _ :: y1 =>
    let dx := (nextIdent x1).1
    let dy := (nextIdent y1).1
    if dx ≠ dy then
      let ix := isNum dx
      let iy := isNum dy
      if ix ≠ iy then
        if ix then -1 else 1
      else if ix ∧ dx.length < dy.length then -1
      else if ix ∧ dx.length > dy.length then 1
      else if strLess dx dy then -1
      else 1
    else comparePrereleaseLoop (nextIdent x1).2 (nextIdent y1).2
termination_by x.length
decreasing_by
  simp only [nextIdent, List.length_cons]
  exact Nat.lt_succ_of_le (List.dropWhile_sublist _).length_le

/-- `comparePrerelease`. -/
def comparePrerelease (x y : List Char) : Int :=
  if x = y then 0
  else if x = [] then 1
  else if y = [] then -1
  else comparePrereleaseLoop x y

/-- `semver.IsValid`. -/
def IsValid (v : String) : Bool := (parse v.data).isSome

/-- `semver.Compare`. -/
def Compare (v w : String) : Int :=
  match parse v.data, parse w.data with
  | none, none => 0
  | none, some _ => -1
  | some _, none => 1
  | some pv, some pw =>
    if compareInt pv.major pw.major ≠ 0 then compareInt pv.major pw.major
    else if compareInt pv.minor pw.minor ≠ 0 then compareInt pv.minor pw.minor
    else if compareInt pv.patch pw.patch ≠ 0 then compareInt pv.patch pw.patch
    else comparePrerelease pv.prerelease pw.prerelease

end semver

open semver

/-! ## Version comparison (`audit.go`, lines 77-103) -/

/-- `NormalizeVersion` prepends "v" if missing. -/
def NormalizeVersion (v : String) : String :=
  if v = "" then ""
  else if !stringsHasPrefix v "v" then "v" ++ v
  else v

/-- `CompareVersions`: semantic-version comparison with a string-equality fallback. -/
def CompareVersions (installed latest : String) : Int :=
  let ni := NormalizeVersion installed
  let nl := NormalizeVersion latest
  if !semver.IsValid ni || !semver.IsValid nl then
    if installed = latest then 0 else -1
  else semver.Compare ni nl

/-! ## Semantic-version precedence, as the specification states it

The specification asks for "the standard semantic-version ordering" (Semantic Versioning
2.0.0, item 11): major, minor and patch are compared as numbers; a pre-release version is
below the release; pre-release identifiers are compared from left to right, numeric ones as
numbers and below alphanumeric ones, alphanumeric ones in ASCII order, and a longer list of
identifiers is above its own beginning.  Build metadata takes no part. -/

/-- A pre-release identifier. -/
inductive PreId where
  | numeric (n : Nat)
  | alphanumeric (s : List Char)
  deriving DecidableEq, Repr

/-- A semantic version as numbers and pre-release identifiers. -/
structure SemVer where
  major : Nat
  minor : Nat
  patch : Nat
  pre : List PreId
  deriving DecidableEq, Repr

/-- The value of a decimal digit. -/
def digitValue (c : Char) : Nat := c.toNat - '0'.toNat

/-- The number a decimal numeral denotes. -/
def natOfDigits (ds : List Char) : Nat :=
  ds.foldl (fun n c => 10 * n + digitValue c) 0

/-- The dot-separated fields of a text. -/
def splitDots : List Char → List (List Char)
  | [] => [[]]
  | c :: cs =>
    if c = '.' then [] :: splitDots cs
    else
      match splitDots cs with
      | [] => [[c]]
      | h :: t => (c :: h) :: t

/-- The identifier a field denotes: a number when it consists of digits only. -/
def preIdOf (s : List Char) : PreId :=
  if s.all semver.isDigit then .numeric (natOfDigits s) else .alphanumeric s

/-- The identifiers of a pre-release text: none for the empty text, otherwise the fields after
the hyphen. -/
def preIdsOf : List Char → List PreId
  | [] => []
  | _ :: ids => (splitDots ids).map preIdOf

/-- The version that the fields of a parsed version string denote. -/
def SemVer.ofParsed (p : semver.parsed) : SemVer :=
  { major := natOfDigits p.major,
    minor := natOfDigits p.minor,
    patch := natOfDigits p.patch,
    pre := preIdsOf p.prerelease }

/-- The version a string denotes, when the library accepts the string. -/
def versionOf (v : String) : Option SemVer :=
  (semver.parse v.data).map SemVer.ofParsed

/-- Comparison of two numbers: -1, 0 or 1. -/
def cmpNat (a b : Nat) : Int :=
  if a < b then -1 else if a = b then 0 else 1

/-- Precedence of two pre-release identifiers. -/
def PreId.cmp : PreId → PreId → Int
  | .numeric a, .numeric b => cmpNat a b
  | .numeric _, .alphanumeric _ => -1
  | .alphanumeric _, .numeric _ => 1
  | .alphanumeric s, .alphanumeric t => if strLess s t then -1 else if s = t then 0 else 1

/-- Precedence of two lists of pre-release identifiers: the first difference decides, and a
list is above its own beginning. -/
def cmpPreIds : List PreId → List PreId → Int
  | [], [] => 0
  | [], _ :: _ => -1
  | _ :: _, [] => 1
  | a :: as, b :: bs => if a.cmp b ≠ 0 then a.cmp b else cmpPreIds as bs

/-- Precedence by the pre-release part: a version without pre-release identifiers (a release)
is above one with them. -/
def cmpPrerelease : List PreId → List PreId → Int
  | [], [] => 0
  | [], _ :: _ => 1
  | _ :: _, [] => -1
  | a :: as, b :: bs => cmpPreIds (a :: as) (b :: bs)

/-- Semantic-version precedence: -1 when `a` precedes `b`, 0 when they have equal precedence,
1 when `a` follows `b`. -/
def SemVer.precedence (a b : SemVer) : Int :=
  if cmpNat a.major b.major ≠ 0 then cmpNat a.major b.major
  else if cmpNat a.minor b.minor ≠ 0 then cmpNat a.minor b.minor
  else if cmpNat a.patch b.patch ≠ 0 then cmpNat a.patch b.patch
  else cmpPrerelease a.pre b.pre

/-! ## Auxiliary notions for the proofs about version strings -/

/-- A decimal numeral as `parseInt` accepts it: digits, at least one, no leading zero unless
it is "0". -/
structure IsDecimal (t : List Char) : Prop where
  nonempty : t ≠ []
  digits : ∀ c ∈ t, isDigit c = true
  noLeadingZero : t.head? = some '0' → t.length = 1

/-- The text of dot-separated identifiers, each preceded by its dot. -/
def sepJoin : List (List Char) → List Char
  | [] => []
  | a :: r => '.' :: (a ++ sepJoin r)

/-- A pre-release identifier as `parsePrerelease` accepts it. -/
structure ValidIdent (a : List Char) : Prop where
  nonempty : a ≠ []
  chars : ∀ c ∈ a, isIdentChar c = true
  notBadNum : isBadNum a = false

/-- The outcome of one round of the comparison loop on two different identifiers. -/
def identCmp (dx dy : List Char) : Int :=
  if isNum dx ≠ isNum dy then (if isNum dx then -1 else 1)
  else if isNum dx ∧ dx.length < dy.length then -1
  else if isNum dx ∧ dx.length > dy.length then 1
  else if strLess dx dy then -1
  else 1

/-- A pre-release text as `parse` stores it: empty, or a hyphen and valid identifiers. -/
def ValidPre (t : List Char) : Prop :=
  t = [] ∨ ∃ a r, t = '-' :: (a ++ sepJoin r) ∧ ValidIdent a ∧ ∀ b ∈ r, ValidIdent b

/-- The fields of a version that `parse` accepts. -/
structure WellFormed (p : parsed) : Prop where
  major : IsDecimal p.major
  minor : IsDecimal p.minor
  patch : IsDecimal p.patch
  pre : ValidPre p.prerelease

/-- `DeterminePluginType` (`audit.go`, lines 105-117). -/
def DeterminePluginType (hasServer hasWebapp : Bool) : String :=
  if hasServer && hasWebapp then "both"
  else if hasServer then "server"
  else if hasWebapp then "webapp"
  else "unknown"

/-! ## Report model (`audit.go`, lines 37-75 and 139-148) -/

/-- `PluginReport`: the audit data for a single plugin.  `UpdateAvailJSON` is a `*bool`;
`none` is the nil pointer. -/
structure PluginReport where
  PluginID : String := ""
  Name : String := ""
  InstalledVersion : String := ""
  LatestVersion : String := ""
  UpdateAvailable : String := ""
  UpdateAvailJSON : Option Bool := none
  Status : String := ""
  Source : String := ""
  MarketplaceURL : String := ""
  PluginType : String := ""
  deriving DecidableEq, Repr, Inhabited

/-- `AuditSummary`: aggregate statistics.  The counters only ever count elements of a slice, so
they are natural numbers. -/
structure AuditSummary where
  Total : Nat := 0
  Marketplace : Nat := 0
  Bundled : Nat := 0
  MattermostPlugin : Nat := 0
  ThirdParty : Nat := 0
  Outdated : Nat := 0
  UpToDate : Nat := 0
  Unknown : Nat := 0
  Enabled : Nat := 0
  Disabled : Nat := 0
  deriving DecidableEq, Repr

/-- `AuditResult`: the full audit output. -/
structure AuditResult where
  Plugins : List PluginReport
  Summary : AuditSummary
  deriving DecidableEq, Repr

/-- `AuditOptions`. -/
structure AuditOptions where
  OutdatedOnly : Bool := false
  Verbose : Bool := false
  deriving DecidableEq, Repr

/-- `InstalledPlugin`: a plugin as the Mattermost API reports it. -/
structure InstalledPlugin where
  ID : String := ""
  Name : String := ""
  Version : String := ""
  HomepageURL : String := ""
  Status : String := ""
  HasServer : Bool := false
  HasWebapp : Bool := false
  deriving DecidableEq, Repr

/-- Modelled from the spec: the declaration of the type `MarketplacePlugin` is not among the
source files; the specification's MarketplaceEntry has the fields "latest published version"
and "homepage URL", which `client.go` and the tests name `Version` and `HomepageURL`. -/
structure MarketplacePlugin where
  Version : String := ""
  HomepageURL : String := ""
  deriving DecidableEq, Repr

/-- The catalogue `map[string]*MarketplacePlugin` as an association list read by first match;
a stored `none` is a nil pointer. -/
abbrev Catalogue := List (String × Option MarketplacePlugin)

/-- Go `error` values: a plain error, or a `*CLIError` with its code, message and wrapped
error (`errors.go`, lines 14-19). -/
inductive GoError where
  | errorString (msg : String)
  | cliError (Code : Int) (Message : String) (Err : Option GoError)

/-- The interface `MattermostClient` (`client.go`, lines 12-16): what each of the two calls
returns, `Except.error e` standing for a non-nil `err`. -/
structure MattermostClient where
  GetPlugins : Except GoError (List InstalledPlugin)
  GetMarketplacePlugins : Except GoError Catalogue

/-- How a call of `RunAudit`, or of a method of the client, ends: `(result, nil)`,
`(nil, err)`, or a run-time panic on a nil pointer dereference. -/
inductive Outcome (α : Type) where
  | ok (result : α)
  | err (e : GoError)
  | nilDereference

/-- The functions of Go's standard library that `RunAudit` calls and whose results depend
on data outside the repository: `strings.ToLower` (Unicode case tables) and `sort.Slice`
(the sorting algorithm of the Go release in use).  `sortSlice less l` is the content of the
slice `l` after `sort.Slice(l, less)`, `less` reading the two elements compared. -/
structure GoLibrary where
  ToLower : String → String
  sortSlice : (PluginReport → PluginReport → Bool) → List PluginReport → List PluginReport

/-- The requirement of `sort.Interface` on `Less`: a transitive ordering whose
incomparability is transitive too ("if both Less(i, j) and Less(j, k) are false, then
Less(i, k) must be false as well"); irreflexivity is added. -/
def StrictWeakOrder {α : Type} (less : α → α → Bool) : Prop :=
  (∀ a, less a a = false) ∧
  (∀ a b c, less a b = true → less b c = true → less a c = true) ∧
  (∀ a b c, less a b = false → less b c = false → less a c = false)

/-- The documented contract of `sort.Slice`: it rearranges the slice (by swaps), and for a
`less` that meets the requirement the result is in ascending order.  Stability is explicitly
not promised ("The sort is not guaranteed to be stable"). -/
structure SortSliceContract
    (sortSlice : (PluginReport → PluginReport → Bool) → List PluginReport → List PluginReport) :
    Prop where
  perm : ∀ less l, (sortSlice less l).Perm l
  sorted : ∀ less l, StrictWeakOrder less →
    (sortSlice less l).Pairwise (fun a b => less b a = false)

/-! ## The audit engine (`audit.go`, lines 150-262) -/

/-- The body of the loop over `installed` (lines 169-200): the report of one plugin, or
`none` when `mpPlugin.Version` dereferences a nil pointer. -/
def buildReport (mpCatalogue : Catalogue) (p : InstalledPlugin) : Option PluginReport :=
  let report : PluginReport :=
    { PluginID := p.ID, Name := p.Name, InstalledVersion := p.Version, Status := p.Status,
      PluginType := DeterminePluginType p.HasServer p.HasWebapp }
  let lookup : Option MarketplacePlugin × Bool :=
    match mpCatalogue.lookup p.ID with
    | some v => (v, true)
    | none => (none, false)
  let mpPlugin := lookup.1
  let inMarketplace := lookup.2
  let report := { report with Source := ClassifyPluginSource p.ID inMarketplace p.HomepageURL }
  if report.Source = SourceMarketplace then
    match mpPlugin with
    | none => none
    | some mp =>
      let report := { report with LatestVersion := mp.Version, MarketplaceURL := mp.HomepageURL }
      let cmp := CompareVersions p.Version mp.Version
      if cmp < 0 then
        some { report with UpdateAvailable := "true", UpdateAvailJSON := some true }
      else
        some { report with UpdateAvailable := "false", UpdateAvailJSON := some false }
  else
    some { report with UpdateAvailable := "unknown", UpdateAvailJSON := none }

/-- The loop `for _, p := range installed` (lines 167-201). -/
def buildReports (mpCatalogue : Catalogue) : List InstalledPlugin → Option (List PluginReport)
  | [] => some []
  | p :: ps =>
    match buildReport mpCatalogue p with
    | none => none
    | some r => (buildReports mpCatalogue ps).map (fun rs => r :: rs)

/-- The condition of the `--outdated-only` filter (line 207). -/
def keepOutdated (r : PluginReport) : Bool :=
  r.UpdateAvailable == "true" || r.Source != SourceMarketplace

/-- The lookup `sourceOrder[s]` (lines 215-220); a string that is not a key gives 0. -/
def sourceOrder (s : String) : Nat :=
  if s = SourceMarketplace then 0
  else if s = SourceMattermost then 1
  else if s = SourceBundled then 2
  else if s = SourceThirdParty then 3
  else 0

/-- The comparison passed to `sort.Slice` (lines 221-227). -/
def reportLess (toLower : String → String) (ri rj : PluginReport) : Bool :=
  let oi := sourceOrder ri.Source
  let oj := sourceOrder rj.Source
  if oi ≠ oj then decide (oi < oj)
  else strLess (toLower ri.Name).data (toLower rj.Name).data

/-- One iteration of the summary loop (lines 231-256). -/
def summaryStep (summary : AuditSummary) (r : PluginReport) : AuditSummary :=
  let summary := { summary with Total := summary.Total + 1 }
  let summary :=
    if r.Source = SourceMarketplace then
      let summary := { summary with Marketplace := summary.Marketplace + 1 }
      if r.UpdateAvailable = "true" then { summary with Outdated := summary.Outdated + 1 }
      else { summary with UpToDate := summary.UpToDate + 1 }
    else if r.Source = SourceBundled then
      { summary with Bundled := summary.Bundled + 1, Unknown := summary.Unknown + 1 }
    else if r.Source = SourceMattermost then
      { summary with MattermostPlugin := summary.MattermostPlugin + 1,
                     Unknown := summary.Unknown + 1 }
    else if r.Source = SourceThirdParty then
      { summary with ThirdParty := summary.ThirdParty + 1, Unknown := summary.Unknown + 1 }
    else summary
  if r.Status = "enabled" then { summary with Enabled := summary.Enabled + 1 }
  else { summary with Disabled := summary.Disabled + 1 }

/-- The summary loop (lines 229-256). -/
def computeSummary (reports : List PluginReport) : AuditSummary :=
  reports.foldl summaryStep {}

/-- `RunAudit` (lines 151-262).  The calls of `logf` only write to the log and are left out. -/
def RunAudit (lib : GoLibrary) (mmClient : MattermostClient) (opts : AuditOptions) :
    Outcome AuditResult :=
  match mmClient.GetPlugins with
  | .error e => .err e
  | .ok installed =>
    match mmClient.GetMarketplacePlugins with
    | .error e => .err e
    | .ok mpCatalogue =>
      match buildReports mpCatalogue installed with
      | none => .nilDereference
      | some reports =>
        let reports := if opts.OutdatedOnly then reports.filter keepOutdated else reports
        let reports := lib.sortSlice (reportLess lib.ToLower) reports
        .ok { Plugins := reports, Summary := computeSummary reports }

/-! ## A reference instance of the library

Used to evaluate the engine on concrete inputs: ASCII lower-casing, and insertion sort (a
sort that meets the contract of `sort.Slice`). -/

/-- Lower-casing of the ASCII letters. -/
def asciiToLower (s : String) : String := ⟨s.data.map Char.toLower⟩

/-- Insertion sort by `less`. -/
def insertionSortSlice (less : PluginReport → PluginReport → Bool) (l : List PluginReport) :
    List PluginReport :=
  l.insertionSort (fun a b => less b a = false)

/-- The reference library. -/
def refLibrary : GoLibrary :=
  { ToLower := asciiToLower, sortSlice := insertionSortSlice }

/-- Every stored pointer of the catalogue is non-nil. -/
def NoNilEntry (mpCatalogue : Catalogue) : Prop :=
  ∀ k, mpCatalogue.lookup k ≠ some none

/-- The findings before sorting: the reports of the loop, filtered under `OutdatedOnly`. -/
def selected (opts : AuditOptions) (reports : List PluginReport) : List PluginReport :=
  if opts.OutdatedOnly then reports.filter keepOutdated else reports

/-! ## The sorting algorithm of Go's `sort.Slice`

`sort.Slice` belongs to Go's standard library (package `sort`, file `zsortfunc.go`, Go 1.19 and
later): pattern-defeating quicksort with insertion sort up to 12 elements.  The definitions
below transcribe it function by function.  `data` is the slice; `Less i j` applies the
comparison to the elements at `i` and `j`, `Swap i j` exchanges them.  Indexes are natural
numbers; every loop whose Go counter runs down stops at 0 or above.  Loops get as many
rounds as they can take at most, and `pdqsort_func` gets a step budget with `none` for a
budget that runs out. -/

namespace gosort

variable {α : Type} [Inhabited α]

/-- The element `data[i]`. -/
def elemAt (data : List α) (i : Nat) : α := data.getD i default

/-- The call `data.Less(i, j)`. -/
def Less (less : α → α → Bool) (data : List α) (i j : Nat) : Bool :=
  less (elemAt data i) (elemAt data j)

/-- The call `data.Swap(i, j)`. -/
def Swap (data : List α) (i j : Nat) : List α :=
  (data.set i (elemAt data j)).set j (elemAt data i)

/-- The inner loop of `insertionSort_func`:
`for j := i; j > a && data.Less(j, j-1); j-- { data.Swap(j, j-1) }`. -/
def insertionSortInner (less : α → α → Bool) (a : Nat) : Nat → List α → List α
  | 0, data => data
  | j + 1, data =>
    if a < j + 1 && Less less data (j + 1) j then
      insertionSortInner less a j (Swap data (j + 1) j)
    else data

/-- `insertionSort_func` sorts `data[a:b]` using insertion sort. -/
def insertionSort_func (less : α → α → Bool) (data : List α) (a b : Nat) : List α :=
  (List.range' (a + 1) (b - (a + 1))).foldl (fun d i => insertionSortInner less a i d) data

/-- The loop of `siftDown_func`, `rounds` bounding its iterations. -/
def siftDownLoop (less : α → α → Bool) (hi first : Nat) : Nat → Nat → List α → List α
  | 0, _, data => data
  | rounds + 1, root, data =>
    let child := 2 * root + 1
    if child ≥ hi then data
    else
      let child :=
        if child + 1 < hi && Less less data (first + child) (first + child + 1) then child + 1
        else child
      if !Less less data (first + root) (first + child) then data
      else siftDownLoop less hi first rounds child (Swap data (first + root) (first + child))

/-- `siftDown_func` implements the heap property on `data[lo:hi]`. -/
def siftDown_func (less : α → α → Bool) (data : List α) (lo hi first : Nat) : List α :=
  siftDownLoop less hi first (hi + 1) lo data

/-- `heapSort_func`. -/
def heapSort_func (less : α → α → Bool) (data : List α) (a b : Nat) : List α :=
  let first := a
  let lo := 0
  let hi := b - a
  let data := (List.range ((hi - 1) / 2 + 1)).reverse.foldl
    (fun d i => siftDown_func less d i hi first) data
  (List.range hi).reverse.foldl
    (fun d i => siftDown_func less (Swap d first (first + i)) lo i first) data

/-- `bits.Len`: the number of bits needed to represent `n`. -/
def bitsLen (n : Nat) : Nat :=
  (List.range 64).foldl (fun len k => if 2 ^ k ≤ n then k + 1 else len) 0

/-- `xorshift.Next` on a 64-bit state. -/
def xorshiftNext (r : Nat) : Nat :=
  let r := r ^^^ ((r <<< 13) % 2 ^ 64)
  let r := r ^^^ (r >>> 7)
  r ^^^ ((r <<< 17) % 2 ^ 64)

/-- `nextPowerOfTwo`. -/
def nextPowerOfTwo (length : Nat) : Nat := 1 <<< bitsLen length

/-- `breakPatterns_func` scatters three elements around the middle. -/
def breakPatterns_func (data : List α) (a b : Nat) : List α :=
  let length := b - a
  if length ≥ 8 then
    let modulus := nextPowerOfTwo length
    let idx := a + (length / 4) * 2 - 1
    let step : List α × Nat → Nat → List α × Nat := fun s i =>
      let random := xorshiftNext s.2
      let other := random &&& (modulus - 1)
      let other := if other ≥ length then other - length else other
      (Swap s.1 (idx - 1 + i) (a + other), random)
    ((List.range 3).foldl step (data, length)).1
  else data

/-- The type `sortedHint`. -/
inductive sortedHint where
  | unknownHint
  | increasingHint
  | decreasingHint
  deriving DecidableEq, Repr

/-- `order2_func` returns `x, y` with `data[x] <= data[y]`, and the swap count. -/
def order2_func (less : α → α → Bool) (data : List α) (a b swaps : Nat) : Nat × Nat × Nat :=
  if Less less data b a then (b, a, swaps + 1) else (a, b, swaps)

/-- `median_func` returns the index of the median of three elements, and the swap count. -/
def median_func (less : α → α → Bool) (data : List α) (a b c swaps : Nat) : Nat × Nat :=
  let r1 := order2_func less data a b swaps
  let r2 := order2_func less data r1.2.1 c r1.2.2
  let r3 := order2_func less data r1.1 r2.1 r2.2.2
  (r3.2.1, r3.2.2)

/-- `medianAdjacent_func` finds the median of `data[a-1], data[a], data[a+1]`. -/
def medianAdjacent_func (less : α → α → Bool) (data : List α) (a swaps : Nat) : Nat × Nat :=
  median_func less data (a - 1) a (a + 1) swaps

/-- `choosePivot_func` chooses a pivot in `data[a:b]`. -/
def choosePivot_func (less : α → α → Bool) (data : List α) (a b : Nat) : Nat × sortedHint :=
  let l := b - a
  let i := a + l / 4 * 1
  let j := a + l / 4 * 2
  let k := a + l / 4 * 3
  let r : Nat × Nat :=
    if l ≥ 8 then
      if l ≥ 50 then
        let ri := medianAdjacent_func less data i 0
        let rj := medianAdjacent_func less data j ri.2
        let rk := medianAdjacent_func less data k rj.2
        median_func less data ri.1 rj.1 rk.1 rk.2
      else median_func less data i j k 0
    else (j, 0)
  if r.2 = 0 then (r.1, .increasingHint)
  else if r.2 = 12 then (r.1, .decreasingHint)
  else (r.1, .unknownHint)

/-- The loop of `reverseRange_func`. -/
def reverseRangeLoop : Nat → Nat → Nat → List α → List α
  | 0, _, _, data => data
  | rounds + 1, i, j, data =>
    if i < j then reverseRangeLoop rounds (i + 1) (j - 1) (Swap data i j) else data

/-- `reverseRange_func` reverses `data[a:b]`. -/
def reverseRange_func (data : List α) (a b : Nat) : List α :=
  reverseRangeLoop (b - a) a (b - 1) data

/-- The loop `for i <= j && cond(i) { i++ }`. -/
def scanUp (cond : Nat → Bool) (j : Nat) : Nat → Nat → Nat
  | 0, i => i
  | rounds + 1, i => if i ≤ j && cond i then scanUp cond j rounds (i + 1) else i

/-- The loop `for i <= j && cond(j) { j-- }`. -/
def scanDown (cond : Nat → Bool) (i : Nat) : Nat → Nat
  | 0 => 0
  | j + 1 => if i ≤ j + 1 && cond (j + 1) then scanDown cond i j else j + 1

/-- The loop `for j := i - 1; j >= 1; j--` of `partialInsertionSort_func`, which shifts the
smaller element to the left. -/
def shiftLeft (less : α → α → Bool) : Nat → List α → List α
  | 0, data => data
  | j + 1, data =>
    if !Less less data (j + 1) j then data
    else shiftLeft less j (Swap data (j + 1) j)

/-- The loop `for j := i + 1; j < b; j++` of `partialInsertionSort_func`, which shifts the
greater element to the right. -/
def shiftRight (less : α → α → Bool) (b : Nat) : Nat → Nat → List α → List α
  | 0, _, data => data
  | rounds + 1, j, data =>
    if j < b then
      if !Less less data j (j - 1) then data
      else shiftRight less b rounds (j + 1) (Swap data j (j - 1))
    else data

/-- The loop of `partialInsertionSort_func` over `j < maxSteps`; the result is the slice and the
value returned. -/
def partialInsertionSortLoop (less : α → α → Bool) (a b : Nat) :
    Nat → Nat → List α → List α × Bool
  | 0, _, data => (data, false)
  | steps + 1, i, data =>
    let i := scanUp (fun i => !Less less data i (i - 1)) (b - 1) b i
    if i = b then (data, true)
    else if b - a < 50 then (data, false)
    else
      let data := Swap data i (i - 1)
      let data := if i - a ≥ 2 then shiftLeft less (i - 1) data else data
      let data := if b - i ≥ 2 then shiftRight less b b (i + 1) data else data
      partialInsertionSortLoop less a b steps i data

/-- `partialInsertionSort_func` partially sorts a slice and returns true if the slice is sorted
at the end. -/
def partialInsertionSort_func (less : α → α → Bool) (data : List α) (a b : Nat) :
    List α × Bool :=
  partialInsertionSortLoop less a b 5 (a + 1) data

/-- The loop of `partitionEqual_func`. -/
def partitionEqualLoop (less : α → α → Bool) (a : Nat) : Nat → Nat → Nat → List α → List α × Nat
  | 0, i, _, data => (data, i)
  | rounds + 1, i, j, data =>
    let i := scanUp (fun i => !Less less data a i) j (j + 1) i
    let j := scanDown (fun j => Less less data a j) i j
    if i > j then (data, i)
    else partitionEqualLoop less a rounds (i + 1) (j - 1) (Swap data i j)

/-- `partitionEqual_func` partitions `data[a:b]` into elements equal to `data[pivot]` followed
by elements greater than it. -/
def partitionEqual_func (less : α → α → Bool) (data : List α) (a b pivot : Nat) : List α × Nat :=
  let data := Swap data a pivot
  partitionEqualLoop less a (b - a + 1) (a + 1) (b - 1) data

/-- The second loop of `partition_func`; returns the slice and `j`. -/
def partitionLoop (less : α → α → Bool) (a : Nat) : Nat → Nat → Nat → List α → List α × Nat
  | 0, _, j, data => (data, j)
  | rounds + 1, i, j, data =>
    let i := scanUp (fun i => Less less data i a) j (j + 1) i
    let j := scanDown (fun j => !Less less data j a) i j
    if i > j then (data, j)
    else partitionLoop less a rounds (i + 1) (j - 1) (Swap data i j)

/-- `partition_func` does one quicksort partition; returns the slice, the new pivot index and
whether the slice was already partitioned. -/
def partition_func (less : α → α → Bool) (data : List α) (a b pivot : Nat) :
    List α × Nat × Bool :=
  let data := Swap data a pivot
  let i := a + 1
  let j := b - 1
  let i := scanUp (fun i => Less less data i a) j (j + 1) i
  let j := scanDown (fun j => !Less less data j a) i j
  if i > j then (Swap data j a, j, true)
  else
    let data := Swap data i j
    let r := partitionLoop less a (b - a + 1) (i + 1) (j - 1) data
    (Swap r.1 r.2 a, r.2, false)

/-- The state of a round of `pdqsort_func` when it reaches the partition: the slice, the
pivot, `limit`, and whether `partialInsertionSort_func` has found the slice sorted. -/
structure pdqsortRound (α : Type) where
  data : List α
  pivot : Nat
  limit : Nat
  sorted : Bool

/-- The first part of a round of `pdqsort_func`: `breakPatterns_func` after an unbalanced
partition, `choosePivot_func`, the reversal of a slice that looks decreasing, and
`partialInsertionSort_func` on a slice that looks increasing. -/
def pdqsortPrepare (less : α → α → Bool) (data : List α) (a b limit : Nat)
    (wasBalanced wasPartitioned : Bool) : pdqsortRound α :=
  let data := if !wasBalanced then breakPatterns_func data a b else data
  let limit := if !wasBalanced then limit - 1 else limit
  let ch := choosePivot_func less data a b
  let data := if ch.2 = .decreasingHint then reverseRange_func data a b else data
  let pivot := if ch.2 = .decreasingHint then (b - 1) - (ch.1 - a) else ch.1
  let hint := if ch.2 = .decreasingHint then sortedHint.increasingHint else ch.2
  let pis : List α × Bool :=
    if wasBalanced && wasPartitioned && hint = .increasingHint then
      partialInsertionSort_func less data a b
    else (data, false)
  { data := pis.1, pivot := pivot, limit := limit, sorted := pis.2 }

/-- `pdqsort_func` sorts `data[a:b]`; `budget` bounds the number of loop rounds and nested
calls, `none` standing for a budget that ran out.  A round first returns on a short slice
(insertion sort) or on `limit == 0` (heap sort), then prepares (`pdqsortPrepare`), and then
partitions: `partitionEqual_func` and the next round on `data[mid:b]` when the element before
the slice is not less than the pivot, otherwise `partition_func`, a nested call on the shorter
side and the next round on the longer one. -/
def pdqsort_func (less : α → α → Bool) :
    Nat → List α → Nat → Nat → Nat → Bool → Bool → Option (List α)
  | 0, _, _, _, _, _, _ => none
  | budget + 1, data, a, b, limit, wasBalanced, wasPartitioned =>
    if b - a ≤ 12 then some (insertionSort_func less data a b)
    else if limit = 0 then some (heapSort_func less data a b)
    else
      let p := pdqsortPrepare less data a b limit wasBalanced wasPartitioned
      if p.sorted then some p.data
      else if 0 < a && !Less less p.data (a - 1) p.pivot then
        let pe := partitionEqual_func less p.data a b p.pivot
        pdqsort_func less budget pe.1 pe.2 b p.limit wasBalanced wasPartitioned
      else
        let pt := partition_func less p.data a b p.pivot
        if pt.2.1 - a < b - pt.2.1 then
          match pdqsort_func less budget pt.1 a pt.2.1 p.limit true true with
          | none => none
          | some data =>
            pdqsort_func less budget data (pt.2.1 + 1) b p.limit
              (decide (pt.2.1 - a ≥ (b - a) / 8)) pt.2.2
        else
          match pdqsort_func less budget pt.1 (pt.2.1 + 1) b p.limit true true with
          | none => none
          | some data =>
            pdqsort_func less budget data a pt.2.1 p.limit
              (decide (b - pt.2.1 ≥ (b - a) / 8)) pt.2.2

/-- `sort.Slice(x, less)`: `pdqsort_func` on the whole slice with `limit = bits.Len(length)`.
Every round of `pdqsort_func` shortens `data[a:b]`, so `length + 1` rounds are enough. -/
def Slice (less : α → α → Bool) (x : List α) : Option (List α) :=
  pdqsort_func less (x.length + 1) x 0 x.length (bitsLen x.length) true true

end gosort

/-- The library as Go provides it on ASCII names: ASCII lower-casing and `sort.Slice`. -/
def goLibrary : GoLibrary :=
  { ToLower := asciiToLower
    sortSlice := fun less l => (gosort.Slice less l).getD l }

/-! ## A sample run

The installed list and catalogue of the repository's sort-order test, with one outdated
marketplace plugin and one disabled plugin. -/

def exampleInstalled : List InstalledPlugin :=
  [ { ID := "com.example.zebra", Name := "Zebra Plugin", Version := "1.0.0",
      Status := "enabled", HasServer := true },
    { ID := "com.mattermost.confluence", Name := "Confluence", Version := "1.3.0",
      Status := "enabled", HasServer := true, HasWebapp := true },
    { ID := "com.mattermost.calls", Name := "Calls", Version := "1.10.0",
      Status := "enabled", HasServer := true, HasWebapp := true },
    { ID := "com.mattermost.gcal", Name := "Google Calendar", Version := "1.1.0",
      HomepageURL := "https://github.com/mattermost/mattermost-plugin-gcal",
      Status := "disabled", HasServer := true, HasWebapp := true },
    { ID := "com.mattermost.welcomebot", Name := "WelcomeBot", Version := "1.2.0",
      Status := "enabled", HasWebapp := true } ]

def exampleCatalogue : Catalogue :=
  [ ("com.mattermost.confluence",
      some { Version := "1.4.0",
             HomepageURL := "https://github.com/mattermost/mattermost-plugin-confluence" }),
    ("com.mattermost.welcomebot",
      some { Version := "1.2.0",
             HomepageURL := "https://github.com/mattermost/mattermost-plugin-welcomebot" }) ]

def exampleClient : MattermostClient :=
  { GetPlugins := .ok exampleInstalled, GetMarketplacePlugins := .ok exampleCatalogue }

def findingConfluence : PluginReport :=
  { PluginID := "com.mattermost.confluence", Name := "Confluence", InstalledVersion := "1.3.0",
    LatestVersion := "1.4.0", UpdateAvailable := "true", UpdateAvailJSON := some true,
    Status := "enabled", Source := "marketplace",
    MarketplaceURL := "https://github.com/mattermost/mattermost-plugin-confluence",
    PluginType := "both" }

def findingWelcomeBot : PluginReport :=
  { PluginID := "com.mattermost.welcomebot", Name := "WelcomeBot", InstalledVersion := "1.2.0",
    LatestVersion := "1.2.0", UpdateAvailable := "false", UpdateAvailJSON := some false,
    Status := "enabled", Source := "marketplace",
    MarketplaceURL := "https://github.com/mattermost/mattermost-plugin-welcomebot",
    PluginType := "webapp" }

def findingGcal : PluginReport :=
  { PluginID := "com.mattermost.gcal", Name := "Google Calendar", InstalledVersion := "1.1.0",
    UpdateAvailable := "unknown", Status := "disabled", Source := "mattermost-plugin",
    PluginType := "both" }

def findingCalls : PluginReport :=
  { PluginID := "com.mattermost.calls", Name := "Calls", InstalledVersion := "1.10.0",
    UpdateAvailable := "unknown", Status := "enabled", Source := "bundled",
    PluginType := "both" }

def findingZebra : PluginReport :=
  { PluginID := "com.example.zebra", Name := "Zebra Plugin", InstalledVersion := "1.0.0",
    UpdateAvailable := "unknown", Status := "enabled", Source := "third-party",
    PluginType := "server" }

/-- The result of the sample run without the filter. -/
def exampleResult : AuditResult :=
  { Plugins := [findingConfluence, findingWelcomeBot, findingGcal, findingCalls, findingZebra],
    Summary := { Total := 5, Marketplace := 2, Bundled := 1, MattermostPlugin := 1,
                 ThirdParty := 1, Outdated := 1, UpToDate := 1, Unknown := 3,
                 Enabled := 4, Disabled := 1 } }

/-- The result of the sample run with `OutdatedOnly`. -/
def exampleOutdatedResult : AuditResult :=
  { Plugins := [findingConfluence, findingGcal, findingCalls, findingZebra],
    Summary := { Total := 4, Marketplace := 1, Bundled := 1, MattermostPlugin := 1,
                 ThirdParty := 1, Outdated := 1, UpToDate := 0, Unknown := 3,
                 Enabled := 3, Disabled := 1 } }

/-! ## Ties of the sort order -/

/-- Two findings with the same provenance rank and case-insensitively equal names. -/
def sameKey (toLower : String → String) (f g : PluginReport) : Bool :=
  decide (sourceOrder f.Source = sourceOrder g.Source) && decide (toLower f.Name = toLower g.Name)

/-- The sort was stable: for every finding, the findings tied with it are in `sorted` in the
order they have in `reports`. -/
def KeepsTiedOrder (toLower : String → String) (reports sorted : List PluginReport) : Prop :=
  ∀ f, sorted.filter (sameKey toLower f) = reports.filter (sameKey toLower f)

/-- An installed plugin of the thirteen-plugin run: a custom plugin without homepage. -/
def customPlugin (id name : String) : InstalledPlugin :=
  { ID := id, Name := name, Version := "1.0.0", Status := "enabled", HasServer := true }

/-- The finding of `customPlugin id name`. -/
def customFinding (id name : String) : PluginReport :=
  { PluginID := id, Name := name, InstalledVersion := "1.0.0", UpdateAvailable := "unknown",
    Status := "enabled", Source := "third-party", PluginType := "server" }

/-- Thirteen custom plugins: "Relay" first, then twelve plugins that are all named "Bridge". -/
def thirteenInstalled : List InstalledPlugin :=
  [ customPlugin "custom.00" "Relay", customPlugin "custom.01" "Bridge",
    customPlugin "custom.02" "Bridge", customPlugin "custom.03" "Bridge",
    customPlugin "custom.04" "Bridge", customPlugin "custom.05" "Bridge",
    customPlugin "custom.06" "Bridge", customPlugin "custom.07" "Bridge",
    customPlugin "custom.08" "Bridge", customPlugin "custom.09" "Bridge",
    customPlugin "custom.10" "Bridge", customPlugin "custom.11" "Bridge",
    customPlugin "custom.12" "Bridge" ]

/-- A client that reports the thirteen plugins and an empty catalogue. -/
def thirteenClient : MattermostClient :=
  { GetPlugins := .ok thirteenInstalled, GetMarketplacePlugins := .ok [] }

/-- The reports of the thirteen plugins, in the order of the installed list. -/
def thirteenReports : List PluginReport :=
  [ customFinding "custom.00" "Relay", customFinding "custom.01" "Bridge",
    customFinding "custom.02" "Bridge", customFinding "custom.03" "Bridge",
    customFinding "custom.04" "Bridge", customFinding "custom.05" "Bridge",
    customFinding "custom.06" "Bridge", customFinding "custom.07" "Bridge",
    customFinding "custom.08" "Bridge", customFinding "custom.09" "Bridge",
    customFinding "custom.10" "Bridge", customFinding "custom.11" "Bridge",
    customFinding "custom.12" "Bridge" ]

/-- The findings `RunAudit` returns for the thirteen plugins: "custom.06" has moved to the
front of the plugins named "Bridge". -/
def thirteenFindings : List PluginReport :=
  [ customFinding "custom.06" "Bridge", customFinding "custom.01" "Bridge",
    customFinding "custom.02" "Bridge", customFinding "custom.03" "Bridge",
    customFinding "custom.04" "Bridge", customFinding "custom.05" "Bridge",
    customFinding "custom.07" "Bridge", customFinding "custom.08" "Bridge",
    customFinding "custom.09" "Bridge", customFinding "custom.10" "Bridge",
    customFinding "custom.11" "Bridge", customFinding "custom.12" "Bridge",
    customFinding "custom.00" "Relay" ]

/-! ## The sort key -/

/-- What the sort comparison reads of a finding: the provenance rank and the lower-cased
name. -/
def sortKey (toLower : String → String) (f : PluginReport) : Nat × String :=
  (sourceOrder f.Source, toLower f.Name)

/-- The comparison of `RunAudit` on keys: rank first, then the name. -/
def keyLess (k₁ k₂ : Nat × String) : Bool :=
  if k₁.1 ≠ k₂.1 then decide (k₁.1 < k₂.1) else strLess k₁.2.data k₂.2.data

/-- Insertion sort of the reversed slice: a sort that meets the contract of `sort.Slice` and
leaves tied elements in reverse order. -/
def reverseInsertionSortSlice (less : PluginReport → PluginReport → Bool)
    (l : List PluginReport) : List PluginReport :=
  l.reverse.insertionSort (fun a b => less b a = false)

/-- The reference library with the reversing sort. -/
def reverseLibrary : GoLibrary :=
  { ToLower := asciiToLower, sortSlice := reverseInsertionSortSlice }

/-- The findings of the thirteen-plugin run when the sort is stable. -/
def thirteenStable : List PluginReport :=
  [ customFinding "custom.01" "Bridge", customFinding "custom.02" "Bridge",
    customFinding "custom.03" "Bridge", customFinding "custom.04" "Bridge",
    customFinding "custom.05" "Bridge", customFinding "custom.06" "Bridge",
    customFinding "custom.07" "Bridge", customFinding "custom.08" "Bridge",
    customFinding "custom.09" "Bridge", customFinding "custom.10" "Bridge",
    customFinding "custom.11" "Bridge", customFinding "custom.12" "Bridge",
    customFinding "custom.00" "Relay" ]

/-- The thirteen plugins installed in another order: the twelve named "Bridge" first, "Relay"
last. -/
def thirteenRotatedClient : MattermostClient :=
  { GetPlugins := .ok (thirteenInstalled.tail ++ thirteenInstalled.take 1)
    GetMarketplacePlugins := .ok [] }

/-! ## Two runs of the repository's tests -/

/-- The installed list of `TestRunAudit_BundledPluginOverridesMarketplace`: two bundled
plugins. -/
def bundledListedInstalled : List InstalledPlugin :=
  [ { ID := "com.mattermost.calls", Name := "Calls", Version := "1.10.0",
      Status := "enabled", HasServer := true, HasWebapp := true },
    { ID := "github", Name := "GitHub", Version := "2.6.0",
      Status := "enabled", HasServer := true, HasWebapp := true } ]

/-- The catalogue of that test, which lists both bundled plugins. -/
def bundledListedCatalogue : Catalogue :=
  [ ("com.mattermost.calls",
      some { Version := "1.10.0",
             HomepageURL := "https://github.com/mattermost/mattermost-plugin-calls" }),
    ("github",
      some { Version := "2.6.0",
             HomepageURL := "https://github.com/mattermost/mattermost-plugin-github" }) ]

/-- The client of that test. -/
def bundledListedClient : MattermostClient :=
  { GetPlugins := .ok bundledListedInstalled
    GetMarketplacePlugins := .ok bundledListedCatalogue }

/-- The finding for Calls in that run. -/
def findingCallsListed : PluginReport :=
  { PluginID := "com.mattermost.calls", Name := "Calls", InstalledVersion := "1.10.0",
    UpdateAvailable := "unknown", Status := "enabled", Source := "bundled",
    PluginType := "both" }

/-- The finding for GitHub in that run. -/
def findingGitHubListed : PluginReport :=
  { PluginID := "github", Name := "GitHub", InstalledVersion := "2.6.0",
    UpdateAvailable := "unknown", Status := "enabled", Source := "bundled",
    PluginType := "both" }

/-- The result of that run. -/
def bundledListedResult : AuditResult :=
  { Plugins := [findingCallsListed, findingGitHubListed],
    Summary := { Total := 2, Bundled := 2, Unknown := 2, Enabled := 2 } }

/-- The catalogue of `TestRunAudit_InstalledNewerThanMarketplace`: Confluence 1.4.0. -/
def newerCatalogue : Catalogue :=
  [ ("com.mattermost.confluence",
      some { Version := "1.4.0",
             HomepageURL := "https://github.com/mattermost/mattermost-plugin-confluence" }) ]

/-- The client of that test: Confluence 1.5.0 is installed. -/
def newerClient : MattermostClient :=
  { GetPlugins := .ok
      [ { ID := "com.mattermost.confluence", Name := "Confluence", Version := "1.5.0",
          Status := "enabled", HasServer := true, HasWebapp := true } ]
    GetMarketplacePlugins := .ok newerCatalogue }

/-- The finding of that run. -/
def findingConfluenceNewer : PluginReport :=
  { PluginID := "com.mattermost.confluence", Name := "Confluence", InstalledVersion := "1.5.0",
    LatestVersion := "1.4.0", UpdateAvailable := "false", UpdateAvailJSON := some false,
    Status := "enabled", Source := "marketplace",
    MarketplaceURL := "https://github.com/mattermost/mattermost-plugin-confluence",
    PluginType := "both" }

/-- The result of that run. -/
def newerResult : AuditResult :=
  { Plugins := [findingConfluenceNewer],
    Summary := { Total := 1, Marketplace := 1, UpToDate := 1, Enabled := 1 } }

/-! ## The calls on the client (`audit.go`, lines 151-165) -/

/-- The two methods of the interface `MattermostClient`. -/
inductive ClientCall where
  | getPlugins
  | getMarketplacePlugins
  deriving DecidableEq, Repr

/-- `RunAudit` together with the calls it makes on `mmClient`, in order: `GetPlugins` first,
`GetMarketplacePlugins` only after `GetPlugins` returned no error; what follows the two
fetches makes no call and is `RunAudit` itself. -/
def RunAuditCalls (lib : GoLibrary) (mmClient : MattermostClient) (opts : AuditOptions) :
    List ClientCall × Outcome AuditResult :=
  match mmClient.GetPlugins with
  | .error e => ([.getPlugins], .err e)
  | .ok _ =>
    match mmClient.GetMarketplacePlugins with
    | .error e => ([.getPlugins, .getMarketplacePlugins], .err e)
    | .ok _ => ([.getPlugins, .getMarketplacePlugins], RunAudit lib mmClient opts)

/-! ## Errors (`errors.go`) -/

/-- Exit code: success. -/
def ExitSuccess : Int := 0

/-- Exit code: missing URL, invalid auth, bad flags. -/
def ExitConfigError : Int := 1

/-- Exit code: Mattermost instance unreachable or unexpected response. -/
def ExitAPIError : Int := 2

/-- Exit code: Marketplace API unreachable (air-gapped). -/
def ExitMarketplaceError : Int := 3

/-- Exit code: unable to write output file. -/
def ExitOutputError : Int := 4

/-- `configError`. -/
def configError (msg : String) (err : Option GoError) : GoError :=
  .cliError ExitConfigError msg err

/-- `apiError`. -/
def apiError (msg : String) (err : Option GoError) : GoError :=
  .cliError ExitAPIError msg err

/-- `marketplaceError`. -/
def marketplaceError (msg : String) (err : Option GoError) : GoError :=
  .cliError ExitMarketplaceError msg err

/-- `outputError`. -/
def outputError (msg : String) (err : Option GoError) : GoError :=
  .cliError ExitOutputError msg err

/-- The field `Code` of an error that is a `*CLIError`. -/
def GoError.code? : GoError → Option Int
  | .errorString _ => none
  | .cliError c _ _ => some c

/-! ## The Mattermost client (`client.go`) -/

/-- `model.Response` of the Mattermost client library; only `StatusCode` is read. -/
structure Response where
  StatusCode : Int
  deriving DecidableEq, Repr

/-- The verb `%d` of `fmt.Sprintf` on an `int`. -/
def fmtInt (n : Int) : String := toString n

/-- `classifyAPIError` (lines 133-156); `resp = none` is the nil response, `err = none` the
nil error. -/
def classifyAPIError (serverURL : String) (resp : Option Response) (err : Option GoError) :
    GoError :=
  let byStatus : Option GoError :=
    match resp with
    | none => none
    | some resp =>
      if resp.StatusCode = 401 then
        some (configError "error: authentication failed. Check your token or credentials." err)
      else if resp.StatusCode = 403 then
        some (configError
          "error: permission denied. This operation requires a System Administrator account."
          err)
      else if resp.StatusCode = 404 then
        some (apiError
          ("error: API endpoint not found on " ++ serverURL ++ ". Check the server URL.") err)
      else if resp.StatusCode ≥ 500 then
        some (apiError
          ("error: the Mattermost server returned an unexpected error (HTTP " ++
            fmtInt resp.StatusCode ++ "). Check server logs for details.") err)
      else none
  match byStatus with
  | some e => e
  | none =>
    if serverURL ≠ "" then
      apiError ("error: unable to connect to " ++ serverURL ++
        ". Check the URL and network connectivity.") err
    else apiError "error: unexpected API error." err

/-- `model.Manifest` of the Mattermost client library: the fields `MMClient` reads. -/
structure Manifest where
  Id : String
  Version : String
  deriving DecidableEq, Repr

/-- `model.BaseMarketplacePlugin` of the Mattermost client library: the fields `MMClient`
reads; `Manifest = none` is the nil pointer. -/
structure BaseMarketplacePlugin where
  HomepageURL : String
  Manifest : Option Manifest
  deriving DecidableEq, Repr

/-- `model.MarketplacePlugin` of the Mattermost client library, which embeds a
`*BaseMarketplacePlugin`; `none` is the nil pointer. -/
structure model.MarketplacePlugin where
  BaseMarketplacePlugin : Option BaseMarketplacePlugin
  deriving DecidableEq, Repr

/-- The method of `model.Client4` that `MMClient.GetMarketplacePlugins` calls: for a page
number and a page size, the triple `(plugins, resp, err)` it returns.  `plugins` is a
`[]*model.MarketplacePlugin`; an element `none` is a nil pointer. -/
structure Client4 where
  GetMarketplacePlugins :
    (page perPage : Nat) →
      List (Option model.MarketplacePlugin) × Option Response × Option GoError

/-- The loop `for _, p := range plugins` of `MMClient.GetMarketplacePlugins` (lines 115-122):
an assignment `result[id] = v` puts the pair in front, where the lookup finds it first.
`p.Manifest` and `p.HomepageURL` are read through the pointer `p` and the embedded pointer:
when one of the two is nil the loop panics, which is the result `none`. -/
def addPlugins (result : Catalogue) : List (Option model.MarketplacePlugin) → Option Catalogue
  | [] => some result
  | p :: ps =>
    match p with
    | none => none
    | some p =>
      match p.BaseMarketplacePlugin with
      | none => none
      | some b =>
        match b.Manifest with
        | some m =>
          addPlugins
            ((m.Id, some { Version := m.Version, HomepageURL := b.HomepageURL }) :: result) ps
        | none => addPlugins result ps

/-- The loop `for { ... page++ }` of `MMClient.GetMarketplacePlugins` (lines 105-128), run for
at most `fuel` pages; `none` when the pages are not exhausted by then. -/
def getMarketplacePluginsLoop (client : Client4) (perPage : Nat) :
    Nat → Nat → Catalogue → Option (Outcome Catalogue)
  | 0, _, _ => none
  | fuel + 1, page, result =>
    match client.GetMarketplacePlugins page perPage with
    | (_, resp, some err) => some (.err (classifyAPIError "" resp (some err)))
    | (plugins, _, none) =>
      match addPlugins result plugins with
      | none => some .nilDereference
      | some result =>
        if plugins.length < perPage then some (.ok result)
        else getMarketplacePluginsLoop client perPage fuel (page + 1) result

/-- `MMClient.GetMarketplacePlugins` (lines 99-131), run for at most `fuel` pages. -/
def MMClient.GetMarketplacePlugins (client : Client4) (fuel : Nat) :
    Option (Outcome Catalogue) :=
  getMarketplacePluginsLoop client 200 fuel 0 []

/-! ## Runs of the repository's error tests -/

/-- The client of `TestRunAudit_MMClientError`. -/
def failingClient : MattermostClient :=
  { GetPlugins := .error (apiError "connection failed" none)
    GetMarketplacePlugins := .ok [] }

/-- The client of `TestRunAudit_MarketplaceUnreachable`. -/
def unreachableClient : MattermostClient :=
  { GetPlugins := .ok
      [ { ID := "com.mattermost.confluence", Name := "Confluence", Version := "1.3.0",
          Status := "enabled", HasServer := true, HasWebapp := true } ]
    GetMarketplacePlugins := .error (apiError "marketplace unreachable" none) }

/-- A Mattermost server without access to the Marketplace: it answers the request for the
first page with the status 500. -/
def airGappedClient4 : Client4 :=
  { GetMarketplacePlugins := fun _ _ =>
      ([], some { StatusCode := 500 },
        some (.errorString "failed to get remote marketplace plugins")) }

/-- The client of `TestRunAudit_NoPlugins`. -/
def noPluginsClient : MattermostClient :=
  { GetPlugins := .ok []
    GetMarketplacePlugins := .ok [] }

/-! ## The writer of `encoding/csv`

`formatCSV` writes through a `csv.Writer` with its default settings (`Comma = ','`,
`UseCRLF = false`).  The library is not part of the repository; the definitions below
transcribe `Writer.fieldNeedsQuotes` and `Writer.Write` on character lists.  The test
`unicode.IsSpace` on the first character of a field depends on the Unicode tables of the Go
release and is a parameter. -/

namespace csv

/-- `Writer.fieldNeedsQuotes`: a field is quoted when it is `\.`, when it holds a line feed, a
carriage return, a quote or the comma, or when it begins with a space character; the empty
field never is. -/
def fieldNeedsQuotes (isSpace : Char → Bool) (field : List Char) : Bool :=
  match field with
  | [] => false
  | r1 :: _ =>
    if field = ['\\', '.'] then true
    else if field.any (fun c => c == '\n' || c == '\r' || c == '"' || c == ',') then true
    else isSpace r1

/-- The loop of `Writer.Write` over a quoted field: every character is copied, a quote is
written twice. -/
def writeQuotedBody : List Char → List Char
  | [] => []
  | c :: cs => if c = '"' then '"' :: '"' :: writeQuotedBody cs else c :: writeQuotedBody cs

/-- One field as `Writer.Write` writes it. -/
def writeField (isSpace : Char → Bool) (field : List Char) : List Char :=
  if !fieldNeedsQuotes isSpace field then field
  else '"' :: (writeQuotedBody field ++ ['"'])

/-- The fields of a record with a comma between two of them. -/
def writeFields (isSpace : Char → Bool) : List (List Char) → List Char
  | [] => []
  | [field] => writeField isSpace field
  | field :: fields => writeField isSpace field ++ ',' :: writeFields isSpace fields

/-- `Writer.Write`: the text written for one record, ended by a line feed. -/
def Write (isSpace : Char → Bool) (record : List String) : List Char :=
  writeFields isSpace (record.map String.data) ++ ['\n']

end csv

/-! ## Rendering as CSV (`output.go`, lines 131-160) -/

/-- The header record of `formatCSV`. -/
def csvHeader : List String :=
  ["plugin_id", "name", "installed_version", "latest_version",
   "update_available", "status", "type", "source", "marketplace_url"]

/-- The record `formatCSV` writes for one finding. -/
def csvRecord (p : PluginReport) : List String :=
  [p.PluginID, p.Name, p.InstalledVersion, p.LatestVersion, p.UpdateAvailable, p.Status,
   p.PluginType, p.Source, p.MarketplaceURL]

/-- `formatCSV`: the text written to `w` and the error returned.  The writer `w` is taken to
accept every write, so that the calls of `cw.Write` and `cw.Error` return nil. -/
def formatCSV (isSpace : Char → Bool) (result : AuditResult) : String × Option GoError :=
  let header := csv.Write isSpace csvHeader
  let rows := result.Plugins.map (fun p => csv.Write isSpace (csvRecord p))
  (String.mk (header ++ rows.flatten), none)

/-! ## Reading CSV by the grammar of RFC 4180

A reading beside the reader of Go's library, which follows further down: the grammar of
RFC 4180 with the line feed, which `csv.Writer` writes, as the end of a record.  A field that
begins with a quote runs to the closing quote, two quotes inside standing for one; any other
field runs to the next comma or line feed and holds no quote.  Nothing is dropped from a
field. -/

/-- The text of a quoted field after its opening quote, and what follows the closing quote. -/
def parseQuoted : List Char → Option (List Char × List Char)
  | [] => none
  | c :: cs =>
    if c = '"' then
      match cs with
      | [] => some ([], [])
      | d :: ds =>
        if d = '"' then (parseQuoted ds).map (fun r => ('"' :: r.1, r.2))
        else some ([], d :: ds)
    else (parseQuoted cs).map (fun r => (c :: r.1, r.2))

/-- The text of an unquoted field, and what follows it. -/
def parseUnquoted : List Char → Option (List Char × List Char)
  | [] => some ([], [])
  | c :: cs =>
    if c = ',' ∨ c = '\n' then some ([], c :: cs)
    else if c = '"' then none
    else (parseUnquoted cs).map (fun r => (c :: r.1, r.2))

/-- One field, and what follows it. -/
def parseField : List Char → Option (List Char × List Char)
  | [] => some ([], [])
  | c :: cs => if c = '"' then parseQuoted cs else parseUnquoted (c :: cs)

/-- One record (at most `fuel` fields), and what follows its line feed. -/
def parseRecord : Nat → List Char → Option (List (List Char) × List Char)
  | 0, _ => none
  | fuel + 1, input =>
    match parseField input with
    | none => none
    | some (field, rest) =>
      match rest with
      | [] => some ([field], [])
      | c :: cs =>
        if c = '\n' then some ([field], cs)
        else if c = ',' then (parseRecord fuel cs).map (fun r => (field :: r.1, r.2))
        else none

/-- The records of a text (at most `fuel` of them). -/
def parseRecords : Nat → List Char → Option (List (List (List Char)))
  | 0, _ => none
  | fuel + 1, input =>
    match input with
    | [] => some []
    | c :: cs =>
      match parseRecord (cs.length + 2) (c :: cs) with
      | none => none
      | some (record, rest) => (parseRecords fuel rest).map (fun rs => record :: rs)

/-- The records of a CSV text, or `none` when the text is not well formed. -/
def parseCSV (text : String) : Option (List (List String)) :=
  (parseRecords (text.data.length + 1) text.data).map
    (fun rs => rs.map (fun r => r.map String.mk))

/-! ## The reader of `encoding/csv`

`TestFormatCSV` parses the output with `csv.NewReader(...).ReadAll()`.  The library is not part
of the repository; the definitions below transcribe `Reader.readLine`, `Reader.readRecord` and
`Reader.ReadAll` of its `reader.go` on character lists, with the settings of `csv.NewReader`
(`Comma = ','`, no `Comment`, `FieldsPerRecord = 0`, `LazyQuotes`, `TrimLeadingSpace` and
`ReuseRecord` false).  The reader works line by line: `readLine` drops the carriage return of
a line that ends with a carriage return and a line feed, inside quoted fields too, lines that
are empty between records are skipped, and every record must have as many fields as the
first.  The error values are not told apart: what the code reads of them is whether the error
is `io.EOF`.  The loops run on fuel that the length of the input bounds. -/

namespace csv

/-- `lengthNL`: 1 when the line ends with a line feed, 0 otherwise. -/
def lengthNL (b : List Char) : Nat :=
  if b.getLast? = some '\n' then 1 else 0

/-- `bufio.Reader.ReadSlice` with the line feed as delimiter: the input up to and including
its first line feed, all of it when it holds none, and the input that is left. -/
def readSlice : List Char → List Char × List Char
  | [] => ([], [])
  | c :: cs => if c = '\n' then (['\n'], cs) else (c :: (readSlice cs).1, (readSlice cs).2)

/-- `Reader.readLine`: the next line, the input left, and whether the error is `io.EOF`.
`ReadSlice` reports `io.EOF` when it found no line feed; the error is cleared when something
was read, and a carriage return at the very end is then dropped; a line that ends with a
carriage return and a line feed loses the carriage return. -/
def readLine (input : List Char) : List Char × List Char × Bool :=
  let slice := (readSlice input).1
  let rest := (readSlice input).2
  let noDelim := decide (slice.getLast? ≠ some '\n')
  let eof := noDelim && slice.isEmpty
  let line := if noDelim ∧ slice.getLast? = some '\r' then slice.dropLast else slice
  let line :=
    if line.getLast? = some '\n' ∧ line.dropLast.getLast? = some '\r' then
      line.dropLast.dropLast ++ ['\n']
    else line
  (line, rest, eof)

/-- The first loop of `Reader.readRecord`: lines are read until one is not empty; `none` is
`io.EOF`, otherwise the line and the input left. -/
def skipEmptyLines : Nat → List Char → Option (List Char × List Char)
  | 0, _ => none
  | fuel + 1, input =>
    let r := readLine input
    if r.2.2 then none
    else if r.1.length = lengthNL r.1 then skipEmptyLines fuel r.2.1
    else some (r.1, r.2.1)

/-- The loop of `Reader.readRecord` over a quoted field, entered after the opening quote with
what is left of the line and of the input (`LazyQuotes` is false).  The result is the text of
the field, whether a comma ended it (`continue parseField`) or the end of the line (`break
parseField`), and what is left of the line and of the input; `none` is a `ParseError`. -/
def readQuoted : Nat → List Char → List Char → Option (List Char × Bool × List Char × List Char)
  | 0, _, _ => none
  | fuel + 1, line, rest =>
    match line.dropWhile (fun c => c != '"') with
    | _ :: after =>
      -- Hit next quote.
      let before := line.takeWhile (fun c => c != '"')
      if after.head? = some '"' then
        (readQuoted fuel after.tail rest).map (fun r => (before ++ '"' :: r.1, r.2))
      else if after.head? = some ',' then some (before, true, after.tail, rest)
      else if lengthNL after = after.length then some (before, false, after, rest)
      else none
    | [] =>
      if line ≠ [] then
        -- Hit end of line (copy all data so far).
        let r := readLine rest
        (readQuoted fuel r.1 r.2.1).map (fun q => (line ++ q.1, q.2))
      else none

/-- The loop `parseField` of `Reader.readRecord` (`TrimLeadingSpace` and `LazyQuotes` are
false, `Comma` is the comma): the fields of the record that begins with `line`, and the input
left after it; `none` is a `ParseError`. -/
def parseFields : Nat → List Char → List Char → Option (List (List Char) × List Char)
  | 0, _, _ => none
  | fuel + 1, line, rest =>
    if line.head? ≠ some '"' then
      -- Non-quoted string field
      match line.dropWhile (fun c => c != ',') with
      | _ :: after =>
        let field := line.takeWhile (fun c => c != ',')
        if '"' ∈ field then none
        else (parseFields fuel after rest).map (fun r => (field :: r.1, r.2))
      | [] =>
        let field := line.take (line.length - lengthNL line)
        if '"' ∈ field then none else some ([field], rest)
    else
      -- Quoted string field
      match readQuoted (line.length + rest.length + 1) line.tail rest with
      | none => none
      | some (field, true, line', rest') =>
        (parseFields fuel line' rest').map (fun r => (field :: r.1, r.2))
      | some (field, false, _, rest') => some ([field], rest')

/-- What a call of `Reader.readRecord` returns. -/
inductive RecordRead where
  /-- The error `io.EOF`: the input is used up. -/
  | eof
  /-- A `ParseError`. -/
  | parseError
  /-- A record, the new value of `FieldsPerRecord`, and the input left. -/
  | record (fields : List (List Char)) (fieldsPerRecord : Nat) (rest : List Char)
  deriving DecidableEq, Repr

/-- `Reader.readRecord` with the number of fields expected (`FieldsPerRecord`; 0 before the
first record, which sets it). -/
def readRecord (fieldsPerRecord : Nat) (input : List Char) : RecordRead :=
  match skipEmptyLines (input.length + 1) input with
  | none => .eof
  | some (line, rest) =>
    match parseFields (line.length + rest.length + 1) line rest with
    | none => .parseError
    | some (fields, rest') =>
      if fieldsPerRecord > 0 then
        if fields.length ≠ fieldsPerRecord then .parseError
        else .record fields fieldsPerRecord rest'
      else .record fields fields.length rest'

/-- The loop of `Reader.ReadAll`: records are read until `io.EOF`; an error ends the reading
without records. -/
def readAllLoop : Nat → Nat → List Char → Option (List (List (List Char)))
  | 0, _, _ => none
  | fuel + 1, fieldsPerRecord, input =>
    match readRecord fieldsPerRecord input with
    | .eof => some []
    | .parseError => none
    | .record fields n rest => (readAllLoop fuel n rest).map (fun rs => fields :: rs)

/-- `csv.NewReader(strings.NewReader(text)).ReadAll()`: the records of the text, `none` when
the reader returns an error. -/
def ReadAll (text : String) : Option (List (List String)) :=
  (readAllLoop (text.data.length + 1) 0 text.data).map
    (fun rs => rs.map (fun r => r.map String.mk))

end csv

/-! ## Rendering as a table (`output.go`, lines 26-129 and 215-223) -/

/-- `updateIndicator`: the text of the UPDATE? column. -/
def updateIndicator (p : PluginReport) : String :=
  if p.UpdateAvailable = "true" then "YES ⚠" else "No"

/-- `capitalizeStatus`. -/
def capitalizeStatus (s : String) : String :=
  if s = "enabled" then "Enabled"
  else if s = "disabled" then "Disabled"
  else s

/-- The four slices `formatTable` separates the findings into. -/
structure TableGroups where
  marketplace : List PluginReport := []
  mattermost : List PluginReport := []
  bundled : List PluginReport := []
  thirdParty : List PluginReport := []
  deriving DecidableEq, Repr

/-- One iteration of the loop that separates the findings by source (lines 29-40). -/
def groupStep (g : TableGroups) (p : PluginReport) : TableGroups :=
  if p.Source = SourceMarketplace then { g with marketplace := g.marketplace ++ [p] }
  else if p.Source = SourceMattermost then { g with mattermost := g.mattermost ++ [p] }
  else if p.Source = SourceBundled then { g with bundled := g.bundled ++ [p] }
  else { g with thirdParty := g.thirdParty ++ [p] }

/-- The loop that separates the findings by source. -/
def groupBySource (plugins : List PluginReport) : TableGroups :=
  plugins.foldl groupStep {}

/-- One piece of what `formatTable` writes: text written to `w` directly, or the text written
to a `tabwriter.Writer` between its creation and its `Flush`, which the tabwriter aligns and
passes on to `w`. -/
inductive TablePiece where
  | direct (text : String)
  | tabbed (text : String)
  deriving DecidableEq, Repr

/-- The row of a finding in the Marketplace section (line 50). -/
def marketplaceRow (p : PluginReport) : String :=
  p.Name ++ "\t" ++ p.InstalledVersion ++ "\t" ++ p.LatestVersion ++ "\t" ++
    updateIndicator p ++ "\t" ++ capitalizeStatus p.Status ++ "\n"

/-- The row of a finding in the three other sections (lines 66, 82, 98). -/
def plainRow (p : PluginReport) : String :=
  p.Name ++ "\t" ++ p.InstalledVersion ++ "\t" ++ capitalizeStatus p.Status ++ "\n"

/-- The text under the header of the Marketplace section (lines 44-55). -/
def marketplaceBody (marketplace : List PluginReport) : TablePiece :=
  if marketplace.length > 0 then
    .tabbed ("NAME\tINSTALLED\tLATEST\tUPDATE?\tSTATUS" ++ "\n" ++
      String.join (marketplace.map marketplaceRow))
  else .direct ("(none)" ++ "\n")

/-- The text under the header of one of the three other sections (lines 61-71, 77-87,
93-103). -/
def plainBody (plugins : List PluginReport) : TablePiece :=
  if plugins.length > 0 then
    .tabbed ("NAME\tINSTALLED\tSTATUS" ++ "\n" ++ String.join (plugins.map plainRow))
  else .direct ("(none)" ++ "\n")

/-- The summary line (lines 108-118). -/
def summaryLine (s : AuditSummary) : String :=
  "Summary: " ++ fmtInt s.Total ++ " plugin(s) total — " ++ fmtInt s.Marketplace ++
    " marketplace (" ++ fmtInt s.Outdated ++ " outdated, " ++ fmtInt s.UpToDate ++
    " up to date), " ++ fmtInt s.MattermostPlugin ++ " mattermost, " ++ fmtInt s.Bundled ++
    " bundled, " ++ fmtInt s.ThirdParty ++ " third-party/custom — " ++ fmtInt s.Enabled ++
    " enabled, " ++ fmtInt s.Disabled ++ " disabled\n"

/-- What `formatTable` writes, piece by piece in the order of the source. -/
def formatTablePieces (result : AuditResult) : List TablePiece :=
  let g := groupBySource result.Plugins
  [ .direct ("=== Marketplace Plugins (" ++ fmtInt g.marketplace.length ++ ") ===\n"),
    marketplaceBody g.marketplace,
    .direct "\n",
    .direct ("=== Mattermost Plugins (" ++ fmtInt g.mattermost.length ++ ") ===\n"),
    plainBody g.mattermost,
    .direct "\n",
    .direct ("=== Bundled Mattermost Plugins (" ++ fmtInt g.bundled.length ++ ") ===\n"),
    plainBody g.bundled,
    .direct "\n",
    .direct ("=== Third-Party / Custom Plugins (" ++ fmtInt g.thirdParty.length ++ ") ===\n"),
    plainBody g.thirdParty,
    .direct "\n",
    .direct (summaryLine result.Summary) ]

/-- The text a piece leaves in `w`; `tabwriter` is the function of the library
`text/tabwriter` from the text written to a writer made by
`NewWriter(w, 0, 0, 2, ' ', 0)` to the text it passes on at `Flush`. -/
def TablePiece.render (tabwriter : String → String) : TablePiece → String
  | .direct text => text
  | .tabbed text => tabwriter text

/-- `formatTable`: the text written to `w` and the error returned (always nil). -/
def formatTable (tabwriter : String → String) (result : AuditResult) :
    String × Option GoError :=
  (String.join ((formatTablePieces result).map (TablePiece.render tabwriter)), none)

/-! ## Rendering as JSON (`output.go`, lines 162-213) -/

/-- `jsonPlugin`: the JSON form of a finding. -/
structure jsonPlugin where
  PluginID : String
  Name : String
  InstalledVersion : String
  LatestVersion : String
  UpdateAvailable : Option Bool
  Status : String
  PluginType : String
  Source : String
  MarketplaceURL : String
  deriving DecidableEq, Repr

/-- `jsonOutput`: the JSON-specific output structure. -/
structure jsonOutput where
  Plugins : List jsonPlugin
  Summary : AuditSummary
  deriving DecidableEq, Repr

/-- The body of the loop of `formatJSON` (lines 183-193). -/
def toJSONPlugin (p : PluginReport) : jsonPlugin :=
  { PluginID := p.PluginID, Name := p.Name, InstalledVersion := p.InstalledVersion,
    LatestVersion := p.LatestVersion, UpdateAvailable := p.UpdateAvailJSON,
    Status := p.Status, PluginType := p.PluginType, Source := p.Source,
    MarketplaceURL := p.MarketplaceURL }

/-- The value `out` that `formatJSON` marshals (lines 181-200). -/
def toJSONOutput (result : AuditResult) : jsonOutput :=
  { Plugins := result.Plugins.map toJSONPlugin, Summary := result.Summary }

/-- How `encoding/json` encodes a `*bool`: the nil pointer as `null`. -/
def jsonBool : Option Bool → String
  | none => "null"
  | some true => "true"
  | some false => "false"

/-- An object as `json.MarshalIndent(v, "", "  ")` lays it out at the indentation `indent`;
the members are the keys with their encoded values. -/
def jsonObject (indent : String) (members : List (String × String)) : String :=
  if members.isEmpty then "\x7b\x7d"
  else "\x7b\n" ++ ",\n".intercalate
    (members.map (fun m => indent ++ "  " ++ "\"" ++ m.1 ++ "\": " ++ m.2)) ++
    "\n" ++ indent ++ "\x7d"

/-- An array as `json.MarshalIndent(v, "", "  ")` lays it out at the indentation `indent`. -/
def jsonArray (indent : String) (items : List String) : String :=
  if items.isEmpty then "[]"
  else "[\n" ++ ",\n".intercalate (items.map (fun item => indent ++ "  " ++ item)) ++
    "\n" ++ indent ++ "]"

/-- The members of the object of a `jsonPlugin`, by its field tags; `jsonString` is the
encoding of a string value by `encoding/json`. -/
def jsonPluginMembers (jsonString : String → String) (p : jsonPlugin) :
    List (String × String) :=
  [ ("plugin_id", jsonString p.PluginID),
    ("name", jsonString p.Name),
    ("installed_version", jsonString p.InstalledVersion),
    ("latest_version", jsonString p.LatestVersion),
    ("update_available", jsonBool p.UpdateAvailable),
    ("status", jsonString p.Status),
    ("type", jsonString p.PluginType),
    ("source", jsonString p.Source),
    ("marketplace_url", jsonString p.MarketplaceURL) ]

/-- The members of the object of an `AuditSummary`, by its field tags. -/
def jsonSummaryMembers (s : AuditSummary) : List (String × String) :=
  [ ("total", fmtInt s.Total), ("marketplace", fmtInt s.Marketplace),
    ("bundled", fmtInt s.Bundled), ("mattermost_plugin", fmtInt s.MattermostPlugin),
    ("third_party", fmtInt s.ThirdParty), ("outdated", fmtInt s.Outdated),
    ("up_to_date", fmtInt s.UpToDate), ("unknown", fmtInt s.Unknown),
    ("enabled", fmtInt s.Enabled), ("disabled", fmtInt s.Disabled) ]

/-- The text `json.MarshalIndent(out, "", "  ")` returns for a `jsonOutput`. -/
def marshalIndent (jsonString : String → String) (out : jsonOutput) : String :=
  jsonObject ""
    [ ("plugins", jsonArray "  "
        (out.Plugins.map (fun p => jsonObject "    " (jsonPluginMembers jsonString p)))),
      ("summary", jsonObject "  " (jsonSummaryMembers out.Summary)) ]

/-- `formatJSON`: the text written to `w`, which is the marshalled value and a line feed, and
the error returned (nil: marshalling these types does not fail and `w` accepts every
write). -/
def formatJSON (jsonString : String → String) (result : AuditResult) :
    String × Option GoError :=
  (marshalIndent jsonString (toJSONOutput result) ++ "\n", none)

/-! ## Choice of the format (`output.go`, lines 12-24) -/

/-- The functions of Go's standard library that the formatters call and that are not
transcribed: `unicode.IsSpace` (Unicode tables), the alignment of `text/tabwriter`, and the
encoding of a string by `encoding/json` (its escapes differ between Go releases). -/
structure OutputLibrary where
  IsSpace : Char → Bool
  tabwriter : String → String
  jsonString : String → String

/-- `FormatOutput`: the text written to `w` and the error returned. -/
def FormatOutput (lib : GoLibrary) (out : OutputLibrary) (result : AuditResult)
    (format : String) : String × Option GoError :=
  let f := lib.ToLower format
  if f = "table" then formatTable out.tabwriter result
  else if f = "csv" then formatCSV out.IsSpace result
  else if f = "json" then formatJSON out.jsonString result
  else ("", some (.errorString ("unknown format: " ++ format)))

/-! ## A reference instance of the output library -/

/-- The space characters of Latin-1, as `unicode.IsSpace` lists them. -/
def latin1IsSpace (c : Char) : Bool :=
  c == '\t' || c == '\n' || c == Char.ofNat 0x0B || c == Char.ofNat 0x0C || c == '\r' ||
    c == ' ' || c == Char.ofNat 0x85 || c == Char.ofNat 0xA0

/-- A stand-in for the tabwriter that passes the text on unaligned. -/
def plainTabwriter (text : String) : String := text

/-- The encoding of a string without characters to escape: the text between quotes. -/
def plainJSONString (s : String) : String := "\"" ++ s ++ "\""

/-- The reference output library. -/
def refOutputLibrary : OutputLibrary :=
  { IsSpace := latin1IsSpace, tabwriter := plainTabwriter, jsonString := plainJSONString }

/-! ## The sample result of the output tests (`output_test.go`, lines 10-90) -/

/-- The result `sampleResult()` of the output tests. -/
def sampleResult : AuditResult :=
  { Plugins :=
      [ { PluginID := "com.mattermost.confluence", Name := "Confluence",
          InstalledVersion := "1.3.0", LatestVersion := "1.4.0", UpdateAvailable := "true",
          UpdateAvailJSON := some true, Status := "enabled", Source := SourceMarketplace,
          MarketplaceURL := "https://github.com/mattermost/mattermost-plugin-confluence",
          PluginType := "both" },
        { PluginID := "com.mattermost.welcomebot", Name := "WelcomeBot",
          InstalledVersion := "1.2.0", LatestVersion := "1.2.0", UpdateAvailable := "false",
          UpdateAvailJSON := some false, Status := "enabled", Source := SourceMarketplace,
          MarketplaceURL := "https://github.com/mattermost/mattermost-plugin-welcomebot",
          PluginType := "server" },
        { PluginID := "com.mattermost.gcal", Name := "Google Calendar",
          InstalledVersion := "1.1.0", LatestVersion := "", UpdateAvailable := "unknown",
          UpdateAvailJSON := none, Status := "enabled", Source := SourceMattermost,
          MarketplaceURL := "", PluginType := "both" },
        { PluginID := "com.mattermost.calls", Name := "Calls",
          InstalledVersion := "1.10.0", LatestVersion := "", UpdateAvailable := "unknown",
          UpdateAvailJSON := none, Status := "enabled", Source := SourceBundled,
          MarketplaceURL := "", PluginType := "both" },
        { PluginID := "com.pexip.meetings", Name := "Pexip",
          InstalledVersion := "1.3.0", LatestVersion := "", UpdateAvailable := "unknown",
          UpdateAvailJSON := none, Status := "disabled", Source := SourceThirdParty,
          MarketplaceURL := "", PluginType := "server" } ],
    Summary :=
      { Total := 5, Marketplace := 2, Bundled := 1, MattermostPlugin := 1, ThirdParty := 1,
        Outdated := 1, UpToDate := 1, Unknown := 3, Enabled := 4, Disabled := 1 } }

/-- The result without findings of `TestFormatTable_EmptyResult`. -/
def emptyResult : AuditResult := { Plugins := [], Summary := {} }

/-- The number of places at which `sub` occurs in a text. -/
def occurrences (sub : List Char) : List Char → Nat
  | [] => 0
  | c :: cs => (if sub.isPrefixOf (c :: cs) then 1 else 0) + occurrences sub cs

/-- A text without the carriage returns that stand directly before a line feed or at its
very end; a text that this leaves as it is holds no carriage return before a line feed. -/
def dropCarriageReturns : List Char → List Char
  | [] => []
  | c :: cs =>
    if c = '\r' ∧ (cs = [] ∨ cs.head? = some '\n') then dropCarriageReturns cs
    else c :: dropCarriageReturns cs

/-! ## A run with a line break in a name -/

/-- An installed list of one plugin whose name holds a carriage return and a line feed. -/
def crlfInstalled : List InstalledPlugin :=
  [ { ID := "com.example.notes", Name := "Release\r\nNotes", Version := "1.0.0",
      Status := "enabled", HasServer := true } ]

/-- A client that reports this list and an empty catalogue. -/
def crlfClient : MattermostClient :=
  { GetPlugins := .ok crlfInstalled, GetMarketplacePlugins := .ok [] }

/-- What `RunAudit` returns for `crlfClient`. -/
def crlfResult : AuditResult :=
  { Plugins :=
      [ { PluginID := "com.example.notes", Name := "Release\r\nNotes",
          InstalledVersion := "1.0.0", LatestVersion := "", UpdateAvailable := "unknown",
          UpdateAvailJSON := none, Status := "enabled", Source := "third-party",
          MarketplaceURL := "", PluginType := "server" } ],
    Summary := { Total := 1, ThirdParty := 1, Unknown := 1, Enabled := 1 } }

/-! ## Theorems -/

/-! ### Classification -/

theorem classify_range (pluginID : String) (inMarketplace : Bool) (homepageURL : String) :
    ClassifyPluginSource pluginID inMarketplace homepageURL = SourceBundled ∨
    ClassifyPluginSource pluginID inMarketplace homepageURL = SourceMarketplace ∨
    ClassifyPluginSource pluginID inMarketplace homepageURL = SourceMattermost ∨
    ClassifyPluginSource pluginID inMarketplace homepageURL = SourceThirdParty := by
  unfold ClassifyPluginSource
  split
  · exact Or.inl rfl
  · split
    · exact Or.inr (Or.inl rfl)
    · split
      · exact Or.inr (Or.inr (Or.inl rfl))
      · exact Or.inr (Or.inr (Or.inr rfl))

/-- What one iteration of the loop produces. -/
structure ReportOf (mpCatalogue : Catalogue) (p : InstalledPlugin) (r : PluginReport) : Prop where
  pluginID : r.PluginID = p.ID
  name : r.Name = p.Name
  installedVersion : r.InstalledVersion = p.Version
  status : r.Status = p.Status
  pluginType : r.PluginType = DeterminePluginType p.HasServer p.HasWebapp
  source : r.Source =
    ClassifyPluginSource p.ID (mpCatalogue.lookup p.ID).isSome p.HomepageURL
  marketplace : r.Source = SourceMarketplace →
    ∃ mp, mpCatalogue.lookup p.ID = some (some mp) ∧ r.LatestVersion = mp.Version ∧
      r.MarketplaceURL = mp.HomepageURL ∧
      ((CompareVersions p.Version mp.Version < 0 ∧ r.UpdateAvailable = "true" ∧
          r.UpdateAvailJSON = some true) ∨
       (¬ CompareVersions p.Version mp.Version < 0 ∧ r.UpdateAvailable = "false" ∧
          r.UpdateAvailJSON = some false))
  other : r.Source ≠ SourceMarketplace →
    r.LatestVersion = "" ∧ r.MarketplaceURL = "" ∧ r.UpdateAvailable = "unknown" ∧
      r.UpdateAvailJSON = none

theorem buildReport_spec {mpCatalogue : Catalogue} {p : InstalledPlugin} {r : PluginReport}
    (h : buildReport mpCatalogue p = some r) : ReportOf mpCatalogue p r := by
  unfold buildReport at h
  cases hl : mpCatalogue.lookup p.ID with
  | none =>
    simp only [hl] at h
    split at h
    · simp at h
    · rename_i hne
      simp only [Option.some.injEq] at h
      subst h
      constructor <;> simp [hl, hne]
  | some v =>
    simp only [hl] at h
    split at h
    · rename_i heq
      cases v with
      | none => simp at h
      | some mp =>
        simp only at h
        split at h
        · rename_i hc
          simp only [Option.some.injEq] at h
          subst h
          constructor <;> simp_all
        · rename_i hc
          simp only [Option.some.injEq] at h
          subst h
          constructor <;> simp_all
    · rename_i hne
      simp only [Option.some.injEq] at h
      subst h
      constructor <;> simp_all


theorem buildReports_forall2 {mpCatalogue : Catalogue} :
    ∀ {installed : List InstalledPlugin} {reports : List PluginReport},
      buildReports mpCatalogue installed = some reports →
      List.Forall₂ (fun p r => buildReport mpCatalogue p = some r) installed reports
  | [], reports, h => by
    simp only [buildReports, Option.some.injEq] at h
    subst h
    exact List.Forall₂.nil
  | p :: ps, reports, h => by
    simp only [buildReports] at h
    cases hr : buildReport mpCatalogue p with
    | none => simp [hr] at h
    | some r =>
      cases hrs : buildReports mpCatalogue ps with
      | none => simp [hr, hrs] at h
      | some rs =>
        simp only [hr, hrs, Option.map_some', Option.some.injEq] at h
        subst h
        exact List.Forall₂.cons hr (buildReports_forall2 hrs)

theorem buildReports_mem {mpCatalogue : Catalogue} {installed : List InstalledPlugin}
    {reports : List PluginReport} (h : buildReports mpCatalogue installed = some reports)
    {r : PluginReport} (hr : r ∈ reports) :
    ∃ p ∈ installed, ReportOf mpCatalogue p r := by
  have h2 := buildReports_forall2 h
  induction h2 with
  | nil => simp at hr
  | @cons p r' ps rs hpr _ ih =>
    rcases List.mem_cons.1 hr with rfl | hr
    · exact ⟨p, List.mem_cons_self _ _, buildReport_spec hpr⟩
    · cases hps : buildReports mpCatalogue ps with
      | none => simp [buildReports, hpr, hps] at h
      | some rs' =>
        have : rs' = rs := by
          simp [buildReports, hpr, hps] at h
          exact h
        subst this
        obtain ⟨q, hq, hqr⟩ := ih hps hr
        exact ⟨q, List.mem_cons_of_mem _ hq, hqr⟩

theorem classify_not_marketplace (pluginID homepageURL : String) :
    ClassifyPluginSource pluginID false homepageURL ≠ SourceMarketplace := by
  unfold ClassifyPluginSource
  split
  · decide
  · simp only [Bool.false_eq_true, if_false]
    split <;> decide

theorem buildReport_isSome {mpCatalogue : Catalogue} (hc : NoNilEntry mpCatalogue)
    (p : InstalledPlugin) : ∃ r, buildReport mpCatalogue p = some r := by
  unfold buildReport
  cases hl : mpCatalogue.lookup p.ID with
  | none =>
    have := classify_not_marketplace p.ID p.HomepageURL
    simp [this]
  | some v =>
    cases v with
    | none => exact absurd hl (hc p.ID)
    | some mp =>
      simp only
      split
      · split <;> exact ⟨_, rfl⟩
      · exact ⟨_, rfl⟩

theorem buildReports_isSome {mpCatalogue : Catalogue} (hc : NoNilEntry mpCatalogue) :
    ∀ installed : List InstalledPlugin, ∃ rs, buildReports mpCatalogue installed = some rs
  | [] => ⟨[], rfl⟩
  | p :: ps => by
    obtain ⟨r, hr⟩ := buildReport_isSome hc p
    obtain ⟨rs, hrs⟩ := buildReports_isSome hc ps
    exact ⟨r :: rs, by simp [buildReports, hr, hrs]⟩

theorem RunAudit_eq {lib : GoLibrary} {mmClient : MattermostClient} {opts : AuditOptions}
    {installed : List InstalledPlugin} {mpCatalogue : Catalogue} {reports : List PluginReport}
    (h1 : mmClient.GetPlugins = .ok installed)
    (h2 : mmClient.GetMarketplacePlugins = .ok mpCatalogue)
    (h3 : buildReports mpCatalogue installed = some reports) :
    RunAudit lib mmClient opts =
      .ok { Plugins := lib.sortSlice (reportLess lib.ToLower) (selected opts reports),
            Summary := computeSummary
              (lib.sortSlice (reportLess lib.ToLower) (selected opts reports)) } := by
  simp [RunAudit, h1, h2, h3, selected]

theorem RunAudit_ok_inv {lib : GoLibrary} {mmClient : MattermostClient} {opts : AuditOptions}
    {installed : List InstalledPlugin} {mpCatalogue : Catalogue} {res : AuditResult}
    (h1 : mmClient.GetPlugins = .ok installed)
    (h2 : mmClient.GetMarketplacePlugins = .ok mpCatalogue)
    (h : RunAudit lib mmClient opts = .ok res) :
    ∃ reports, buildReports mpCatalogue installed = some reports ∧
      res.Plugins = lib.sortSlice (reportLess lib.ToLower) (selected opts reports) ∧
      res.Summary = computeSummary res.Plugins := by
  cases h3 : buildReports mpCatalogue installed with
  | none => simp [RunAudit, h1, h2, h3] at h
  | some reports =>
    rw [RunAudit_eq h1 h2 h3] at h
    injection h with h
    subst h
    exact ⟨reports, rfl, rfl, rfl⟩

theorem selected_subset (opts : AuditOptions) (reports : List PluginReport) :
    ∀ r ∈ selected opts reports, r ∈ reports := by
  intro r hr
  unfold selected at hr
  split at hr
  · exact List.mem_of_mem_filter hr
  · exact hr

/-! ### The summary loop -/

/-- The counters the summary loop adds for a list of findings. -/
theorem foldl_summaryStep (l : List PluginReport) : ∀ s : AuditSummary,
    l.foldl summaryStep s =
      { Total := s.Total + l.length,
        Marketplace := s.Marketplace + l.countP (fun r => r.Source = SourceMarketplace),
        Bundled := s.Bundled + l.countP (fun r => r.Source = SourceBundled),
        MattermostPlugin := s.MattermostPlugin + l.countP (fun r => r.Source = SourceMattermost),
        ThirdParty := s.ThirdParty + l.countP (fun r => r.Source = SourceThirdParty),
        Outdated := s.Outdated +
          l.countP (fun r => r.Source = SourceMarketplace ∧ r.UpdateAvailable = "true"),
        UpToDate := s.UpToDate +
          l.countP (fun r => r.Source = SourceMarketplace ∧ r.UpdateAvailable ≠ "true"),
        Unknown := s.Unknown +
          l.countP (fun r => r.Source = SourceBundled ∨ r.Source = SourceMattermost ∨
            r.Source = SourceThirdParty),
        Enabled := s.Enabled + l.countP (fun r => r.Status = "enabled"),
        Disabled := s.Disabled + l.countP (fun r => r.Status ≠ "enabled") } := by
  induction l with
  | nil => intro s; simp
  | cons r rs ih =>
    intro s
    rw [List.foldl_cons, ih]
    have hBM : SourceBundled ≠ SourceMarketplace := by decide
    have hMM : SourceMattermost ≠ SourceMarketplace := by decide
    have hTM : SourceThirdParty ≠ SourceMarketplace := by decide
    have hMB : SourceMattermost ≠ SourceBundled := by decide
    have hTB : SourceThirdParty ≠ SourceBundled := by decide
    have hTMM : SourceThirdParty ≠ SourceMattermost := by decide
    simp only [List.countP_cons, List.length_cons, AuditSummary.mk.injEq]
    unfold summaryStep
    by_cases h1 : r.Source = SourceMarketplace
    · by_cases hu : r.UpdateAvailable = "true" <;> by_cases he : r.Status = "enabled" <;>
        simp [h1, hu, he, hBM.symm, hMM.symm, hTM.symm] <;> omega
    · by_cases h2 : r.Source = SourceBundled
      · by_cases he : r.Status = "enabled" <;>
          simp [h2, he, hBM, hMB.symm, hTB.symm] <;> omega
      · by_cases h3 : r.Source = SourceMattermost
        · by_cases he : r.Status = "enabled" <;>
            simp [h3, he, hMM, hMB, hTMM.symm] <;> omega
        · by_cases h4 : r.Source = SourceThirdParty
          · by_cases he : r.Status = "enabled" <;>
              simp [h4, he, hTM, hTB, hTMM] <;> omega
          · by_cases he : r.Status = "enabled" <;>
              simp [h1, h2, h3, h4, he] <;> omega


/-! ### The order of Go strings -/

theorem strLess_irrefl : ∀ x : List Char, strLess x x = false
  | [] => rfl
  | a :: as => by simp [strLess, strLess_irrefl as]

theorem strLess_trans : ∀ x y z : List Char,
    strLess x y = true → strLess y z = true → strLess x z = true
  | _, [], _, h, _ => by simp [strLess] at h
  | _, _ :: _, [], _, h => by simp [strLess] at h
  | [], _ :: _, _ :: _, _, _ => by simp [strLess]
  | a :: as, b :: bs, c :: cs, h1, h2 => by
    simp only [strLess] at h1 h2 ⊢
    by_cases hab : a < b
    · by_cases hbc : b < c
      · simp [lt_trans hab hbc]
      · by_cases hcb : c < b
        · simp [hbc, hcb] at h2
        · have : b = c := le_antisymm (not_lt.1 hcb) (not_lt.1 hbc)
          subst this
          simp [hab]
    · by_cases hba : b < a
      · simp [hab, hba] at h1
      · have : a = b := le_antisymm (not_lt.1 hba) (not_lt.1 hab)
        subst this
        simp only [hab, if_false] at h1
        by_cases hbc : a < c
        · simp [hbc]
        · by_cases hcb : c < a
          · simp [hbc, hcb] at h2
          · simp only [hbc, hcb, if_false] at h2 ⊢
            exact strLess_trans as bs cs h1 h2

/-- The order is total: two strings neither of which is less than the other are equal. -/
theorem strLess_total : ∀ x y : List Char,
    strLess x y = false → strLess y x = false → x = y
  | [], [], _, _ => rfl
  | [], _ :: _, h, _ => by simp [strLess] at h
  | _ :: _, [], _, h => by simp [strLess] at h
  | a :: as, b :: bs, h1, h2 => by
    simp only [strLess] at h1 h2
    by_cases hab : a < b
    · simp [hab] at h1
    · by_cases hba : b < a
      · simp [hba] at h2
      · have : a = b := le_antisymm (not_lt.1 hba) (not_lt.1 hab)
        subst this
        simp only [hab, if_false] at h1 h2
        rw [strLess_total as bs h1 h2]

theorem strLess_asymm (x y : List Char) (h : strLess x y = true) : strLess y x = false := by
  cases hyx : strLess y x with
  | false => rfl
  | true =>
    have := strLess_trans x y x h hyx
    rw [strLess_irrefl] at this
    exact absurd this (by decide)

theorem strLess_negTrans (x y z : List Char)
    (h1 : strLess x y = false) (h2 : strLess y z = false) : strLess x z = false := by
  cases hxz : strLess x z with
  | false => rfl
  | true =>
    exfalso
    -- z ≤ y ≤ x < z
    cases hyx : strLess y x with
    | false =>
      have := strLess_total x y h1 hyx
      subst this
      rw [hxz] at h2
      exact absurd h2 (by decide)
    | true =>
      have := strLess_trans y x z hyx hxz
      rw [this] at h2
      exact absurd h2 (by decide)

theorem reportLess_true_iff (toLower : String → String) (a b : PluginReport) :
    reportLess toLower a b = true ↔
      sourceOrder a.Source < sourceOrder b.Source ∨
      (sourceOrder a.Source = sourceOrder b.Source ∧
        strLess (toLower a.Name).data (toLower b.Name).data = true) := by
  unfold reportLess
  by_cases h : sourceOrder a.Source = sourceOrder b.Source
  · simp [h]
  · simp [h]

theorem reportLess_false_iff (toLower : String → String) (a b : PluginReport) :
    reportLess toLower a b = false ↔
      sourceOrder b.Source < sourceOrder a.Source ∨
      (sourceOrder a.Source = sourceOrder b.Source ∧
        strLess (toLower a.Name).data (toLower b.Name).data = false) := by
  unfold reportLess
  by_cases h : sourceOrder a.Source = sourceOrder b.Source
  · simp [h]
  · simp [h]
    omega

/-- The comparison of `RunAudit` meets the requirement of `sort.Slice` on `less`. -/
theorem reportLess_strictWeakOrder (toLower : String → String) :
    StrictWeakOrder (reportLess toLower) := by
  refine ⟨?_, ?_, ?_⟩
  · intro a
    simp [reportLess, strLess_irrefl]
  · intro a b c hab hbc
    rw [reportLess_true_iff] at hab hbc ⊢
    rcases hab with hab | ⟨hab, sab⟩ <;> rcases hbc with hbc | ⟨hbc, sbc⟩
    · exact Or.inl (by omega)
    · exact Or.inl (by omega)
    · exact Or.inl (by omega)
    · exact Or.inr ⟨by omega, strLess_trans _ _ _ sab sbc⟩
  · intro a b c hab hbc
    rw [reportLess_false_iff] at hab hbc ⊢
    rcases hab with hab | ⟨hab, sab⟩ <;> rcases hbc with hbc | ⟨hbc, sbc⟩
    · exact Or.inl (by omega)
    · exact Or.inl (by omega)
    · exact Or.inl (by omega)
    · exact Or.inr ⟨by omega, strLess_negTrans _ _ _ sab sbc⟩

/-! ### The reference sort meets the contract of `sort.Slice` -/

theorem insertionSortSlice_contract : SortSliceContract insertionSortSlice := by
  constructor
  · intro less l
    exact List.perm_insertionSort _ l
  · intro less l h
    obtain ⟨hirr, htr, hneg⟩ := h
    haveI : IsTotal PluginReport (fun a b => less b a = false) := ⟨by
      intro a b
      cases hba : less b a with
      | false => exact Or.inl rfl
      | true =>
        right
        cases hab : less a b with
        | false => rfl
        | true =>
          have := htr a b a hab hba
          rw [hirr] at this
          exact absurd this (by decide)⟩
    haveI : IsTrans PluginReport (fun a b => less b a = false) := ⟨by
      intro a b c hab hbc
      exact hneg c b a hbc hab⟩
    exact List.sorted_insertionSort (fun a b => less b a = false) l

/-! ### Runs of the engine -/

theorem RunAudit_ok_inv' {lib : GoLibrary} {mmClient : MattermostClient} {opts : AuditOptions}
    {res : AuditResult} (h : RunAudit lib mmClient opts = .ok res) :
    ∃ installed mpCatalogue reports,
      mmClient.GetPlugins = .ok installed ∧ mmClient.GetMarketplacePlugins = .ok mpCatalogue ∧
      buildReports mpCatalogue installed = some reports ∧
      res.Plugins = lib.sortSlice (reportLess lib.ToLower) (selected opts reports) ∧
      res.Summary = computeSummary res.Plugins := by
  cases h1 : mmClient.GetPlugins with
  | error e => simp [RunAudit, h1] at h
  | ok installed =>
    cases h2 : mmClient.GetMarketplacePlugins with
    | error e => simp [RunAudit, h1, h2] at h
    | ok mpCatalogue =>
      obtain ⟨reports, h3, h4, h5⟩ := RunAudit_ok_inv h1 h2 h
      exact ⟨installed, mpCatalogue, reports, rfl, rfl, h3, h4, h5⟩

/-- Every finding of a successful run is the report of an installed plugin. -/
theorem RunAudit_finding {lib : GoLibrary} (hS : SortSliceContract lib.sortSlice)
    {mmClient : MattermostClient} {opts : AuditOptions} {res : AuditResult}
    (h : RunAudit lib mmClient opts = .ok res) {f : PluginReport} (hf : f ∈ res.Plugins) :
    ∃ installed mpCatalogue, mmClient.GetPlugins = .ok installed ∧
      mmClient.GetMarketplacePlugins = .ok mpCatalogue ∧
      ∃ p ∈ installed, ReportOf mpCatalogue p f := by
  obtain ⟨installed, mpCatalogue, reports, h1, h2, h3, h4, _⟩ := RunAudit_ok_inv' h
  refine ⟨installed, mpCatalogue, h1, h2, ?_⟩
  rw [h4] at hf
  have hf' := (hS.perm _ _).subset hf
  exact buildReports_mem h3 (selected_subset _ _ _ hf')

/-- A run returns a result when both fetches succeed and the catalogue stores no nil. -/
theorem RunAudit_returns (lib : GoLibrary) (mmClient : MattermostClient) (opts : AuditOptions)
    {installed : List InstalledPlugin} {mpCatalogue : Catalogue}
    (h1 : mmClient.GetPlugins = .ok installed)
    (h2 : mmClient.GetMarketplacePlugins = .ok mpCatalogue)
    (hc : NoNilEntry mpCatalogue) : ∃ res, RunAudit lib mmClient opts = .ok res := by
  obtain ⟨reports, h3⟩ := buildReports_isSome hc installed
  exact ⟨_, RunAudit_eq h1 h2 h3⟩

theorem reportOf_source_range {mpCatalogue : Catalogue} {p : InstalledPlugin} {r : PluginReport}
    (h : ReportOf mpCatalogue p r) :
    r.Source = SourceBundled ∨ r.Source = SourceMarketplace ∨ r.Source = SourceMattermost ∨
      r.Source = SourceThirdParty := by
  rw [h.source]
  exact classify_range _ _ _

theorem exampleClient_run : RunAudit refLibrary exampleClient {} = .ok exampleResult := rfl

theorem exampleClient_run_outdated :
    RunAudit refLibrary exampleClient { OutdatedOnly := true } = .ok exampleOutdatedResult := rfl

theorem refLibrary_contract : SortSliceContract refLibrary.sortSlice :=
  insertionSortSlice_contract

theorem countP_and_split (l : List PluginReport) (p q : PluginReport → Prop)
    [DecidablePred p] [DecidablePred q] :
    l.countP (fun r => p r ∧ q r) + l.countP (fun r => p r ∧ ¬ q r) = l.countP (fun r => p r) := by
  induction l with
  | nil => simp
  | cons r rs ih =>
    simp only [List.countP_cons]
    by_cases hp : p r <;> by_cases hq : q r <;> simp [hp, hq] at ih ⊢ <;> omega

theorem countP_not_split (l : List PluginReport) (p : PluginReport → Prop) [DecidablePred p] :
    l.countP (fun r => p r) + l.countP (fun r => ¬ p r) = l.length := by
  induction l with
  | nil => simp
  | cons r rs ih =>
    simp only [List.countP_cons, List.length_cons]
    by_cases hp : p r <;> simp [hp] at ih ⊢ <;> omega

theorem length_eq_source_counts (l : List PluginReport)
    (h : ∀ r ∈ l, r.Source = SourceBundled ∨ r.Source = SourceMarketplace ∨
      r.Source = SourceMattermost ∨ r.Source = SourceThirdParty) :
    l.length = l.countP (fun r => r.Source = SourceMarketplace) +
      l.countP (fun r => r.Source = SourceBundled) +
      l.countP (fun r => r.Source = SourceMattermost) +
      l.countP (fun r => r.Source = SourceThirdParty) := by
  induction l with
  | nil => simp
  | cons r rs ih =>
    have ih' := ih (fun x hx => h x (List.mem_cons_of_mem _ hx))
    simp only [List.countP_cons, List.length_cons]
    rcases h r (List.mem_cons_self _ _) with hs | hs | hs | hs <;>
      simp [hs, SourceBundled, SourceMarketplace, SourceMattermost, SourceThirdParty] at ih' ⊢ <;>
      omega

/-! ### Version comparison -/

/-! ### Decimal numerals -/

theorem isDigit_iff (c : Char) : isDigit c = true ↔ 48 ≤ c.toNat ∧ c.toNat ≤ 57 := by
  simp only [isDigit, Bool.and_eq_true, decide_eq_true_eq, Char.le_def, Char.toNat]
  rfl

theorem char_lt_iff (c d : Char) : c < d ↔ c.toNat < d.toNat := by
  simp only [Char.lt_def, Char.toNat]
  rfl

theorem char_eq_iff (c d : Char) : c = d ↔ c.toNat = d.toNat := by
  constructor
  · rintro rfl; rfl
  · intro h
    apply Char.ext
    apply UInt32.ext  
    exact h


theorem digitValue_le {c : Char} (h : isDigit c = true) : digitValue c ≤ 9 := by
  rw [isDigit_iff] at h
  change c.toNat - 48 ≤ 9
  omega

theorem digitValue_lt_iff {c d : Char} (hc : isDigit c = true) (hd : isDigit d = true) :
    c < d ↔ digitValue c < digitValue d := by
  rw [isDigit_iff] at hc hd
  rw [char_lt_iff]
  change _ ↔ c.toNat - 48 < d.toNat - 48
  omega

theorem digitValue_eq_zero_iff {c : Char} (hc : isDigit c = true) :
    digitValue c = 0 ↔ c = '0' := by
  rw [isDigit_iff] at hc
  rw [char_eq_iff]
  change c.toNat - 48 = 0 ↔ c.toNat = 48
  omega

theorem foldl_digits (ds : List Char) : ∀ n : Nat,
    ds.foldl (fun n c => 10 * n + digitValue c) n = n * 10 ^ ds.length + natOfDigits ds := by
  induction ds with
  | nil => intro n; simp [natOfDigits]
  | cons c cs ih =>
    intro n
    simp only [natOfDigits, List.foldl_cons, List.length_cons]
    rw [ih, ih (10 * 0 + digitValue c)]
    ring

theorem natOfDigits_cons (c : Char) (cs : List Char) :
    natOfDigits (c :: cs) = digitValue c * 10 ^ cs.length + natOfDigits cs := by
  simp only [natOfDigits, List.foldl_cons]
  rw [foldl_digits]
  simp [natOfDigits]

theorem natOfDigits_lt (ds : List Char) (h : ∀ c ∈ ds, isDigit c = true) :
    natOfDigits ds < 10 ^ ds.length := by
  induction ds with
  | nil => simp [natOfDigits]
  | cons c cs ih =>
    rw [natOfDigits_cons, List.length_cons, pow_succ]
    have h1 := digitValue_le (h c (List.mem_cons_self _ _))
    have h2 := ih (fun x hx => h x (List.mem_cons_of_mem _ hx))
    nlinarith

theorem natOfDigits_ge {t : List Char} (h : IsDecimal t) (hl : 2 ≤ t.length) :
    10 ^ (t.length - 1) ≤ natOfDigits t := by
  cases t with
  | nil => simp at hl
  | cons c cs =>
    rw [natOfDigits_cons]
    simp only [List.length_cons, Nat.add_sub_cancel]
    have hc := h.digits c (List.mem_cons_self _ _)
    have h0 : digitValue c ≠ 0 := by
      intro h0
      rw [digitValue_eq_zero_iff hc] at h0
      have := h.noLeadingZero (by simp [h0])
      simp only [List.length_cons] at this hl
      omega
    have : 1 ≤ digitValue c := Nat.one_le_iff_ne_zero.2 h0
    nlinarith [Nat.pos_pow_of_pos cs.length (by norm_num : 0 < 10)]

/-- On digit strings of the same length the lexicographic order is the order of the values. -/
theorem strLess_digits : ∀ x y : List Char, x.length = y.length →
    (∀ c ∈ x, isDigit c = true) → (∀ c ∈ y, isDigit c = true) →
    (strLess x y = true ↔ natOfDigits x < natOfDigits y)
  | [], [], _, _, _ => by simp [strLess, natOfDigits]
  | [], _ :: _, h, _, _ => by simp at h
  | _ :: _, [], h, _, _ => by simp at h
  | a :: as, b :: bs, h, hx, hy => by
    have hlen : as.length = bs.length := by simpa using h
    have ha := hx a (List.mem_cons_self _ _)
    have hb := hy b (List.mem_cons_self _ _)
    have hxs : ∀ c ∈ as, isDigit c = true := fun c hc => hx c (List.mem_cons_of_mem _ hc)
    have hys : ∀ c ∈ bs, isDigit c = true := fun c hc => hy c (List.mem_cons_of_mem _ hc)
    have ih := strLess_digits as bs hlen hxs hys
    have l1 := natOfDigits_lt as hxs
    have l2 := natOfDigits_lt bs hys
    rw [natOfDigits_cons, natOfDigits_cons, ← hlen]
    rw [hlen.symm] at l2
    simp only [strLess]
    have hab := digitValue_lt_iff ha hb
    have hba := digitValue_lt_iff hb ha
    by_cases h1 : a < b
    · simp only [h1, if_true, true_iff]
      have := hab.1 h1
      nlinarith
    · by_cases h2 : b < a
      · simp only [h1, h2, if_true, if_false, Bool.false_eq_true, false_iff, not_lt]
        have := hba.1 h2
        nlinarith
      · simp only [h1, h2, if_false]
        have e : digitValue a = digitValue b := by
          have n1 : ¬ digitValue a < digitValue b := fun h => h1 (hab.2 h)
          have n2 : ¬ digitValue b < digitValue a := fun h => h2 (hba.2 h)
          omega
        rw [ih, e]
        omega

theorem natOfDigits_injective : ∀ x y : List Char, x.length = y.length →
    (∀ c ∈ x, isDigit c = true) → (∀ c ∈ y, isDigit c = true) →
    natOfDigits x = natOfDigits y → x = y := by
  intro x y hl hx hy he
  apply strLess_total
  · cases h : strLess x y with
    | false => rfl
    | true => rw [strLess_digits x y hl hx hy] at h; omega
  · cases h : strLess y x with
    | false => rfl
    | true => rw [strLess_digits y x hl.symm hy hx] at h; omega

/-- `compareInt` compares decimal numerals as numbers. -/
theorem compareInt_eq_cmpNat {x y : List Char} (hx : IsDecimal x) (hy : IsDecimal y) :
    compareInt x y = cmpNat (natOfDigits x) (natOfDigits y) := by
  unfold compareInt cmpNat
  by_cases he : x = y
  · subst he; simp
  · simp only [he, if_false]
    have bx := natOfDigits_lt x hx.digits
    have by' := natOfDigits_lt y hy.digits
    have px : 1 ≤ x.length := List.length_pos.2 hx.nonempty
    have py : 1 ≤ y.length := List.length_pos.2 hy.nonempty
    by_cases h1 : x.length < y.length
    · have gy := natOfDigits_ge hy (by omega)
      have : 10 ^ x.length ≤ 10 ^ (y.length - 1) :=
        Nat.pow_le_pow_right (by norm_num) (by omega)
      have : natOfDigits x < natOfDigits y := by omega
      simp [h1, this]
    · by_cases h2 : x.length > y.length
      · have gx := natOfDigits_ge hx (by omega)
        have : 10 ^ y.length ≤ 10 ^ (x.length - 1) :=
          Nat.pow_le_pow_right (by norm_num) (by omega)
        have h3 : ¬ natOfDigits x < natOfDigits y := by omega
        have h4 : natOfDigits x ≠ natOfDigits y := by omega
        simp [h1, h2, h3, h4]
      · have hl : x.length = y.length := by omega
        simp only [h1, h2, if_false]
        by_cases h3 : strLess x y = true
        · have := (strLess_digits x y hl hx.digits hy.digits).1 h3
          simp [h3, this]
        · have h5 : ¬ natOfDigits x < natOfDigits y :=
            fun h => h3 ((strLess_digits x y hl hx.digits hy.digits).2 h)
          have h6 : natOfDigits x ≠ natOfDigits y :=
            fun h => he (natOfDigits_injective x y hl hx.digits hy.digits h)
          simp [h3, h5, h6]

theorem parseInt_isDecimal {v t rest : List Char} (h : parseInt v = some (t, rest)) :
    IsDecimal t := by
  cases v with
  | nil => simp [parseInt] at h
  | cons c cs =>
    simp only [parseInt] at h
    split at h
    · simp at h
    · rename_i hc
      split at h
      · simp at h
      · rename_i hz
        simp only [Option.some.injEq, Prod.mk.injEq] at h
        obtain ⟨rfl, _⟩ := h
        have hcd : isDigit c = true := by
          simp only [not_or, not_lt] at hc
          simp [isDigit, hc.1, hc.2]
        refine ⟨by simp, ?_, ?_⟩
        · intro d hd
          rcases List.mem_cons.1 hd with rfl | hd
          · exact hcd
          · exact (List.mem_takeWhile_imp hd)
        · intro h0
          simp only [List.head?_cons, Option.some.injEq] at h0
          simp only [List.length_cons]
          simp only [not_and, ne_eq, not_not] at hz
          have := hz h0
          omega

/-! ### Pre-release texts -/

theorem isIdentChar_ne_dot {c : Char} (h : isIdentChar c = true) : c ≠ '.' := by
  rintro rfl
  exact absurd h (by decide)

theorem parsePrereleaseLoop_spec : ∀ (cs ident t rest : List Char),
    parsePrereleaseLoop ident cs = some (t, rest) →
    (∀ c ∈ ident, isIdentChar c = true) →
    ∃ a r, ident ++ t = a ++ sepJoin r ∧ ValidIdent a ∧ ∀ b ∈ r, ValidIdent b
  | [], ident, t, rest, h, hid => by
    simp only [parsePrereleaseLoop] at h
    split at h
    · simp at h
    · rename_i hv
      simp only [Option.some.injEq, Prod.mk.injEq] at h
      obtain ⟨rfl, _⟩ := h
      simp only [Bool.or_eq_true, not_or, List.isEmpty_iff, Bool.not_eq_true] at hv
      exact ⟨ident, [], by simp [sepJoin], ⟨hv.1, hid, hv.2⟩, by simp⟩
  | c :: cs, ident, t, rest, h, hid => by
    simp only [parsePrereleaseLoop] at h
    split at h
    · split at h
      · simp at h
      · rename_i hv
        simp only [Option.some.injEq, Prod.mk.injEq] at h
        obtain ⟨rfl, _⟩ := h
        simp only [Bool.or_eq_true, not_or, List.isEmpty_iff, Bool.not_eq_true] at hv
        exact ⟨ident, [], by simp [sepJoin], ⟨hv.1, hid, hv.2⟩, by simp⟩
    · split at h
      · simp at h
      · rename_i hplus hbad
        split at h
        · rename_i hdot
          split at h
          · simp at h
          · rename_i hv
            simp only [Bool.or_eq_true, not_or, List.isEmpty_iff, Bool.not_eq_true] at hv
            cases hr : parsePrereleaseLoop [] cs with
            | none => simp [hr] at h
            | some res =>
              obtain ⟨t', rest'⟩ := res
              simp only [hr, Option.map_some', Option.some.injEq, Prod.mk.injEq] at h
              obtain ⟨rfl, _⟩ := h
              obtain ⟨a, r, he, ha, hrs⟩ := parsePrereleaseLoop_spec cs [] t' rest' hr (by simp)
              simp only [List.nil_append] at he
              refine ⟨ident, a :: r, ?_, ⟨hv.1, hid, hv.2⟩, ?_⟩
              · simp [sepJoin, he, hdot]
              · intro b hb
                rcases List.mem_cons.1 hb with rfl | hb
                · exact ha
                · exact hrs b hb
        · rename_i hdot
          have hc : isIdentChar c = true := by
            simp only [Bool.and_eq_true, Bool.not_eq_true', bne_iff_ne, ne_eq, not_and,
              not_not] at hbad
            cases hi : isIdentChar c with
            | true => rfl
            | false => exact absurd (hbad hi) hdot
          cases hr : parsePrereleaseLoop (ident ++ [c]) cs with
          | none => simp [hr] at h
          | some res =>
            obtain ⟨t', rest'⟩ := res
            simp only [hr, Option.map_some', Option.some.injEq, Prod.mk.injEq] at h
            obtain ⟨rfl, _⟩ := h
            obtain ⟨a, r, he, ha, hrs⟩ :=
              parsePrereleaseLoop_spec cs (ident ++ [c]) t' rest' hr (by
                intro d hd
                rcases List.mem_append.1 hd with hd | hd
                · exact hid d hd
                · simp only [List.mem_singleton] at hd
                  subst hd
                  exact hc)
            refine ⟨a, r, ?_, ha, hrs⟩
            rw [← he]
            simp

/-- The text of a pre-release as `parsePrerelease` returns it. -/
theorem parsePrerelease_spec {v t rest : List Char} (h : parsePrerelease v = some (t, rest)) :
    ∃ a r, t = '-' :: (a ++ sepJoin r) ∧ ValidIdent a ∧ ∀ b ∈ r, ValidIdent b := by
  cases v with
  | nil => simp [parsePrerelease] at h
  | cons c cs =>
    simp only [parsePrerelease] at h
    split at h
    · simp at h
    · rename_i hc
      simp only [ne_eq, not_not] at hc
      cases hr : parsePrereleaseLoop [] cs with
      | none => simp [hr] at h
      | some res =>
        obtain ⟨t', rest'⟩ := res
        simp only [hr, Option.map_some', Option.some.injEq, Prod.mk.injEq] at h
        obtain ⟨rfl, _⟩ := h
        obtain ⟨a, r, he, ha, hrs⟩ := parsePrereleaseLoop_spec cs [] t' rest' hr (by simp)
        simp only [List.nil_append] at he
        exact ⟨a, r, by rw [hc, he], ha, hrs⟩

theorem ValidIdent.noDot {a : List Char} (h : ValidIdent a) : ∀ c ∈ a, c ≠ '.' :=
  fun c hc => isIdentChar_ne_dot (h.chars c hc)

theorem nextIdent_append_sepJoin (a : List Char) (r : List (List Char))
    (ha : ∀ c ∈ a, c ≠ '.') : nextIdent (a ++ sepJoin r) = (a, sepJoin r) := by
  have hp : ∀ c ∈ a, (fun c : Char => c != '.') c = true := by
    intro c hc
    simpa using ha c hc
  unfold nextIdent
  rw [List.takeWhile_append_of_pos hp, List.dropWhile_append_of_pos hp]
  cases r with
  | nil => simp [sepJoin]
  | cons b r => simp [sepJoin]

theorem splitDots_noDot : ∀ a : List Char, (∀ c ∈ a, c ≠ '.') → splitDots a = [a]
  | [], _ => rfl
  | c :: cs, h => by
    have hc : c ≠ '.' := h c (List.mem_cons_self _ _)
    simp [splitDots, hc, splitDots_noDot cs (fun d hd => h d (List.mem_cons_of_mem _ hd))]

theorem splitDots_append_dot : ∀ (a rest : List Char), (∀ c ∈ a, c ≠ '.') →
    splitDots (a ++ '.' :: rest) = a :: splitDots rest
  | [], rest, _ => by simp [splitDots]
  | c :: cs, rest, h => by
    have hc : c ≠ '.' := h c (List.mem_cons_self _ _)
    simp [splitDots, hc,
      splitDots_append_dot cs rest (fun d hd => h d (List.mem_cons_of_mem _ hd))]

theorem splitDots_append_sepJoin : ∀ (r : List (List Char)) (a : List Char),
    (∀ c ∈ a, c ≠ '.') → (∀ b ∈ r, ∀ c ∈ b, c ≠ '.') →
    splitDots (a ++ sepJoin r) = a :: r
  | [], a, ha, _ => by simp [sepJoin, splitDots_noDot a ha]
  | b :: r, a, ha, hr => by
    simp only [sepJoin]
    rw [splitDots_append_dot a _ ha,
      splitDots_append_sepJoin r b (hr b (List.mem_cons_self _ _))
        (fun b' hb' => hr b' (List.mem_cons_of_mem _ hb'))]

/-! ### Identifiers -/

theorem isNum_iff_all (a : List Char) : isNum a = a.all isDigit := by
  unfold isNum
  induction a with
  | nil => simp
  | cons c cs ih =>
    by_cases hc : isDigit c = true
    · simp only [List.takeWhile_cons, hc, if_true, List.length_cons, List.all_cons,
        Bool.true_and]
      rw [← ih]
      simp
    · simp only [Bool.not_eq_true] at hc
      simp [List.takeWhile_cons, hc]

theorem ValidIdent.isDecimal {a : List Char} (h : ValidIdent a) (hn : isNum a = true) :
    IsDecimal a := by
  have hall : ∀ c ∈ a, isDigit c = true := by
    rw [isNum_iff_all] at hn
    simpa using hn
  refine ⟨h.nonempty, hall, ?_⟩
  intro h0
  have hb := h.notBadNum
  have hn' : (a.takeWhile isDigit).length = a.length := by
    simpa [isNum] using hn
  simp only [isBadNum, hn', h0, beq_self_eq_true, Bool.true_and, Bool.and_true,
    decide_eq_false_iff_not, not_lt] at hb
  have : 1 ≤ a.length := List.length_pos.2 h.nonempty
  omega

theorem identCmp_eq {a b : List Char} (ha : ValidIdent a) (hb : ValidIdent b) (hne : a ≠ b) :
    identCmp a b = (preIdOf a).cmp (preIdOf b) ∧ (preIdOf a).cmp (preIdOf b) ≠ 0 := by
  unfold identCmp preIdOf
  rw [← isNum_iff_all, ← isNum_iff_all]
  cases hna : isNum a <;> cases hnb : isNum b
  · -- both alphanumeric
    simp only [ne_eq, not_true_eq_false, if_false, Bool.false_eq_true, false_and, PreId.cmp,
      hne]
    cases strLess a b <;> simp
  · simp [PreId.cmp]
  · simp [PreId.cmp]
  · have da := ha.isDecimal hna
    have db := hb.isDecimal hnb
    have hc := compareInt_eq_cmpNat da db
    simp only [ne_eq, not_true_eq_false, if_false, true_and, if_true, PreId.cmp]
    rw [← hc]
    unfold compareInt
    simp only [hne, if_false]
    refine ⟨trivial, ?_⟩
    split
    · decide
    · split
      · decide
      · split <;> decide

theorem preId_cmp_self (a : PreId) : a.cmp a = 0 := by
  cases a with
  | numeric n => simp [PreId.cmp, cmpNat]
  | alphanumeric s => simp [PreId.cmp, strLess_irrefl]

theorem cmpPreIds_self : ∀ l : List PreId, cmpPreIds l l = 0
  | [] => rfl
  | a :: as => by simp [cmpPreIds, preId_cmp_self, cmpPreIds_self as]

theorem comparePrereleaseLoop_cons (c d : Char) (x1 y1 : List Char) :
    comparePrereleaseLoop (c :: x1) (d :: y1) =
      if (nextIdent x1).1 ≠ (nextIdent y1).1 then identCmp (nextIdent x1).1 (nextIdent y1).1
      else comparePrereleaseLoop (nextIdent x1).2 (nextIdent y1).2 := by
  rw [comparePrereleaseLoop]
  rfl

/-- The comparison loop on the texts of two different identifier lists is the precedence of
the lists. -/
theorem comparePrereleaseLoop_eq : ∀ (r r' : List (List Char)) (c d : Char) (a b : List Char),
    ValidIdent a → ValidIdent b → (∀ x ∈ r, ValidIdent x) → (∀ x ∈ r', ValidIdent x) →
    a :: r ≠ b :: r' →
    comparePrereleaseLoop (c :: (a ++ sepJoin r)) (d :: (b ++ sepJoin r')) =
      cmpPreIds ((a :: r).map preIdOf) ((b :: r').map preIdOf)
  | r, r', c, d, a, b, ha, hb, hr, hr', hne => by
    rw [comparePrereleaseLoop_cons, nextIdent_append_sepJoin a r ha.noDot,
      nextIdent_append_sepJoin b r' hb.noDot]
    simp only [List.map_cons, cmpPreIds]
    by_cases hab : a = b
    · subst hab
      simp only [ne_eq, not_true_eq_false, if_false, preId_cmp_self]
      have hrr : r ≠ r' := fun h => hne (by rw [h])
      cases r with
      | nil =>
        cases r' with
        | nil => exact absurd rfl hrr
        | cons b' s' => simp [sepJoin, comparePrereleaseLoop, cmpPreIds]
      | cons a' s =>
        cases r' with
        | nil => simp [sepJoin, comparePrereleaseLoop, cmpPreIds]
        | cons b' s' =>
          simp only [sepJoin]
          exact comparePrereleaseLoop_eq s s' '.' '.' a' b'
            (hr a' (List.mem_cons_self _ _)) (hr' b' (List.mem_cons_self _ _))
            (fun x hx => hr x (List.mem_cons_of_mem _ hx))
            (fun x hx => hr' x (List.mem_cons_of_mem _ hx)) hrr
    · obtain ⟨h1, h2⟩ := identCmp_eq ha hb hab
      simp [hab, h1, h2]
termination_by r => r.length

theorem isDecimal_zero : IsDecimal ['0'] :=
  ⟨by simp, by intro c hc; simp at hc; subst hc; decide, by simp⟩

theorem parseTail_wellFormed {major minor patch v : List Char} {p : parsed}
    (hM : IsDecimal major) (hm : IsDecimal minor) (hp : IsDecimal patch)
    (h : parseTail major minor patch v = some p) : WellFormed p := by
  unfold parseTail at h
  simp only at h
  split at h
  · simp at h
  · rename_i prerelease v' hpre
    have hvp : ValidPre prerelease := by
      split at hpre
      · obtain ⟨a, r, he, ha, hr⟩ := parsePrerelease_spec hpre
        exact Or.inr ⟨a, r, he, ha, hr⟩
      · simp only [Option.some.injEq, Prod.mk.injEq] at hpre
        exact Or.inl hpre.1.symm
    split at h
    · simp at h
    · split at h
      · simp at h
      · simp only [Option.some.injEq] at h
        subst h
        exact ⟨hM, hm, hp, hvp⟩

theorem parse_wellFormed {v : List Char} {p : parsed} (h : parse v = some p) :
    WellFormed p := by
  cases v with
  | nil => simp [parse] at h
  | cons c v =>
    simp only [parse] at h
    split at h
    · simp at h
    · split at h
      · simp at h
      · rename_i major hM
        simp only [Option.some.injEq] at h
        subst h
        exact ⟨parseInt_isDecimal hM, isDecimal_zero, isDecimal_zero, Or.inl rfl⟩
      · rename_i major d v1 hM
        split at h
        · simp at h
        · split at h
          · simp at h
          · rename_i minor hm
            simp only [Option.some.injEq] at h
            subst h
            exact ⟨parseInt_isDecimal hM, parseInt_isDecimal hm, isDecimal_zero, Or.inl rfl⟩
          · rename_i minor e v2 hm
            split at h
            · simp at h
            · split at h
              · simp at h
              · rename_i patch v3 hp
                exact parseTail_wellFormed (parseInt_isDecimal hM) (parseInt_isDecimal hm)
                  (parseInt_isDecimal hp) h

theorem preIdsOf_valid {a : List Char} {r : List (List Char)} (ha : ValidIdent a)
    (hr : ∀ b ∈ r, ValidIdent b) :
    preIdsOf ('-' :: (a ++ sepJoin r)) = (a :: r).map preIdOf := by
  simp only [preIdsOf]
  rw [splitDots_append_sepJoin r a ha.noDot (fun b hb => (hr b hb).noDot)]

theorem sepJoin_injective : ∀ (r r' : List (List Char)) (a b : List Char),
    (∀ c ∈ a, c ≠ '.') → (∀ c ∈ b, c ≠ '.') →
    (∀ x ∈ r, ∀ c ∈ x, c ≠ '.') → (∀ x ∈ r', ∀ c ∈ x, c ≠ '.') →
    a ++ sepJoin r = b ++ sepJoin r' → a :: r = b :: r' := by
  intro r r' a b ha hb hr hr' h
  have h1 := splitDots_append_sepJoin r a ha hr
  have h2 := splitDots_append_sepJoin r' b hb hr'
  rw [h] at h1
  rw [← h1, ← h2]

/-- `comparePrerelease` on the pre-release texts of two parsed versions is the pre-release part
of semantic-version precedence. -/
theorem comparePrerelease_eq {x y : List Char} (hx : ValidPre x) (hy : ValidPre y) :
    comparePrerelease x y = cmpPrerelease (preIdsOf x) (preIdsOf y) := by
  unfold comparePrerelease
  rcases hx with rfl | ⟨a, r, rfl, ha, hr⟩ <;> rcases hy with rfl | ⟨b, r', rfl, hb, hr'⟩
  · simp [preIdsOf, cmpPrerelease]
  · rw [preIdsOf_valid hb hr']
    simp [preIdsOf, cmpPrerelease]
  · rw [preIdsOf_valid ha hr]
    simp [preIdsOf, cmpPrerelease]
  · rw [preIdsOf_valid ha hr, preIdsOf_valid hb hr']
    by_cases he : a ++ sepJoin r = b ++ sepJoin r'
    · have := sepJoin_injective r r' a b ha.noDot hb.noDot (fun x hx => (hr x hx).noDot)
        (fun x hx => (hr' x hx).noDot) he
      rw [this]
      simp [he, cmpPrerelease, cmpPreIds_self]
    · have hne : a :: r ≠ b :: r' := by
        intro h
        injection h with h1 h2
        exact he (by rw [h1, h2])
      simp only [List.cons.injEq, true_and, he, if_false, reduceCtorEq]
      rw [comparePrereleaseLoop_eq r r' '-' '-' a b ha hb hr hr' hne]
      simp [cmpPrerelease]

/-- On two strings that `semver.parse` accepts, `semver.Compare` is the semantic-version
precedence of the versions they denote. -/
theorem Compare_eq_precedence {v w : String} {pv pw : parsed}
    (hv : parse v.data = some pv) (hw : parse w.data = some pw) :
    Compare v w = (SemVer.ofParsed pv).precedence (SemVer.ofParsed pw) := by
  have wv := parse_wellFormed hv
  have ww := parse_wellFormed hw
  unfold Compare SemVer.precedence
  simp only [hv, hw, SemVer.ofParsed]
  rw [compareInt_eq_cmpNat wv.major ww.major, compareInt_eq_cmpNat wv.minor ww.minor,
    compareInt_eq_cmpNat wv.patch ww.patch, comparePrerelease_eq wv.pre ww.pre]

/-! ### Precedence is antisymmetric -/

theorem cmpNat_antisymm (a b : Nat) : cmpNat a b = -cmpNat b a := by
  unfold cmpNat
  rcases Nat.lt_trichotomy a b with h | h | h
  · have h1 : ¬ b < a := by omega
    have h2 : b ≠ a := by omega
    simp [h, h1, h2]
  · subst h; simp
  · have h1 : ¬ a < b := by omega
    have h2 : a ≠ b := by omega
    simp [h, h1, h2]

theorem preId_cmp_antisymm (a b : PreId) : a.cmp b = -b.cmp a := by
  cases a with
  | numeric m =>
    cases b with
    | numeric n => simp only [PreId.cmp]; exact cmpNat_antisymm m n
    | alphanumeric t => simp [PreId.cmp]
  | alphanumeric s =>
    cases b with
    | numeric n => simp [PreId.cmp]
    | alphanumeric t =>
      simp only [PreId.cmp]
      cases hst : strLess s t with
      | true =>
        have hts := strLess_asymm s t hst
        have hne : t ≠ s := by
          rintro rfl
          rw [strLess_irrefl] at hst
          exact absurd hst (by decide)
        simp [hts, hne]
      | false =>
        cases hts : strLess t s with
        | true =>
          have hne : s ≠ t := by
            rintro rfl
            rw [strLess_irrefl] at hts
            exact absurd hts (by decide)
          simp [hne]
        | false =>
          have := strLess_total s t hst hts
          subst this
          simp

theorem cmpPreIds_antisymm : ∀ p q : List PreId, cmpPreIds p q = -cmpPreIds q p
  | [], [] => by simp [cmpPreIds]
  | [], _ :: _ => by simp [cmpPreIds]
  | _ :: _, [] => by simp [cmpPreIds]
  | a :: as, b :: bs => by
    simp only [cmpPreIds]
    rw [preId_cmp_antisymm b a, cmpPreIds_antisymm as bs]
    by_cases h : a.cmp b = 0
    · simp [h]
    · simp [h]

theorem cmpPrerelease_antisymm : ∀ p q : List PreId, cmpPrerelease p q = -cmpPrerelease q p
  | [], [] => by simp [cmpPrerelease]
  | [], _ :: _ => by simp [cmpPrerelease]
  | _ :: _, [] => by simp [cmpPrerelease]
  | a :: as, b :: bs => by
    simp only [cmpPrerelease]
    exact cmpPreIds_antisymm _ _

theorem precedence_antisymm (a b : SemVer) : a.precedence b = -b.precedence a := by
  unfold SemVer.precedence
  rw [cmpNat_antisymm b.major a.major, cmpNat_antisymm b.minor a.minor,
    cmpNat_antisymm b.patch a.patch, cmpPrerelease_antisymm b.pre a.pre]
  by_cases h1 : cmpNat a.major b.major = 0
  · by_cases h2 : cmpNat a.minor b.minor = 0
    · by_cases h3 : cmpNat a.patch b.patch = 0
      · simp [h1, h2, h3]
      · simp [h1, h2, h3]
    · simp [h1, h2]
  · simp [h1]

theorem isValid_iff_parse {v : String} :
    IsValid v = true ↔ ∃ p, parse v.data = some p := by
  simp [IsValid, Option.isSome_iff_exists]

/-- `CompareVersions` is 0 on two equal strings. -/
theorem compareVersions_self (a : String) : CompareVersions a a = 0 := by
  unfold CompareVersions
  simp only
  split
  · simp
  · rename_i h
    simp only [Bool.or_eq_true, Bool.not_eq_true', not_or, Bool.not_eq_false] at h
    obtain ⟨p, hp⟩ := isValid_iff_parse.1 h.1
    have hw := parse_wellFormed hp
    unfold Compare
    simp only [hp]
    simp [compareInt, comparePrerelease]

/-- `CompareVersions` on two strings with valid normalized forms. -/
theorem compareVersions_valid {installed latest : String} {pi pl : parsed}
    (hi : parse (NormalizeVersion installed).data = some pi)
    (hl : parse (NormalizeVersion latest).data = some pl) :
    CompareVersions installed latest =
      (SemVer.ofParsed pi).precedence (SemVer.ofParsed pl) := by
  have vi : IsValid (NormalizeVersion installed) = true := isValid_iff_parse.2 ⟨pi, hi⟩
  have vl : IsValid (NormalizeVersion latest) = true := isValid_iff_parse.2 ⟨pl, hl⟩
  unfold CompareVersions
  simp only [vi, vl, Bool.not_true, Bool.or_self, Bool.false_eq_true, if_false]
  exact Compare_eq_precedence hi hl

/-! ### The sorting algorithm comes to an end -/

namespace gosort

variable {α : Type} [Inhabited α]

theorem scanUp_ge (cond : Nat → Bool) (j : Nat) : ∀ (rounds i : Nat), i ≤ scanUp cond j rounds i
  | 0, i => Nat.le_refl _
  | rounds + 1, i => by
    simp only [scanUp]
    split
    · exact Nat.le_trans (Nat.le_succ i) (scanUp_ge cond j rounds (i + 1))
    · exact Nat.le_refl _

theorem scanDown_le (cond : Nat → Bool) (i : Nat) : ∀ j : Nat, scanDown cond i j ≤ j
  | 0 => Nat.le_refl _
  | j + 1 => by
    simp only [scanDown]
    split
    · exact Nat.le_trans (scanDown_le cond i j) (Nat.le_succ j)
    · exact Nat.le_refl _

theorem partitionLoop_snd_le (less : α → α → Bool) (a : Nat) :
    ∀ (rounds i j : Nat) (data : List α), (partitionLoop less a rounds i j data).2 ≤ j
  | 0, _, _, _ => Nat.le_refl _
  | rounds + 1, i, j, data => by
    simp only [partitionLoop]
    split
    · exact scanDown_le _ _ _
    · refine Nat.le_trans (partitionLoop_snd_le less a rounds _ _ _) ?_
      exact Nat.le_trans (Nat.sub_le _ _) (scanDown_le _ _ _)

theorem partition_func_mid_le (less : α → α → Bool) (data : List α) (a b pivot : Nat) :
    (partition_func less data a b pivot).2.1 ≤ b - 1 := by
  simp only [partition_func]
  split
  · exact scanDown_le _ _ _
  · refine Nat.le_trans (partitionLoop_snd_le less a _ _ _ _) ?_
    exact Nat.le_trans (Nat.sub_le _ _) (scanDown_le _ _ _)

theorem scanUp_le (cond : Nat → Bool) (j : Nat) :
    ∀ (rounds i : Nat), i ≤ j + 1 → scanUp cond j rounds i ≤ j + 1
  | 0, _, h => h
  | rounds + 1, i, h => by
    simp only [scanUp]
    split
    · rename_i hc
      simp only [Bool.and_eq_true, decide_eq_true_eq] at hc
      exact scanUp_le cond j rounds (i + 1) (by omega)
    · exact h

theorem scanUp_stop (cond : Nat → Bool) (j : Nat) :
    ∀ (rounds i : Nat), j + 1 ≤ rounds + i → scanUp cond j rounds i ≤ j →
      cond (scanUp cond j rounds i) = false
  | 0, i, h, hle => by
    simp only [scanUp] at hle
    omega
  | rounds + 1, i, h, hle => by
    simp only [scanUp] at hle ⊢
    split
    · rename_i hc
      rw [if_pos hc] at hle
      exact scanUp_stop cond j rounds (i + 1) (by omega) hle
    · rename_i hc
      rw [if_neg hc] at hle
      simp only [Bool.and_eq_true, decide_eq_true_eq, not_and, Bool.not_eq_true] at hc
      exact hc hle

theorem scanDown_ge (cond : Nat → Bool) (i : Nat) :
    ∀ j : Nat, i ≤ j + 1 → i ≤ scanDown cond i j + 1
  | 0, h => h
  | j + 1, h => by
    simp only [scanDown]
    split
    · rename_i hc
      simp only [Bool.and_eq_true, decide_eq_true_eq] at hc
      exact scanDown_ge cond i j hc.1
    · exact h

theorem scanDown_stop (cond : Nat → Bool) (i : Nat) (hi : 1 ≤ i) :
    ∀ j : Nat, i ≤ scanDown cond i j → cond (scanDown cond i j) = false
  | 0, h => by
    simp only [scanDown] at h
    omega
  | j + 1, h => by
    simp only [scanDown] at h ⊢
    split
    · rename_i hc
      rw [if_pos hc] at h
      exact scanDown_stop cond i hi j h
    · rename_i hc
      rw [if_neg hc] at h
      simp only [Bool.and_eq_true, decide_eq_true_eq, not_and, Bool.not_eq_true] at hc
      exact hc h

theorem partitionLoop_snd_ge (less : α → α → Bool) (a : Nat) :
    ∀ (rounds i j : Nat) (data : List α), 1 ≤ i → i ≤ j + 1 →
      i ≤ (partitionLoop less a rounds i j data).2 + 1
  | 0, _, _, _, _, h => h
  | rounds + 1, i, j, data, hi, h => by
    simp only [partitionLoop]
    have h1 := scanUp_ge (fun i => Less less data i a) j (j + 1) i
    have h2 := scanUp_le (fun i => Less less data i a) j (j + 1) i h
    have h3 := scanDown_ge (fun j => !Less less data j a)
      (scanUp (fun i => Less less data i a) j (j + 1) i) j h2
    have h4 := scanDown_le (fun j => !Less less data j a)
      (scanUp (fun i => Less less data i a) j (j + 1) i) j
    split
    · omega
    · rename_i hgt
      have hle : scanUp (fun i => Less less data i a) j (j + 1) i ≤
          scanDown (fun j => !Less less data j a)
            (scanUp (fun i => Less less data i a) j (j + 1) i) j := by omega
      have s1 := scanUp_stop (fun i => Less less data i a) j (j + 1) i (by omega) (by omega)
      have s2 := scanDown_stop (fun j => !Less less data j a)
        (scanUp (fun i => Less less data i a) j (j + 1) i) (by omega) j hle
      have hne : scanUp (fun i => Less less data i a) j (j + 1) i ≠
          scanDown (fun j => !Less less data j a)
            (scanUp (fun i => Less less data i a) j (j + 1) i) j := by
        intro he
        rw [← he] at s2
        simp only at s1 s2
        rw [s1] at s2
        exact absurd s2 (by decide)
      have := partitionLoop_snd_ge less a rounds
        (scanUp (fun i => Less less data i a) j (j + 1) i + 1)
        (scanDown (fun j => !Less less data j a)
          (scanUp (fun i => Less less data i a) j (j + 1) i) j - 1)
        (Swap data (scanUp (fun i => Less less data i a) j (j + 1) i)
          (scanDown (fun j => !Less less data j a)
            (scanUp (fun i => Less less data i a) j (j + 1) i) j))
        (by omega) (by omega)
      omega

theorem partition_func_mid_ge (less : α → α → Bool) (data : List α) (a b pivot : Nat)
    (hab : a + 1 ≤ b) : a ≤ (partition_func less data a b pivot).2.1 := by
  simp only [partition_func]
  have h1 := scanUp_ge (fun i => Less less (Swap data a pivot) i a) (b - 1) (b - 1 + 1) (a + 1)
  have h2 := scanUp_le (fun i => Less less (Swap data a pivot) i a) (b - 1) (b - 1 + 1) (a + 1)
    (by omega)
  have h3 := scanDown_ge (fun j => !Less less (Swap data a pivot) j a)
    (scanUp (fun i => Less less (Swap data a pivot) i a) (b - 1) (b - 1 + 1) (a + 1)) (b - 1) h2
  have h4 := scanDown_le (fun j => !Less less (Swap data a pivot) j a)
    (scanUp (fun i => Less less (Swap data a pivot) i a) (b - 1) (b - 1 + 1) (a + 1)) (b - 1)
  split
  · dsimp only
    omega
  · rename_i hgt
    have hle : scanUp (fun i => Less less (Swap data a pivot) i a) (b - 1) (b - 1 + 1) (a + 1) ≤
        scanDown (fun j => !Less less (Swap data a pivot) j a)
          (scanUp (fun i => Less less (Swap data a pivot) i a) (b - 1) (b - 1 + 1) (a + 1))
          (b - 1) := by omega
    have s1 := scanUp_stop (fun i => Less less (Swap data a pivot) i a) (b - 1) (b - 1 + 1)
      (a + 1) (by omega) (by omega)
    have s2 := scanDown_stop (fun j => !Less less (Swap data a pivot) j a)
      (scanUp (fun i => Less less (Swap data a pivot) i a) (b - 1) (b - 1 + 1) (a + 1))
      (by omega) (b - 1) hle
    have hne : scanUp (fun i => Less less (Swap data a pivot) i a) (b - 1) (b - 1 + 1) (a + 1) ≠
        scanDown (fun j => !Less less (Swap data a pivot) j a)
          (scanUp (fun i => Less less (Swap data a pivot) i a) (b - 1) (b - 1 + 1) (a + 1))
          (b - 1) := by
      intro he
      rw [← he] at s2
      simp only at s1 s2
      rw [s1] at s2
      exact absurd s2 (by decide)
    have := partitionLoop_snd_ge less a (b - a + 1)
      (scanUp (fun i => Less less (Swap data a pivot) i a) (b - 1) (b - 1 + 1) (a + 1) + 1)
      (scanDown (fun j => !Less less (Swap data a pivot) j a)
        (scanUp (fun i => Less less (Swap data a pivot) i a) (b - 1) (b - 1 + 1) (a + 1))
        (b - 1) - 1)
      (Swap (Swap data a pivot)
        (scanUp (fun i => Less less (Swap data a pivot) i a) (b - 1) (b - 1 + 1) (a + 1))
        (scanDown (fun j => !Less less (Swap data a pivot) j a)
          (scanUp (fun i => Less less (Swap data a pivot) i a) (b - 1) (b - 1 + 1) (a + 1))
          (b - 1)))
      (by omega) (by omega)
    dsimp only
    omega

theorem partitionEqualLoop_snd_ge (less : α → α → Bool) (a : Nat) :
    ∀ (rounds i j : Nat) (data : List α), i ≤ (partitionEqualLoop less a rounds i j data).2
  | 0, _, _, _ => Nat.le_refl _
  | rounds + 1, i, j, data => by
    simp only [partitionEqualLoop]
    split
    · exact scanUp_ge _ _ _ _
    · refine Nat.le_trans ?_ (partitionEqualLoop_snd_ge less a rounds _ _ _)
      exact Nat.le_trans (scanUp_ge _ _ _ _) (Nat.le_succ _)

theorem partitionEqual_func_ge (less : α → α → Bool) (data : List α) (a b pivot : Nat) :
    a + 1 ≤ (partitionEqual_func less data a b pivot).2 := by
  simp only [partitionEqual_func]
  exact partitionEqualLoop_snd_ge less a _ _ _ _

/-- `pdqsort_func` comes to an end within a budget above the length of `data[a:b]`. -/
theorem pdqsort_func_isSome (less : α → α → Bool) :
    ∀ (budget : Nat) (data : List α) (a b limit : Nat) (wasBalanced wasPartitioned : Bool),
      b - a < budget →
      ∃ r, pdqsort_func less budget data a b limit wasBalanced wasPartitioned = some r
  | 0, _, _, _, _, _, _, h => absurd h (Nat.not_lt_zero _)
  | budget + 1, data, a, b, limit, wasBalanced, wasPartitioned, h => by
    unfold pdqsort_func
    dsimp only
    split
    · exact ⟨_, rfl⟩
    · rename_i hlen
      split
      · exact ⟨_, rfl⟩
      · split
        · exact ⟨_, rfl⟩
        · split
          · have hge := partitionEqual_func_ge less
              (pdqsortPrepare less data a b limit wasBalanced wasPartitioned).data a b
              (pdqsortPrepare less data a b limit wasBalanced wasPartitioned).pivot
            exact pdqsort_func_isSome less budget _ _ _ _ _ _ (by omega)
          · have hmid := partition_func_mid_le less
              (pdqsortPrepare less data a b limit wasBalanced wasPartitioned).data a b
              (pdqsortPrepare less data a b limit wasBalanced wasPartitioned).pivot
            have hmid2 := partition_func_mid_ge less
              (pdqsortPrepare less data a b limit wasBalanced wasPartitioned).data a b
              (pdqsortPrepare less data a b limit wasBalanced wasPartitioned).pivot (by omega)
            split
            · obtain ⟨r1, h1⟩ := pdqsort_func_isSome less budget
                (partition_func less
                  (pdqsortPrepare less data a b limit wasBalanced wasPartitioned).data a b
                  (pdqsortPrepare less data a b limit wasBalanced wasPartitioned).pivot).1
                a
                (partition_func less
                  (pdqsortPrepare less data a b limit wasBalanced wasPartitioned).data a b
                  (pdqsortPrepare less data a b limit wasBalanced wasPartitioned).pivot).2.1
                (pdqsortPrepare less data a b limit wasBalanced wasPartitioned).limit
                true true (by omega)
              rw [h1]
              exact pdqsort_func_isSome less budget _ _ _ _ _ _ (by omega)
            · obtain ⟨r1, h1⟩ := pdqsort_func_isSome less budget
                (partition_func less
                  (pdqsortPrepare less data a b limit wasBalanced wasPartitioned).data a b
                  (pdqsortPrepare less data a b limit wasBalanced wasPartitioned).pivot).1
                ((partition_func less
                  (pdqsortPrepare less data a b limit wasBalanced wasPartitioned).data a b
                  (pdqsortPrepare less data a b limit wasBalanced wasPartitioned).pivot).2.1 + 1)
                b
                (pdqsortPrepare less data a b limit wasBalanced wasPartitioned).limit
                true true (by omega)
              rw [h1]
              exact pdqsort_func_isSome less budget _ _ _ _ _ _ (by omega)

/-- `sort.Slice` as modelled always returns: the step budget never runs out. -/
theorem Slice_isSome (less : α → α → Bool) (x : List α) : ∃ r, Slice less x = some r :=
  pdqsort_func_isSome less _ _ _ _ _ _ _ (by omega)

end gosort

/-! ### The thirteen-plugin run -/

/-- The reports built for the thirteen custom plugins. -/
theorem thirteen_reports : buildReports [] thirteenInstalled = some thirteenReports := rfl

/-- The run of the thirteen custom plugins with Go's sorting algorithm. -/
theorem thirteen_run : RunAudit goLibrary thirteenClient {} =
    .ok { Plugins := thirteenFindings,
          Summary := { Total := 13, ThirdParty := 13, Unknown := 13, Enabled := 13 } } := rfl

/-- The reports built for the sample run, in the order of the installed list. -/
theorem example_reports : buildReports exampleCatalogue exampleInstalled =
    some [findingZebra, findingConfluence, findingCalls, findingGcal, findingWelcomeBot] := rfl

/-- The thirteen-plugin result is a rearrangement of the reports in the order of the
comparison: only the order inside the group of tied findings differs. -/
theorem thirteen_run_sorted :
    thirteenFindings.Perm thirteenReports ∧
    thirteenFindings.Pairwise (fun f g => reportLess goLibrary.ToLower g f = false) := by
  constructor
  · decide
  · decide

/-! ### Substrings -/

/-- `strings.Contains` as modelled is the substring relation on the character lists. -/
theorem containsAt_iff : ∀ s sub : List Char, containsAt s sub = true ↔ sub <:+: s
  | [], sub => by
    simp [containsAt, List.isEmpty_iff]
  | c :: cs, sub => by
    simp only [containsAt, Bool.or_eq_true, List.isPrefixOf_iff_prefix, containsAt_iff cs sub]
    rw [List.infix_cons_iff]

theorem stringsContains_iff (s substr : String) :
    stringsContains s substr = true ↔ substr.data <:+: s.data :=
  containsAt_iff _ _

theorem bundledPlugins_iff (pluginID : String) :
    bundledPlugins pluginID = true ↔ pluginID ∈ bundledPluginKeys := by
  simp [bundledPlugins]

/-- The four branches of `ClassifyPluginSource`. -/
theorem classify_cases (pluginID : String) (inMarketplace : Bool) (homepageURL : String) :
    (pluginID ∈ bundledPluginKeys ∧
      ClassifyPluginSource pluginID inMarketplace homepageURL = SourceBundled) ∨
    (pluginID ∉ bundledPluginKeys ∧ inMarketplace = true ∧
      ClassifyPluginSource pluginID inMarketplace homepageURL = SourceMarketplace) ∨
    (pluginID ∉ bundledPluginKeys ∧ inMarketplace = false ∧
      ("github.com/mattermost/".data <:+: homepageURL.data ∧
        ¬ "github.com/mattermost-community/".data <:+: homepageURL.data) ∧
      ClassifyPluginSource pluginID inMarketplace homepageURL = SourceMattermost) ∨
    (pluginID ∉ bundledPluginKeys ∧ inMarketplace = false ∧
      ¬ ("github.com/mattermost/".data <:+: homepageURL.data ∧
        ¬ "github.com/mattermost-community/".data <:+: homepageURL.data) ∧
      ClassifyPluginSource pluginID inMarketplace homepageURL = SourceThirdParty) := by
  unfold ClassifyPluginSource
  by_cases hb : pluginID ∈ bundledPluginKeys
  · exact Or.inl ⟨hb, by simp [(bundledPlugins_iff pluginID).2 hb]⟩
  · have hb' : bundledPlugins pluginID = false := by
      cases h : bundledPlugins pluginID with
      | false => rfl
      | true => exact absurd ((bundledPlugins_iff pluginID).1 h) hb
    cases inMarketplace with
    | true => exact Or.inr (Or.inl ⟨hb, rfl, by simp [hb']⟩)
    | false =>
      by_cases hu : "github.com/mattermost/".data <:+: homepageURL.data ∧
          ¬ "github.com/mattermost-community/".data <:+: homepageURL.data
      · refine Or.inr (Or.inr (Or.inl ⟨hb, rfl, hu, ?_⟩))
        have h1 := (stringsContains_iff homepageURL "github.com/mattermost/").2 hu.1
        have h2 : stringsContains homepageURL "github.com/mattermost-community/" = false := by
          cases h : stringsContains homepageURL "github.com/mattermost-community/" with
          | false => rfl
          | true => exact absurd ((stringsContains_iff _ _).1 h) hu.2
        simp [hb', h1, h2]
      · refine Or.inr (Or.inr (Or.inr ⟨hb, rfl, hu, ?_⟩))
        have h3 : (stringsContains homepageURL "github.com/mattermost/" &&
            !stringsContains homepageURL "github.com/mattermost-community/") = false := by
          cases h1 : stringsContains homepageURL "github.com/mattermost/" with
          | false => rfl
          | true =>
            cases h2 : stringsContains homepageURL "github.com/mattermost-community/" with
            | true => rfl
            | false =>
              exfalso
              apply hu
              refine ⟨(stringsContains_iff _ _).1 h1, ?_⟩
              intro hc
              rw [(stringsContains_iff _ _).2 hc] at h2
              exact absurd h2 (by decide)
        simp [hb', h3]

theorem sources_distinct :
    SourceMarketplace ≠ SourceBundled ∧ SourceMarketplace ≠ SourceMattermost ∧
    SourceMarketplace ≠ SourceThirdParty ∧ SourceBundled ≠ SourceMattermost ∧
    SourceBundled ≠ SourceThirdParty ∧ SourceMattermost ≠ SourceThirdParty := by
  decide

/-! ### Reports of a run and their sources -/

/-- Every installed plugin has its report among the reports of the loop. -/
theorem buildReports_complete {mpCatalogue : Catalogue} {installed : List InstalledPlugin}
    {reports : List PluginReport} (h : buildReports mpCatalogue installed = some reports)
    {p : InstalledPlugin} (hp : p ∈ installed) :
    ∃ r ∈ reports, ReportOf mpCatalogue p r := by
  have h2 := buildReports_forall2 h
  clear h
  induction h2 with
  | nil => simp at hp
  | @cons q r ps rs hqr _ ih =>
    rcases List.mem_cons.1 hp with rfl | hp
    · exact ⟨r, List.mem_cons_self _ _, buildReport_spec hqr⟩
    · obtain ⟨r', hr', hrep⟩ := ih hp
      exact ⟨r', List.mem_cons_of_mem _ hr', hrep⟩

/-- The run of `TestRunAudit_BundledPluginOverridesMarketplace`. -/
theorem bundledListed_run :
    RunAudit refLibrary bundledListedClient {} = .ok bundledListedResult := rfl

/-- The run of `TestRunAudit_InstalledNewerThanMarketplace`. -/
theorem newer_run : RunAudit refLibrary newerClient {} = .ok newerResult := rfl

/-- `ClassifyPluginSource` returns the marketplace constant exactly for a plugin that is not
bundled and is in the marketplace. -/
theorem classify_eq_marketplace_iff (pluginID : String) (inMarketplace : Bool) (url : String) :
    ClassifyPluginSource pluginID inMarketplace url = SourceMarketplace ↔
      pluginID ∉ bundledPluginKeys ∧ inMarketplace = true := by
  obtain ⟨d1, d2, d3, _, _, _⟩ := sources_distinct
  rcases classify_cases pluginID inMarketplace url with
    ⟨hb, h⟩ | ⟨hb, hm, h⟩ | ⟨hb, hm, _, h⟩ | ⟨hb, hm, _, h⟩
  · rw [h]
    exact ⟨fun e => absurd e.symm d1, fun e => absurd hb e.1⟩
  · rw [h]
    exact ⟨fun _ => ⟨hb, hm⟩, fun _ => rfl⟩
  · rw [h]
    exact ⟨fun e => absurd e.symm d2, fun e => by rw [hm] at e; exact absurd e.2 (by decide)⟩
  · rw [h]
    exact ⟨fun e => absurd e.symm d3, fun e => by rw [hm] at e; exact absurd e.2 (by decide)⟩

/-- The source of a report in terms of its own plugin ID. -/
theorem reportOf_marketplace_iff {mpCatalogue : Catalogue} {p : InstalledPlugin}
    {r : PluginReport} (h : ReportOf mpCatalogue p r) :
    r.Source = SourceMarketplace ↔
      r.PluginID ∉ bundledPluginKeys ∧ (mpCatalogue.lookup r.PluginID).isSome = true := by
  rw [h.source, h.pluginID]
  exact classify_eq_marketplace_iff _ _ _

theorem reportOf_bundled {mpCatalogue : Catalogue} {p : InstalledPlugin}
    {r : PluginReport} (h : ReportOf mpCatalogue p r) (hb : r.PluginID ∈ bundledPluginKeys) :
    r.Source = SourceBundled := by
  rw [h.source]
  rw [h.pluginID] at hb
  rcases classify_cases p.ID (mpCatalogue.lookup p.ID).isSome p.HomepageURL with
    ⟨_, h⟩ | ⟨hn, _⟩ | ⟨hn, _⟩ | ⟨hn, _⟩
  · exact h
  · exact absurd hb hn
  · exact absurd hb hn
  · exact absurd hb hn

theorem countP_or_disjoint (l : List PluginReport) :
    l.countP (fun r => r.Source = SourceBundled ∨ r.Source = SourceMattermost ∨
      r.Source = SourceThirdParty) =
    l.countP (fun r => r.Source = SourceBundled) +
      l.countP (fun r => r.Source = SourceMattermost) +
      l.countP (fun r => r.Source = SourceThirdParty) := by
  induction l with
  | nil => simp
  | cons r rs ih =>
    simp only [List.countP_cons]
    by_cases h1 : r.Source = SourceBundled
    · simp [h1, SourceBundled, SourceMattermost, SourceThirdParty] at ih ⊢
      omega
    · by_cases h2 : r.Source = SourceMattermost
      · simp [h2, SourceBundled, SourceMattermost, SourceThirdParty] at ih ⊢
        omega
      · by_cases h3 : r.Source = SourceThirdParty
        · simp [h3, SourceBundled, SourceMattermost, SourceThirdParty] at ih ⊢
          omega
        · simp [h1, h2, h3] at ih ⊢
          omega

/-! ### The sort key -/

theorem reportLess_eq_keyLess (toLower : String → String) (f g : PluginReport) :
    reportLess toLower f g = keyLess (sortKey toLower f) (sortKey toLower g) := rfl

theorem sameKey_iff (toLower : String → String) (f g : PluginReport) :
    sameKey toLower f g = true ↔ sortKey toLower f = sortKey toLower g := by
  simp [sameKey, sortKey, Prod.ext_iff]

/-- Two keys neither of which is below the other are equal. -/
theorem keyLess_antisymm (k₁ k₂ : Nat × String)
    (h1 : keyLess k₁ k₂ = false) (h2 : keyLess k₂ k₁ = false) : k₁ = k₂ := by
  unfold keyLess at h1 h2
  by_cases he : k₁.1 = k₂.1
  · simp only [he, ne_eq, not_true_eq_false, if_false] at h1 h2
    have hd := strLess_total _ _ h1 h2
    cases k₁ with
    | mk a s =>
      cases k₂ with
      | mk b t =>
        simp only at he hd
        subst he
        have : s = t := String.ext hd
        rw [this]
  · have he' : ¬ k₂.1 = k₁.1 := fun e => he e.symm
    simp only [ne_eq, he, he', not_false_eq_true, if_true, decide_eq_false_iff_not] at h1 h2
    omega

theorem keyLess_irrefl (k : Nat × String) : keyLess k k = false := by
  simp [keyLess, strLess_irrefl]

/-- Of two findings exactly one of three holds: the first precedes, the second precedes, or
they have the same key. -/
theorem reportLess_trichotomy (toLower : String → String) (f g : PluginReport) :
    (reportLess toLower f g = true ∧ reportLess toLower g f = false ∧
      sameKey toLower f g = false) ∨
    (reportLess toLower g f = true ∧ reportLess toLower f g = false ∧
      sameKey toLower f g = false) ∨
    (sameKey toLower f g = true ∧ reportLess toLower f g = false ∧
      reportLess toLower g f = false) := by
  obtain ⟨hirr, htr, _⟩ := reportLess_strictWeakOrder toLower
  have hne : ∀ a b : PluginReport, reportLess toLower a b = true →
      reportLess toLower b a = false ∧ sameKey toLower a b = false := by
    intro a b hab
    constructor
    · cases hba : reportLess toLower b a with
      | false => rfl
      | true =>
        have := htr a b a hab hba
        rw [hirr] at this
        exact absurd this (by decide)
    · cases hs : sameKey toLower a b with
      | false => rfl
      | true =>
        have hk := (sameKey_iff toLower a b).1 hs
        rw [reportLess_eq_keyLess, hk, keyLess_irrefl] at hab
        exact absurd hab (by decide)
  cases hfg : reportLess toLower f g with
  | true => exact Or.inl ⟨rfl, hne f g hfg⟩
  | false =>
    cases hgf : reportLess toLower g f with
    | true =>
      have := hne g f hgf
      refine Or.inr (Or.inl ⟨rfl, rfl, ?_⟩)
      cases hs : sameKey toLower f g with
      | false => rfl
      | true =>
        have hk := (sameKey_iff toLower f g).1 hs
        rw [reportLess_eq_keyLess, hk, keyLess_irrefl] at hgf
        exact absurd hgf (by decide)
    | false =>
      refine Or.inr (Or.inr ⟨?_, rfl, rfl⟩)
      rw [sameKey_iff]
      rw [reportLess_eq_keyLess] at hfg hgf
      exact keyLess_antisymm _ _ hfg hgf

/-- Two arrangements of the same findings that are both in the order of the comparison have
the same sequence of keys. -/
theorem sorted_keys_unique (toLower : String → String) {l₁ l₂ : List PluginReport}
    (hp : l₁.Perm l₂)
    (h1 : l₁.Pairwise (fun a b => reportLess toLower b a = false))
    (h2 : l₂.Pairwise (fun a b => reportLess toLower b a = false)) :
    l₁.map (sortKey toLower) = l₂.map (sortKey toLower) := by
  haveI : IsAntisymm (Nat × String) (fun a b => keyLess b a = false) :=
    ⟨fun a b hab hba => keyLess_antisymm a b hba hab⟩
  refine List.eq_of_perm_of_sorted (r := fun a b => keyLess b a = false) (hp.map _) ?_ ?_
  · exact List.pairwise_map.2 h1
  · exact List.pairwise_map.2 h2

/-- The reversing insertion sort meets the contract of `sort.Slice` too. -/
theorem reverseInsertionSortSlice_contract : SortSliceContract reverseInsertionSortSlice := by
  constructor
  · intro less l
    exact (List.perm_insertionSort _ l.reverse).trans (List.reverse_perm l)
  · intro less l h
    obtain ⟨hirr, htr, hneg⟩ := h
    haveI : IsTotal PluginReport (fun a b => less b a = false) := ⟨by
      intro a b
      cases hba : less b a with
      | false => exact Or.inl rfl
      | true =>
        right
        cases hab : less a b with
        | false => rfl
        | true =>
          have := htr a b a hab hba
          rw [hirr] at this
          exact absurd this (by decide)⟩
    haveI : IsTrans PluginReport (fun a b => less b a = false) := ⟨by
      intro a b c hab hbc
      exact hneg c b a hbc hab⟩
    exact List.sorted_insertionSort (fun a b => less b a = false) l.reverse

/-! ### More runs on the thirteen plugins -/

theorem thirteen_run_stable : RunAudit refLibrary thirteenClient {} =
    .ok { Plugins := thirteenStable,
          Summary := { Total := 13, ThirdParty := 13, Unknown := 13, Enabled := 13 } } := rfl

theorem thirteen_run_rotated_reverse : RunAudit reverseLibrary thirteenRotatedClient {} =
    .ok { Plugins := thirteenStable.reverse.tail ++ [customFinding "custom.00" "Relay"],
          Summary := { Total := 13, ThirdParty := 13, Unknown := 13, Enabled := 13 } } := rfl

theorem thirteen_run_rotated : RunAudit goLibrary thirteenRotatedClient {} =
    .ok { Plugins := thirteenStable,
          Summary := { Total := 13, ThirdParty := 13, Unknown := 13, Enabled := 13 } } := rfl

/-! ### Errors of the client -/

/-- The calls recorded by `RunAuditCalls` accompany the outcome of `RunAudit`. -/
theorem RunAuditCalls_snd (lib : GoLibrary) (mmClient : MattermostClient) (opts : AuditOptions) :
    (RunAuditCalls lib mmClient opts).2 = RunAudit lib mmClient opts := by
  unfold RunAuditCalls
  cases h1 : mmClient.GetPlugins with
  | error e => simp [RunAudit, h1]
  | ok installed =>
    cases h2 : mmClient.GetMarketplacePlugins with
    | error e => simp [RunAudit, h1, h2]
    | ok cat => simp

/-- The error `classifyAPIError` returns is a `*CLIError` with code 1 or 2. -/
theorem classifyAPIError_code (serverURL : String) (resp : Option Response)
    (err : Option GoError) :
    (classifyAPIError serverURL resp err).code? = some ExitConfigError ∨
      (classifyAPIError serverURL resp err).code? = some ExitAPIError := by
  unfold classifyAPIError
  cases resp with
  | none =>
    by_cases hu : serverURL = "" <;> simp [hu, apiError, GoError.code?]
  | some r =>
    by_cases h1 : r.StatusCode = 401
    · simp [h1, configError, GoError.code?]
    · by_cases h2 : r.StatusCode = 403
      · simp [h2, configError, GoError.code?]
      · by_cases h3 : r.StatusCode = 404
        · simp [h3, apiError, GoError.code?]
        · by_cases h4 : r.StatusCode ≥ 500
          · simp [h1, h2, h3, h4, apiError, GoError.code?]
          · by_cases hu : serverURL = "" <;>
              simp [h1, h2, h3, h4, hu, apiError, GoError.code?]

/-- An error of the page loop is an error of `classifyAPIError`. -/
theorem getMarketplacePluginsLoop_error (client : Client4) (perPage : Nat) :
    ∀ (fuel page : Nat) (result : Catalogue) (e : GoError),
      getMarketplacePluginsLoop client perPage fuel page result = some (.err e) →
      ∃ resp err, e = classifyAPIError "" resp (some err)
  | 0, _, _, _, h => by simp [getMarketplacePluginsLoop] at h
  | fuel + 1, page, result, e, h => by
    unfold getMarketplacePluginsLoop at h
    rcases hc : client.GetMarketplacePlugins page perPage with ⟨plugins, resp, err⟩
    rw [hc] at h
    cases err with
    | some err =>
      simp only [Option.some.injEq, Outcome.err.injEq] at h
      exact ⟨resp, err, h.symm⟩
    | none =>
      simp only at h
      cases ha : addPlugins result plugins with
      | none =>
        rw [ha] at h
        simp at h
      | some result2 =>
        rw [ha] at h
        simp only at h
        split at h
        · simp at h
        · exact getMarketplacePluginsLoop_error client perPage fuel (page + 1) _ e h

/-! ### The range of the comparison -/

theorem compareInt_range (x y : List Char) :
    compareInt x y = -1 ∨ compareInt x y = 0 ∨ compareInt x y = 1 := by
  unfold compareInt
  split
  · exact Or.inr (Or.inl rfl)
  · split
    · exact Or.inl rfl
    · split
      · exact Or.inr (Or.inr rfl)
      · split
        · exact Or.inl rfl
        · exact Or.inr (Or.inr rfl)

theorem identCmp_range (dx dy : List Char) : identCmp dx dy = -1 ∨ identCmp dx dy = 1 := by
  unfold identCmp
  split
  · split
    · exact Or.inl rfl
    · exact Or.inr rfl
  · split
    · exact Or.inl rfl
    · split
      · exact Or.inr rfl
      · split
        · exact Or.inl rfl
        · exact Or.inr rfl

theorem comparePrereleaseLoop_range :
    ∀ (n : Nat) (x y : List Char), x.length ≤ n →
      comparePrereleaseLoop x y = -1 ∨ comparePrereleaseLoop x y = 1
  | _, [], y, _ => by simp [comparePrereleaseLoop]
  | _, _ :: _, [], _ => by simp [comparePrereleaseLoop]
  | 0, _ :: _, _ :: _, h => by simp at h
  | n + 1, c :: x1, d :: y1, h => by
    rw [comparePrereleaseLoop_cons]
    split
    · exact identCmp_range _ _
    · apply comparePrereleaseLoop_range n
      have : (nextIdent x1).2.length ≤ x1.length := (List.dropWhile_sublist _).length_le
      simp only [List.length_cons] at h
      omega

theorem comparePrerelease_range (x y : List Char) :
    comparePrerelease x y = -1 ∨ comparePrerelease x y = 0 ∨ comparePrerelease x y = 1 := by
  unfold comparePrerelease
  split
  · exact Or.inr (Or.inl rfl)
  · split
    · exact Or.inr (Or.inr rfl)
    · split
      · exact Or.inl rfl
      · rcases comparePrereleaseLoop_range x.length x y (Nat.le_refl _) with h | h
        · exact Or.inl h
        · exact Or.inr (Or.inr h)

theorem Compare_range (v w : String) :
    Compare v w = -1 ∨ Compare v w = 0 ∨ Compare v w = 1 := by
  unfold Compare
  split
  · exact Or.inr (Or.inl rfl)
  · exact Or.inl rfl
  · exact Or.inr (Or.inr rfl)
  · split
    · exact compareInt_range _ _
    · split
      · exact compareInt_range _ _
      · split
        · exact compareInt_range _ _
        · exact comparePrerelease_range _ _

/-! ### The prefix test of `NormalizeVersion` -/

theorem stringsHasPrefix_v (v : String) :
    stringsHasPrefix v "v" = true ↔ v.data.head? = some 'v' := by
  unfold stringsHasPrefix
  have hv : "v".data = ['v'] := rfl
  rw [hv]
  cases v.data with
  | nil => simp [List.isPrefixOf]
  | cons c cs =>
    simp only [List.isPrefixOf, List.head?, Bool.and_true, beq_iff_eq, Option.some.injEq]
    exact eq_comm

/-! ### Reading back what the CSV writer wrote -/

theorem parseQuoted_writeQuotedBody (rest : List Char) (hr : rest.head? ≠ some '"') :
    ∀ field : List Char,
      parseQuoted (csv.writeQuotedBody field ++ '"' :: rest) = some (field, rest)
  | [] => by
    cases rest with
    | nil => simp [csv.writeQuotedBody, parseQuoted]
    | cons d ds =>
      have hd : d ≠ '"' := fun e => hr (by rw [e]; rfl)
      simp [csv.writeQuotedBody, parseQuoted, hd]
  | c :: cs => by
    have ih := parseQuoted_writeQuotedBody rest hr cs
    by_cases hc : c = '"'
    · subst hc
      simp [csv.writeQuotedBody, parseQuoted, ih]
    · simp only [csv.writeQuotedBody, hc, if_false, List.cons_append]
      rw [parseQuoted.eq_def]
      simp [hc, ih]

theorem parseUnquoted_append (rest : List Char)
    (hr : rest = [] ∨ rest.head? = some ',' ∨ rest.head? = some '\n') :
    ∀ field : List Char, (∀ c ∈ field, c ≠ ',' ∧ c ≠ '\n' ∧ c ≠ '"') →
      parseUnquoted (field ++ rest) = some (field, rest)
  | [], _ => by
    cases rest with
    | nil => simp [parseUnquoted]
    | cons d ds =>
      have hd : d = ',' ∨ d = '\n' := by
        rcases hr with h | h | h
        · exact absurd h (by simp)
        · left; simpa using h
        · right; simpa using h
      simp [parseUnquoted, hd]
  | c :: cs, h => by
    have hc := h c (List.mem_cons_self _ _)
    have ih := parseUnquoted_append rest hr cs (fun d hd => h d (List.mem_cons_of_mem _ hd))
    simp [parseUnquoted, hc.1, hc.2.1, hc.2.2, ih]

/-- A field that the writer leaves unquoted holds no comma, line feed or quote. -/
theorem fieldNeedsQuotes_false {isSpace : Char → Bool} {field : List Char}
    (h : csv.fieldNeedsQuotes isSpace field = false) :
    ∀ c ∈ field, c ≠ ',' ∧ c ≠ '\n' ∧ c ≠ '"' := by
  cases field with
  | nil => simp
  | cons a as =>
    unfold csv.fieldNeedsQuotes at h
    simp only at h
    split at h
    · simp at h
    · split at h
      · simp at h
      · rename_i _ hany
        intro c hc
        have hf : (decide (c = '\n') || decide (c = '\r') || decide (c = '"') ||
            decide (c = ',')) = false := by
          cases hh : (decide (c = '\n') || decide (c = '\r') || decide (c = '"') ||
            decide (c = ',')) with
          | false => rfl
          | true =>
            exfalso
            apply hany
            rw [List.any_eq_true]
            exact ⟨c, hc, by simpa using hh⟩
        simp only [Bool.or_eq_false_iff, decide_eq_false_iff_not] at hf
        exact ⟨hf.2, hf.1.1.1, hf.1.2⟩

theorem parseField_writeField (isSpace : Char → Bool) (field rest : List Char)
    (hr : rest = [] ∨ rest.head? = some ',' ∨ rest.head? = some '\n') :
    parseField (csv.writeField isSpace field ++ rest) = some (field, rest) := by
  have hq : rest.head? ≠ some '"' := by
    rcases hr with h | h | h <;> rw [h] <;> simp
  unfold csv.writeField
  cases hn : csv.fieldNeedsQuotes isSpace field with
  | true =>
    simp only [Bool.not_true, Bool.false_eq_true, if_false, List.cons_append,
      List.append_assoc, List.singleton_append]
    simp only [parseField, if_true]
    exact parseQuoted_writeQuotedBody rest hq field
  | false =>
    simp only [Bool.not_false, if_true]
    have hf := fieldNeedsQuotes_false hn
    cases field with
    | nil =>
      cases rest with
      | nil => simp [parseField]
      | cons d ds =>
        have hd : d ≠ '"' := fun e => hq (by rw [e]; rfl)
        simp only [List.nil_append, parseField, hd, if_false]
        exact parseUnquoted_append (d :: ds) hr [] (by simp)
    | cons a as =>
      have ha := (hf a (List.mem_cons_self _ _)).2.2
      simp only [List.cons_append, parseField, ha, if_false]
      exact parseUnquoted_append rest hr (a :: as) hf

theorem parseRecord_writeFields (isSpace : Char → Bool) (rest : List Char) :
    ∀ (fields : List (List Char)) (fuel : Nat), fields ≠ [] → fields.length ≤ fuel →
      parseRecord fuel (csv.writeFields isSpace fields ++ '\n' :: rest) = some (fields, rest)
  | [], _, h, _ => absurd rfl h
  | [field], fuel + 1, _, _ => by
    simp only [csv.writeFields, parseRecord]
    rw [parseField_writeField isSpace field ('\n' :: rest) (Or.inr (Or.inr rfl))]
    simp
  | field :: g :: gs, fuel + 1, _, hl => by
    have ih := parseRecord_writeFields isSpace rest (g :: gs) fuel (by simp)
      (by simp only [List.length_cons] at hl ⊢; omega)
    simp only [csv.writeFields, parseRecord, List.append_assoc, List.cons_append]
    rw [parseField_writeField isSpace field
      (',' :: (csv.writeFields isSpace (g :: gs) ++ '\n' :: rest)) (Or.inr (Or.inl rfl))]
    simp [ih]
  | _ :: _, 0, _, hl => by simp at hl

theorem length_writeFields (isSpace : Char → Bool) :
    ∀ fields : List (List Char), fields.length ≤ (csv.writeFields isSpace fields).length + 1
  | [] => by simp
  | [field] => by simp
  | field :: g :: gs => by
    have ih := length_writeFields isSpace (g :: gs)
    simp only [csv.writeFields, List.length_append, List.length_cons] at ih ⊢
    omega

theorem parseRecords_written (isSpace : Char → Bool) :
    ∀ (records : List (List (List Char))) (fuel : Nat), (∀ r ∈ records, r ≠ []) →
      records.length < fuel →
      parseRecords fuel
        (records.map (fun r => csv.writeFields isSpace r ++ ['\n'])).flatten = some records
  | [], fuel + 1, _, _ => by simp [parseRecords]
  | r :: rs, fuel + 1, hne, hl => by
    have hr : r ≠ [] := hne r (List.mem_cons_self _ _)
    have ih := parseRecords_written isSpace rs fuel
      (fun x hx => hne x (List.mem_cons_of_mem _ hx))
      (by simp only [List.length_cons] at hl; omega)
    simp only [List.map_cons, List.flatten_cons, List.append_assoc, List.singleton_append]
    generalize hrest : (rs.map (fun r => csv.writeFields isSpace r ++ ['\n'])).flatten = rest
      at ih ⊢
    cases hin : csv.writeFields isSpace r ++ '\n' :: rest with
    | nil => simp at hin
    | cons c cs =>
      simp only [parseRecords]
      rw [← hin, parseRecord_writeFields isSpace rest r _ hr]
      · simp [ih]
      · have h1 := length_writeFields isSpace r
        have h2 : (csv.writeFields isSpace r ++ '\n' :: rest).length = cs.length + 1 := by
          rw [hin]; simp
        simp only [List.length_append, List.length_cons] at h2
        omega
  | _, 0, _, hl => by simp at hl

theorem length_flatten_written (isSpace : Char → Bool) :
    ∀ records : List (List (List Char)),
      records.length ≤
        ((records.map (fun r => csv.writeFields isSpace r ++ ['\n'])).flatten).length
  | [] => by simp
  | r :: rs => by
    have ih := length_flatten_written isSpace rs
    simp only [List.map_cons, List.flatten_cons, List.length_append, List.length_cons,
      List.length_nil] at ih ⊢
    omega

/-- The text of `formatCSV` is the written form of the header and of one record for each
finding. -/
theorem formatCSV_text (isSpace : Char → Bool) (result : AuditResult) :
    (formatCSV isSpace result).1.data =
      (((csvHeader :: result.Plugins.map csvRecord).map (fun r => r.map String.data)).map
        (fun r => csv.writeFields isSpace r ++ ['\n'])).flatten := by
  simp [formatCSV, csv.Write, List.map_map, Function.comp_def]

/-- Reading the text of `formatCSV` gives the header and one record for each finding. -/
theorem parseCSV_formatCSV (isSpace : Char → Bool) (result : AuditResult) :
    parseCSV (formatCSV isSpace result).1 =
      some (csvHeader :: result.Plugins.map csvRecord) := by
  unfold parseCSV
  rw [formatCSV_text]
  rw [parseRecords_written]
  · simp only [Option.map_some', List.map_map, Option.some.injEq]
    have : ((fun r : List (List Char) => r.map String.mk) ∘
        fun r : List String => r.map String.data) = id := by
      funext r
      simp [List.map_map, Function.comp_def]
    rw [this, List.map_id]
  · intro r hr
    simp only [List.map_cons, List.map_map, List.mem_cons, List.mem_map,
      Function.comp_apply] at hr
    rcases hr with rfl | ⟨p, _, rfl⟩
    · simp [csvHeader]
    · simp [csvRecord]
  · exact Nat.lt_succ_of_le (length_flatten_written isSpace _)

/-! ### The sections of the table -/

theorem foldl_groupStep (l : List PluginReport) : ∀ g : TableGroups,
    l.foldl groupStep g =
      { marketplace := g.marketplace ++ l.filter (fun p => p.Source = SourceMarketplace),
        mattermost := g.mattermost ++ l.filter (fun p => p.Source = SourceMattermost),
        bundled := g.bundled ++ l.filter (fun p => p.Source = SourceBundled),
        thirdParty := g.thirdParty ++ l.filter (fun p => ¬ p.Source = SourceMarketplace ∧
          ¬ p.Source = SourceMattermost ∧ ¬ p.Source = SourceBundled) } := by
  induction l with
  | nil => intro g; simp
  | cons p ps ih =>
    intro g
    obtain ⟨d1, d2, _, d4, _, _⟩ := sources_distinct
    rw [List.foldl_cons, ih]
    unfold groupStep
    by_cases h1 : p.Source = SourceMarketplace
    · have h2 : ¬ p.Source = SourceMattermost := fun e => d2 (h1.symm.trans e)
      have h3 : ¬ p.Source = SourceBundled := fun e => d1 (h1.symm.trans e)
      simp [h1, h2, h3, List.filter_cons, d1, d2]
    · by_cases h2 : p.Source = SourceMattermost
      · have h3 : ¬ p.Source = SourceBundled := fun e => d4 (e.symm.trans h2)
        simp [h1, h2, h3, List.filter_cons, d4.symm, d2.symm]
      · by_cases h3 : p.Source = SourceBundled
        · simp [h1, h2, h3, List.filter_cons, d1.symm, d4]
        · simp [h1, h2, h3, List.filter_cons]

theorem groupBySource_eq (l : List PluginReport) :
    groupBySource l =
      { marketplace := l.filter (fun p => p.Source = SourceMarketplace),
        mattermost := l.filter (fun p => p.Source = SourceMattermost),
        bundled := l.filter (fun p => p.Source = SourceBundled),
        thirdParty := l.filter (fun p => ¬ p.Source = SourceMarketplace ∧
          ¬ p.Source = SourceMattermost ∧ ¬ p.Source = SourceBundled) } := by
  unfold groupBySource
  rw [foldl_groupStep]
  simp

theorem marketplaceBody_none (l : List PluginReport) :
    marketplaceBody l = .direct "(none)\n" ↔ l.length = 0 := by
  unfold marketplaceBody
  by_cases h : l.length > 0
  · simp only [h, if_true]
    constructor
    · intro e; exact absurd e (by simp)
    · intro e; omega
  · simp only [h, if_false]
    constructor
    · intro _; omega
    · intro _; rfl

theorem plainBody_none (l : List PluginReport) :
    plainBody l = .direct "(none)\n" ↔ l.length = 0 := by
  unfold plainBody
  by_cases h : l.length > 0
  · simp only [h, if_true]
    constructor
    · intro e; exact absurd e (by simp)
    · intro e; omega
  · simp only [h, if_false]
    constructor
    · intro _; omega
    · intro _; rfl

/-! ### Decimal numerals of `%d` -/

theorem digitChar_isDigit (m : Nat) (h : m < 10) : (Nat.digitChar m).isDigit = true := by
  interval_cases m <;> rfl

theorem toDigitsCore_isDigit : ∀ (fuel n : Nat) (ds : List Char),
    (∀ c ∈ ds, c.isDigit = true) → ∀ c ∈ Nat.toDigitsCore 10 fuel n ds, c.isDigit = true
  | 0, _, ds, h => by simpa [Nat.toDigitsCore] using h
  | fuel + 1, n, ds, h => by
    have hd : (Nat.digitChar (n % 10)).isDigit = true :=
      digitChar_isDigit _ (Nat.mod_lt _ (by decide))
    have hds : ∀ c ∈ Nat.digitChar (n % 10) :: ds, c.isDigit = true := by
      intro c hc
      rcases List.mem_cons.1 hc with rfl | hc
      · exact hd
      · exact h c hc
    simp only [Nat.toDigitsCore]
    split
    · exact hds
    · exact toDigitsCore_isDigit fuel _ _ hds

/-- The text of `%d` for a number that is not negative consists of digits. -/
theorem fmtInt_isDigit (n : Nat) : ∀ c ∈ (fmtInt (n : Int)).data, c.isDigit = true := by
  have h : (fmtInt (n : Int)).data = Nat.toDigits 10 n := rfl
  rw [h]
  exact toDigitsCore_isDigit _ _ _ (by simp)

/-! ### Occurrences of the placeholder -/

theorem occurrences_append_of_ne (sub : List Char) (s : Char) (hs : sub.head? = some s) :
    ∀ (a b : List Char), (∀ c ∈ a, c ≠ s) →
      occurrences sub (a ++ b) = occurrences sub b
  | [], b, _ => rfl
  | c :: cs, b, h => by
    have hc : c ≠ s := h c (List.mem_cons_self _ _)
    have ih := occurrences_append_of_ne sub s hs cs b
      (fun d hd => h d (List.mem_cons_of_mem _ hd))
    cases sub with
    | nil => simp at hs
    | cons t ts =>
      simp only [List.head?_cons, Option.some.injEq] at hs
      subst hs
      simp only [List.cons_append, occurrences, List.isPrefixOf]
      have : (t == c) = false := by simpa using fun e => hc e.symm
      simp [this, ih]

theorem isPrefixOf_append_of_length_le (sub : List Char) :
    ∀ (x b : List Char), sub.length ≤ x.length →
      sub.isPrefixOf (x ++ b) = sub.isPrefixOf x := by
  induction sub with
  | nil => intro x b _; simp
  | cons s ss ih =>
    intro x b h
    cases x with
    | nil => simp at h
    | cons c cs =>
      simp only [List.cons_append, List.isPrefixOf, List.append_eq]
      rw [ih cs b (by simpa using h)]

/-- The occurrences in a text of two parts are those in the parts when the first part ends
without the first character of `sub` among its last characters. -/
theorem occurrences_append (sub : List Char) (s : Char) (hs : sub.head? = some s)
    (b : List Char) :
    ∀ a : List Char, (∀ t, t <:+ a → t.length < sub.length → t.head? ≠ some s) →
      occurrences sub (a ++ b) = occurrences sub a + occurrences sub b
  | [], _ => by simp [occurrences]
  | c :: cs, h => by
    have ih := occurrences_append sub s hs b cs
      (fun t ht => h t (ht.trans (List.suffix_cons c cs)))
    simp only [List.cons_append, occurrences, List.append_eq, ih]
    have hp : sub.isPrefixOf (c :: (cs ++ b)) = sub.isPrefixOf (c :: cs) := by
      by_cases hl : sub.length ≤ (c :: cs).length
      · exact isPrefixOf_append_of_length_le sub (c :: cs) b hl
      · have hc := h (c :: cs) (List.suffix_refl _) (by omega)
        cases sub with
        | nil => simp at hs
        | cons t ts =>
          simp only [List.head?_cons, Option.some.injEq, ne_eq] at hs hc
          subst hs
          have : (t == c) = false := by simpa using fun e => hc e.symm
          simp [List.isPrefixOf, this]
    simp only [hp]
    omega

theorem suffix_clear_of_all (a : List Char) (k : Nat) (s : Char)
    (h : (a.reverse.take k).all (fun c => c != s) = true) :
    ∀ t, t <:+ a → t.length < k + 1 → t.head? ≠ some s := by
  intro t ht hl hh
  obtain ⟨u, rfl⟩ := ht
  cases t with
  | nil => simp at hh
  | cons c cs =>
    simp only [List.head?_cons, Option.some.injEq] at hh
    subst hh
    rw [List.all_eq_true] at h
    have hm : c ∈ ((u ++ c :: cs).reverse.take k) := by
      rw [List.reverse_append, List.take_append_eq_append_take]
      apply List.mem_append_left
      rw [List.take_of_length_le (by simp only [List.length_reverse]; omega)]
      simp
    have := h c hm
    simp at this

/-- The placeholder does not occur where a number follows an opening bracket. -/
theorem isPrefixOf_none_fmtInt (n : Nat) (rest : List Char) :
    ['n', 'o', 'n', 'e', ')'].isPrefixOf ((fmtInt (n : Int)).data ++ ' ' :: rest) = false := by
  cases hd : (fmtInt (n : Int)).data with
  | nil => simp [List.isPrefixOf]
  | cons c cs =>
    have hc : c ≠ 'n' := by
      intro e
      have := fmtInt_isDigit n c (by rw [hd]; exact List.mem_cons_self _ _)
      rw [e] at this
      exact absurd this (by decide)
    have : ('n' == c) = false := by simpa using fun e => hc e.symm
    simp [List.isPrefixOf, this]

theorem occurrences_fmtInt (n : Nat) (rest : List Char) :
    occurrences ['(', 'n', 'o', 'n', 'e', ')'] ((fmtInt (n : Int)).data ++ rest) =
      occurrences ['(', 'n', 'o', 'n', 'e', ')'] rest := by
  apply occurrences_append_of_ne ['(', 'n', 'o', 'n', 'e', ')'] '(' rfl
  intro c hc e
  have := fmtInt_isDigit n c hc
  rw [e] at this
  exact absurd this (by decide)

/-- The summary line never holds the placeholder. -/
theorem occurrences_summaryLine (s : AuditSummary) :
    occurrences "(none)".data (summaryLine s).data = 0 := by
  simp only [summaryLine, String.data_append, List.append_assoc]
  simp [occurrences, List.isPrefixOf, occurrences_fmtInt, isPrefixOf_none_fmtInt]

/-- The table of a result without findings: four empty sections and the summary line. -/
theorem formatTable_empty (tabwriter : String → String) (result : AuditResult)
    (h : result.Plugins = []) :
    (formatTable tabwriter result).1 =
      "=== Marketplace Plugins (0) ===\n(none)\n\n=== Mattermost Plugins (0) ===\n(none)\n\n=== Bundled Mattermost Plugins (0) ===\n(none)\n\n=== Third-Party / Custom Plugins (0) ===\n(none)\n\n" ++
        summaryLine result.Summary := by
  simp only [formatTable, formatTablePieces, h, groupBySource, List.foldl_nil, marketplaceBody,
    plainBody, List.length_nil, gt_iff_lt, Nat.lt_irrefl, if_false, List.map_cons, List.map_nil,
    TablePiece.render]
  rfl

set_option maxRecDepth 100000 in
theorem occurrences_formatTable_empty (tabwriter : String → String) (result : AuditResult)
    (h : result.Plugins = []) :
    occurrences "(none)".data (formatTable tabwriter result).1.data = 4 := by
  rw [formatTable_empty tabwriter result h, String.data_append,
    occurrences_append "(none)".data '(' rfl _ _ (suffix_clear_of_all _ 5 _ (by decide)),
    occurrences_summaryLine]
  decide

/-! ### The two forms of the update flag -/

/-- The three values of `UpdateAvailable` in a report of the loop. -/
theorem reportOf_tristate {mpCatalogue : Catalogue} {p : InstalledPlugin} {r : PluginReport}
    (h : ReportOf mpCatalogue p r) :
    (r.UpdateAvailable = "true" ∧ r.UpdateAvailJSON = some true) ∨
    (r.UpdateAvailable = "false" ∧ r.UpdateAvailJSON = some false) ∨
    (r.UpdateAvailable = "unknown" ∧ r.UpdateAvailJSON = none ∧
      r.Source ≠ SourceMarketplace) := by
  by_cases hm : r.Source = SourceMarketplace
  · obtain ⟨_, _, _, _, hc⟩ := h.marketplace hm
    rcases hc with ⟨_, h1, h2⟩ | ⟨_, h1, h2⟩
    · exact Or.inl ⟨h1, h2⟩
    · exact Or.inr (Or.inl ⟨h1, h2⟩)
  · obtain ⟨_, _, h1, h2⟩ := h.other hm
    exact Or.inr (Or.inr ⟨h1, h2, hm⟩)

/-! ### Texts without a carriage return before a line feed -/

theorem head?_writeQuotedBody_append (cs rest : List Char) (h : cs.head? ≠ some '\n') :
    (csv.writeQuotedBody cs ++ '"' :: rest).head? ≠ some '\n' ∧
      csv.writeQuotedBody cs ++ '"' :: rest ≠ [] := by
  cases cs with
  | nil => simp [csv.writeQuotedBody]
  | cons d ds =>
    by_cases hd : d = '"'
    · simp [csv.writeQuotedBody, hd]
    · have : d ≠ '\n' := fun e => h (by rw [e]; rfl)
      simp [csv.writeQuotedBody, hd, this]

theorem dropCarriageReturns_writeQuotedBody (rest : List Char) :
    ∀ field : List Char, ¬ ['\r', '\n'] <:+: field →
      dropCarriageReturns (csv.writeQuotedBody field ++ '"' :: rest) =
        csv.writeQuotedBody field ++ '"' :: dropCarriageReturns rest
  | [], _ => by simp [csv.writeQuotedBody, dropCarriageReturns]
  | c :: cs, h => by
    have hcs : ¬ ['\r', '\n'] <:+: cs := fun e => h (List.infix_cons e)
    have ih := dropCarriageReturns_writeQuotedBody rest cs hcs
    by_cases hq : c = '"'
    · subst hq
      simp [csv.writeQuotedBody, dropCarriageReturns, ih]
    · by_cases hr : c = '\r'
      · subst hr
        have hh : cs.head? ≠ some '\n' := by
          intro e
          apply h
          cases cs with
          | nil => simp at e
          | cons d ds =>
            simp only [List.head?_cons, Option.some.injEq] at e
            subst e
            exact ⟨[], ds, rfl⟩
        obtain ⟨h1, h2⟩ := head?_writeQuotedBody_append cs rest hh
        simp only [csv.writeQuotedBody, hq, if_false, List.cons_append, dropCarriageReturns,
          List.append_eq, h1, h2, or_self, and_false, ih]
      · simp [csv.writeQuotedBody, dropCarriageReturns, hq, hr, ih]

theorem dropCarriageReturns_append (rest : List Char) :
    ∀ field : List Char, (∀ c ∈ field, c ≠ '\r') →
      dropCarriageReturns (field ++ rest) = field ++ dropCarriageReturns rest
  | [], _ => rfl
  | c :: cs, h => by
    have hc := h c (List.mem_cons_self _ _)
    have ih := dropCarriageReturns_append rest cs (fun d hd => h d (List.mem_cons_of_mem _ hd))
    simp [dropCarriageReturns, hc, ih]

/-- A field that the writer leaves unquoted holds no carriage return. -/
theorem fieldNeedsQuotes_false_cr {isSpace : Char → Bool} {field : List Char}
    (h : csv.fieldNeedsQuotes isSpace field = false) : ∀ c ∈ field, c ≠ '\r' := by
  cases field with
  | nil => simp
  | cons a as =>
    unfold csv.fieldNeedsQuotes at h
    simp only at h
    split at h
    · simp at h
    · split at h
      · simp at h
      · rename_i _ hany
        intro c hc e
        apply hany
        rw [List.any_eq_true]
        exact ⟨c, hc, by simp [e]⟩

theorem dropCarriageReturns_writeField (isSpace : Char → Bool) (field rest : List Char)
    (h : ¬ ['\r', '\n'] <:+: field) :
    dropCarriageReturns (csv.writeField isSpace field ++ rest) =
      csv.writeField isSpace field ++ dropCarriageReturns rest := by
  unfold csv.writeField
  cases hn : csv.fieldNeedsQuotes isSpace field with
  | true =>
    simp only [Bool.not_true, Bool.false_eq_true, if_false, List.cons_append,
      List.append_assoc, List.singleton_append]
    rw [dropCarriageReturns]
    simp only [Char.reduceEq, false_and, if_false, List.nil_append]
    rw [dropCarriageReturns_writeQuotedBody rest field h]
  | false =>
    simp only [Bool.not_false, if_true]
    exact dropCarriageReturns_append rest field (fieldNeedsQuotes_false_cr hn)

theorem dropCarriageReturns_writeFields (isSpace : Char → Bool) (rest : List Char) :
    ∀ fields : List (List Char), (∀ f ∈ fields, ¬ ['\r', '\n'] <:+: f) →
      dropCarriageReturns (csv.writeFields isSpace fields ++ '\n' :: rest) =
        csv.writeFields isSpace fields ++ '\n' :: dropCarriageReturns rest
  | [], _ => by simp [csv.writeFields, dropCarriageReturns]
  | [field], h => by
    simp only [csv.writeFields]
    rw [dropCarriageReturns_writeField isSpace field _ (h field (List.mem_cons_self _ _))]
    simp [dropCarriageReturns]
  | field :: g :: gs, h => by
    have ih := dropCarriageReturns_writeFields isSpace rest (g :: gs)
      (fun f hf => h f (List.mem_cons_of_mem _ hf))
    simp only [csv.writeFields, List.append_assoc, List.cons_append]
    rw [dropCarriageReturns_writeField isSpace field _ (h field (List.mem_cons_self _ _))]
    simp only [List.cons_append] at ih
    simp [dropCarriageReturns, ih]

theorem dropCarriageReturns_written (isSpace : Char → Bool) :
    ∀ records : List (List (List Char)), (∀ r ∈ records, ∀ f ∈ r, ¬ ['\r', '\n'] <:+: f) →
      dropCarriageReturns
          (records.map (fun r => csv.writeFields isSpace r ++ ['\n'])).flatten =
        (records.map (fun r => csv.writeFields isSpace r ++ ['\n'])).flatten
  | [], _ => rfl
  | r :: rs, h => by
    have ih := dropCarriageReturns_written isSpace rs
      (fun x hx => h x (List.mem_cons_of_mem _ hx))
    simp only [List.map_cons, List.flatten_cons, List.append_assoc, List.singleton_append]
    rw [dropCarriageReturns_writeFields isSpace _ r (h r (List.mem_cons_self _ _)), ih]

/-! ### Reading back with the reader of `encoding/csv` -/

theorem readSlice_append (rest : List Char) :
    ∀ a : List Char, '\n' ∉ a →
      csv.readSlice (a ++ rest) = (a ++ (csv.readSlice rest).1, (csv.readSlice rest).2)
  | [], _ => rfl
  | c :: cs, h => by
    have hc : c ≠ '\n' := fun e => h (by simp [e])
    have ih := readSlice_append rest cs (fun e => h (List.mem_cons_of_mem _ e))
    simp [csv.readSlice, hc, ih]

theorem readSlice_of_mem :
    ∀ X : List Char, '\n' ∈ X →
      ∃ a, '\n' ∉ a ∧ (csv.readSlice X).1 = a ++ ['\n'] ∧ X = a ++ '\n' :: (csv.readSlice X).2
  | [], h => by simp at h
  | c :: cs, h => by
    by_cases hc : c = '\n'
    · subst hc
      exact ⟨[], by simp, by simp [csv.readSlice], by simp [csv.readSlice]⟩
    · have hcs : '\n' ∈ cs := by
        rcases List.mem_cons.1 h with e | e
        · exact absurd e.symm hc
        · exact e
      obtain ⟨a, h1, h2, h3⟩ := readSlice_of_mem cs hcs
      refine ⟨c :: a, ?_, ?_, ?_⟩
      · simp [h1, Ne.symm hc]
      · simp [csv.readSlice, hc, h2]
      · simp only [csv.readSlice, hc, if_false, List.cons_append]
        rw [← h3]

theorem length_readSlice :
    ∀ X : List Char, (csv.readSlice X).1.length + (csv.readSlice X).2.length = X.length
  | [] => rfl
  | c :: cs => by
    have ih := length_readSlice cs
    by_cases hc : c = '\n'
    · simp [csv.readSlice, hc]; omega
    · simp [csv.readSlice, hc]; omega

theorem readSlice_ne_nil {X : List Char} (h : X ≠ []) : (csv.readSlice X).1 ≠ [] := by
  cases X with
  | nil => exact absurd rfl h
  | cons c cs =>
    by_cases hc : c = '\n' <;> simp [csv.readSlice, hc]

/-- On a text that holds a line feed and no carriage return directly before a line feed,
`readLine` returns the first line as it stands. -/
theorem readLine_of_mem {X : List Char} (hn : '\n' ∈ X) (hg : ¬ ['\r', '\n'] <:+: X) :
    csv.readLine X = ((csv.readSlice X).1, (csv.readSlice X).2, false) := by
  obtain ⟨a, h1, h2, h3⟩ := readSlice_of_mem X hn
  have ha : a.getLast? ≠ some '\r' := by
    intro e
    obtain ⟨b, rfl⟩ := List.getLast?_eq_some_iff.1 e
    apply hg
    rw [h3]
    exact ⟨b, (csv.readSlice X).2, by simp⟩
  unfold csv.readLine
  simp [h2, ha]

theorem readQuoted_cons (fuel : Nat) (c : Char) (line rest : List Char) (hc : c ≠ '"')
    (hl : line ≠ []) :
    csv.readQuoted fuel (c :: line) rest =
      (csv.readQuoted fuel line rest).map (fun r => (c :: r.1, r.2)) := by
  cases fuel with
  | zero => simp [csv.readQuoted]
  | succ n =>
    have hb : (c != '"') = true := by simp [hc]
    rw [csv.readQuoted, csv.readQuoted]
    simp only [List.dropWhile_cons, List.takeWhile_cons, hb, if_true]
    cases hd : line.dropWhile (fun c => c != '"') with
    | nil =>
      simp only [hl, ne_eq, not_false_eq_true, if_true, reduceCtorEq]
      cases csv.readQuoted n (csv.readLine rest).1 (csv.readLine rest).2.1 <;> simp
    | cons q after =>
      simp only
      split
      · cases csv.readQuoted n after.tail rest <;> simp
      · split
        · simp
        · split <;> simp

/-- The loop over a quoted field reads back what the writer wrote between the quotes. -/
theorem readQuoted_writeQuotedBody :
    ∀ (field tail : List Char) (fuel : Nat),
      (csv.writeQuotedBody field).length + 1 ≤ fuel →
      '\n' ∈ tail →
      ¬ ['\r', '\n'] <:+: (csv.writeQuotedBody field ++ '"' :: tail) →
      (∀ Y, tail = ',' :: Y →
        csv.readQuoted fuel (csv.readSlice (csv.writeQuotedBody field ++ '"' :: tail)).1
            (csv.readSlice (csv.writeQuotedBody field ++ '"' :: tail)).2 =
          some (field, true, (csv.readSlice Y).1, (csv.readSlice Y).2)) ∧
      (∀ Y, tail = '\n' :: Y →
        csv.readQuoted fuel (csv.readSlice (csv.writeQuotedBody field ++ '"' :: tail)).1
            (csv.readSlice (csv.writeQuotedBody field ++ '"' :: tail)).2 =
          some (field, false, ['\n'], Y))
  | [], tail, fuel + 1, _, _, _ => by
    constructor
    · intro Y hY
      subst hY
      simp [csv.writeQuotedBody, csv.readSlice, csv.readQuoted]
    · intro Y hY
      subst hY
      simp [csv.writeQuotedBody, csv.readSlice, csv.readQuoted, csv.lengthNL]
  | c :: cs, tail, fuel + 1, hf, hn, hg => by
    have hmem : '\n' ∈ csv.writeQuotedBody cs ++ '"' :: tail :=
      List.mem_append_right _ (List.mem_cons_of_mem _ hn)
    have hne : csv.writeQuotedBody cs ++ '"' :: tail ≠ [] := by simp
    by_cases hq : c = '"'
    · subst hq
      have hg2 : ¬ ['\r', '\n'] <:+: (csv.writeQuotedBody cs ++ '"' :: tail) := by
        intro e
        apply hg
        simp only [csv.writeQuotedBody, if_true, List.cons_append]
        exact List.infix_cons (List.infix_cons e)
      have ih := readQuoted_writeQuotedBody cs tail fuel
        (by simp only [csv.writeQuotedBody, if_true, List.length_cons] at hf; omega) hn hg2
      constructor
      · intro Y hY
        have := ih.1 Y hY
        simp only [csv.writeQuotedBody, if_true, List.cons_append, csv.readSlice,
          Char.reduceEq, if_false]
        rw [csv.readQuoted]
        simp [this]
      · intro Y hY
        have := ih.2 Y hY
        simp only [csv.writeQuotedBody, if_true, List.cons_append, csv.readSlice,
          Char.reduceEq, if_false]
        rw [csv.readQuoted]
        simp [this]
    · have hg2 : ¬ ['\r', '\n'] <:+: (csv.writeQuotedBody cs ++ '"' :: tail) := by
        intro e
        apply hg
        simp only [csv.writeQuotedBody, hq, if_false, List.cons_append]
        exact List.infix_cons e
      have hlen : (csv.writeQuotedBody (c :: cs)).length =
          (csv.writeQuotedBody cs).length + 1 := by
        simp [csv.writeQuotedBody, hq]
      by_cases hnl : c = '\n'
      · subst hnl
        have ih := readQuoted_writeQuotedBody cs tail fuel (by omega) hn hg2
        have hrl := readLine_of_mem hmem hg2
        constructor
        · intro Y hY
          have := ih.1 Y hY
          simp only [csv.writeQuotedBody, Char.reduceEq, if_false, List.cons_append,
            csv.readSlice, if_true]
          rw [csv.readQuoted]
          simp [hrl, this]
        · intro Y hY
          have := ih.2 Y hY
          simp only [csv.writeQuotedBody, Char.reduceEq, if_false, List.cons_append,
            csv.readSlice, if_true]
          rw [csv.readQuoted]
          simp [hrl, this]
      · have ih := readQuoted_writeQuotedBody cs tail (fuel + 1) (by omega) hn hg2
        have hl := readSlice_ne_nil hne
        constructor
        · intro Y hY
          have := ih.1 Y hY
          simp only [csv.writeQuotedBody, hq, if_false, List.cons_append, csv.readSlice, hnl]
          rw [readQuoted_cons _ _ _ _ hq hl, this]
          rfl
        · intro Y hY
          have := ih.2 Y hY
          simp only [csv.writeQuotedBody, hq, if_false, List.cons_append, csv.readSlice, hnl]
          rw [readQuoted_cons _ _ _ _ hq hl, this]
          rfl
  | _, _, 0, hf, _, _ => by simp at hf

theorem dropWhile_comma_append (rest : List Char) :
    ∀ a : List Char, (∀ c ∈ a, c ≠ ',') →
      (a ++ rest).dropWhile (fun c => c != ',') = rest.dropWhile (fun c => c != ',') ∧
      (a ++ rest).takeWhile (fun c => c != ',') = a ++ rest.takeWhile (fun c => c != ',')
  | [], _ => ⟨rfl, rfl⟩
  | c :: cs, h => by
    have hc : (c != ',') = true := by simp [h c (List.mem_cons_self _ _)]
    have ih := dropWhile_comma_append rest cs (fun d hd => h d (List.mem_cons_of_mem _ hd))
    simp [List.dropWhile_cons, List.takeWhile_cons, hc, ih.1, ih.2]

/-- The loop `parseField` reads back the fields of a record that the writer wrote. -/
theorem parseFields_writeFields (isSpace : Char → Bool) (Y : List Char) :
    ∀ (fields : List (List Char)) (fuel : Nat), fields ≠ [] → fields.length ≤ fuel →
      ¬ ['\r', '\n'] <:+: (csv.writeFields isSpace fields ++ '\n' :: Y) →
      csv.parseFields fuel (csv.readSlice (csv.writeFields isSpace fields ++ '\n' :: Y)).1
          (csv.readSlice (csv.writeFields isSpace fields ++ '\n' :: Y)).2 =
        some (fields, Y)
  | [], _, h, _, _ => absurd rfl h
  | [field], fuel + 1, _, _, hg => by
    simp only [csv.writeFields] at hg ⊢
    unfold csv.writeField at hg ⊢
    cases hn : csv.fieldNeedsQuotes isSpace field with
    | false =>
      have hf := fieldNeedsQuotes_false hn
      have h1 : '\n' ∉ field := fun e => (hf _ e).2.1 rfl
      have h2 : ∀ c ∈ field, c ≠ ',' := fun c hc => (hf c hc).1
      have h3 : '"' ∉ field := fun e => (hf _ e).2.2 rfl
      have h4 : (field ++ ['\n']).head? ≠ some '"' := by
        cases field with
        | nil => simp
        | cons a as =>
          simp only [List.cons_append, List.head?_cons, ne_eq, Option.some.injEq]
          exact (hf a (List.mem_cons_self _ _)).2.2
      simp only [Bool.not_false, if_true]
      rw [readSlice_append _ field h1]
      simp only [csv.readSlice, if_true]
      rw [csv.parseFields]
      simp only [h4, ne_eq, not_false_eq_true, if_true]
      rw [(dropWhile_comma_append ['\n'] field h2).1]
      simp [csv.lengthNL, h3]
    | true =>
      simp only [hn, Bool.not_true, Bool.false_eq_true, if_false, List.cons_append,
        List.append_assoc, List.singleton_append] at hg ⊢
      have hg2 : ¬ ['\r', '\n'] <:+: (csv.writeQuotedBody field ++ '"' :: '\n' :: Y) :=
        fun e => hg (List.infix_cons e)
      have hlen := length_readSlice (csv.writeQuotedBody field ++ '"' :: '\n' :: Y)
      have hq := (readQuoted_writeQuotedBody field ('\n' :: Y)
        ((csv.readSlice ('"' :: (csv.writeQuotedBody field ++ '"' :: '\n' :: Y))).1.length +
          (csv.readSlice ('"' :: (csv.writeQuotedBody field ++ '"' :: '\n' :: Y))).2.length + 1)
        (by
          simp only [csv.readSlice, Char.reduceEq, if_false, List.length_cons,
            List.length_append] at hlen ⊢
          omega)
        (List.mem_cons_self _ _) hg2).2 Y rfl
      rw [csv.parseFields]
      simp only [csv.readSlice, Char.reduceEq, if_false, List.head?_cons, ne_eq,
        not_true_eq_false, List.tail_cons, List.length_cons] at hq ⊢
      simp [hq]
  | field :: g :: gs, fuel + 1, _, hl, hg => by
    simp only [csv.writeFields, List.append_assoc, List.cons_append] at hg ⊢
    have hg3 : ¬ ['\r', '\n'] <:+: (csv.writeFields isSpace (g :: gs) ++ '\n' :: Y) := by
      intro e
      apply hg
      exact e.trans ((List.suffix_cons _ _).trans (List.suffix_append _ _)).isInfix
    have ih := parseFields_writeFields isSpace Y (g :: gs) fuel (by simp)
      (by simp only [List.length_cons] at hl ⊢; omega) hg3
    generalize hX : csv.writeFields isSpace (g :: gs) ++ '\n' :: Y = X at hg hg3 ih ⊢
    have hXn : '\n' ∈ X := by rw [← hX]; simp
    unfold csv.writeField at hg ⊢
    cases hn : csv.fieldNeedsQuotes isSpace field with
    | false =>
      have hf := fieldNeedsQuotes_false hn
      have h1 : '\n' ∉ field := fun e => (hf _ e).2.1 rfl
      have h2 : ∀ c ∈ field, c ≠ ',' := fun c hc => (hf c hc).1
      have h3 : '"' ∉ field := fun e => (hf _ e).2.2 rfl
      have h4 : (field ++ ',' :: (csv.readSlice X).1).head? ≠ some '"' := by
        cases field with
        | nil => simp
        | cons a as =>
          simp only [List.cons_append, List.head?_cons, ne_eq, Option.some.injEq]
          exact (hf a (List.mem_cons_self _ _)).2.2
      simp only [Bool.not_false, if_true]
      rw [readSlice_append _ field h1]
      simp only [csv.readSlice, Char.reduceEq, if_false]
      rw [csv.parseFields]
      simp only [h4, ne_eq, not_false_eq_true, if_true]
      rw [(dropWhile_comma_append _ field h2).1, (dropWhile_comma_append _ field h2).2]
      simp [h3, ih]
    | true =>
      simp only [hn, Bool.not_true, Bool.false_eq_true, if_false, List.cons_append,
        List.append_assoc, List.singleton_append] at hg ⊢
      have hg2 : ¬ ['\r', '\n'] <:+: (csv.writeQuotedBody field ++ '"' :: ',' :: X) :=
        fun e => hg (List.infix_cons e)
      have hlen := length_readSlice (csv.writeQuotedBody field ++ '"' :: ',' :: X)
      have hq := (readQuoted_writeQuotedBody field (',' :: X)
        ((csv.readSlice ('"' :: (csv.writeQuotedBody field ++ '"' :: ',' :: X))).1.length +
          (csv.readSlice ('"' :: (csv.writeQuotedBody field ++ '"' :: ',' :: X))).2.length + 1)
        (by
          simp only [csv.readSlice, Char.reduceEq, if_false, List.length_cons,
            List.length_append] at hlen ⊢
          omega)
        (List.mem_cons_of_mem _ hXn) hg2).1 X rfl
      rw [csv.parseFields]
      simp only [csv.readSlice, Char.reduceEq, if_false, List.head?_cons, ne_eq,
        not_true_eq_false, List.tail_cons, List.length_cons] at hq ⊢
      simp [hq, ih]
  | _ :: _, 0, _, hl, _ => by simp at hl

theorem head?_writeFields (isSpace : Char → Bool) (Y : List Char) (fields : List (List Char))
    (h : 2 ≤ fields.length) :
    (csv.writeFields isSpace fields ++ '\n' :: Y).head? ≠ some '\n' := by
  match fields, h with
  | field :: g :: gs, _ =>
    simp only [csv.writeFields, List.append_assoc, List.cons_append]
    unfold csv.writeField
    cases hn : csv.fieldNeedsQuotes isSpace field with
    | true => simp
    | false =>
      cases field with
      | nil => simp
      | cons a as =>
        simp only [Bool.not_false, if_true, List.cons_append, List.head?_cons, ne_eq,
          Option.some.injEq]
        exact (fieldNeedsQuotes_false hn a (List.mem_cons_self _ _)).2.1

theorem skipEmptyLines_of_mem {X : List Char} (fuel : Nat) (hn : '\n' ∈ X)
    (hg : ¬ ['\r', '\n'] <:+: X) (hh : X.head? ≠ some '\n') :
    csv.skipEmptyLines (fuel + 1) X = some ((csv.readSlice X).1, (csv.readSlice X).2) := by
  obtain ⟨a, _, h2, h3⟩ := readSlice_of_mem X hn
  have ha : a ≠ [] := by
    intro e
    apply hh
    rw [h3, e]
    rfl
  have hlen : (csv.readSlice X).1.length ≠ csv.lengthNL (csv.readSlice X).1 := by
    have : 0 < a.length := List.length_pos.2 ha
    rw [h2]
    simp only [csv.lengthNL, List.length_append, List.length_singleton]
    split <;> omega
  rw [csv.skipEmptyLines, readLine_of_mem hn hg]
  simp [hlen]

/-- A call of `readRecord` reads back a record of two or more fields that the writer wrote. -/
theorem readRecord_writeFields (isSpace : Char → Bool) (Y : List Char)
    (fields : List (List Char)) (k : Nat) (h2 : 2 ≤ fields.length)
    (hk : k = 0 ∨ k = fields.length)
    (hg : ¬ ['\r', '\n'] <:+: (csv.writeFields isSpace fields ++ '\n' :: Y)) :
    csv.readRecord k (csv.writeFields isSpace fields ++ '\n' :: Y) =
      .record fields fields.length Y := by
  have hne : fields ≠ [] := by
    intro e
    rw [e] at h2
    simp at h2
  have hn : '\n' ∈ csv.writeFields isSpace fields ++ '\n' :: Y := by simp
  have hlen := length_readSlice (csv.writeFields isSpace fields ++ '\n' :: Y)
  have hw := length_writeFields isSpace fields
  unfold csv.readRecord
  rw [skipEmptyLines_of_mem _ hn hg (head?_writeFields isSpace Y fields h2)]
  simp only
  rw [parseFields_writeFields isSpace Y fields _ hne
    (by simp only [List.length_append, List.length_cons] at hlen; omega) hg]
  simp only
  rcases hk with hk | hk
  · subst hk
    simp
  · subst hk
    have : fields.length > 0 := by omega
    simp [this]

theorem length_dropCarriageReturns :
    ∀ X : List Char, (dropCarriageReturns X).length ≤ X.length
  | [] => by simp [dropCarriageReturns]
  | c :: cs => by
    have ih := length_dropCarriageReturns cs
    rw [dropCarriageReturns]
    split
    · simp only [List.length_cons]; omega
    · simp only [List.length_cons]; omega

/-- A text that `dropCarriageReturns` leaves as it is holds no carriage return directly
before a line feed. -/
theorem not_infix_of_dropCarriageReturns :
    ∀ X : List Char, dropCarriageReturns X = X → ¬ ['\r', '\n'] <:+: X
  | [], _ => by
    intro e
    have := List.eq_nil_of_infix_nil e
    simp at this
  | c :: cs, h => by
    rw [dropCarriageReturns] at h
    split at h
    · have := length_dropCarriageReturns cs
      rw [h] at this
      simp at this
    · rename_i hc
      have hcs : dropCarriageReturns cs = cs := by
        simpa using h
      have ih := not_infix_of_dropCarriageReturns cs hcs
      intro e
      rcases List.infix_cons_iff.1 e with e | e
      · apply hc
        obtain ⟨t, ht⟩ := e
        simp only [List.cons_append, List.nil_append, List.cons.injEq] at ht
        obtain ⟨rfl, ht⟩ := ht
        rw [← ht]
        simp
      · exact ih e

/-- The loop of `ReadAll` reads back the records that the writer wrote, when they have the
same number of fields, two or more, and no field holds a carriage return directly before a
line feed. -/
theorem readAllLoop_written (isSpace : Char → Bool) (n : Nat) (hn : 2 ≤ n) :
    ∀ (records : List (List (List Char))) (fuel k : Nat),
      (∀ r ∈ records, r.length = n) → (k = 0 ∨ k = n) → records.length + 1 ≤ fuel →
      ¬ ['\r', '\n'] <:+:
        (records.map (fun r => csv.writeFields isSpace r ++ ['\n'])).flatten →
      csv.readAllLoop fuel k
          (records.map (fun r => csv.writeFields isSpace r ++ ['\n'])).flatten =
        some records
  | [], fuel + 1, k, _, _, _, _ => by
    simp [csv.readAllLoop, csv.readRecord, csv.skipEmptyLines, csv.readLine, csv.readSlice]
  | r :: rs, fuel + 1, k, hl, hk, hf, hg => by
    have hr : r.length = n := hl r (List.mem_cons_self _ _)
    simp only [List.map_cons, List.flatten_cons, List.append_assoc, List.singleton_append]
      at hg ⊢
    have hg2 : ¬ ['\r', '\n'] <:+:
        (rs.map (fun r => csv.writeFields isSpace r ++ ['\n'])).flatten := by
      intro e
      apply hg
      exact e.trans ((List.suffix_cons _ _).trans (List.suffix_append _ _)).isInfix
    have ih := readAllLoop_written isSpace n hn rs fuel r.length
      (fun x hx => hl x (List.mem_cons_of_mem _ hx)) (Or.inr hr)
      (by simp only [List.length_cons] at hf; omega) hg2
    rw [csv.readAllLoop, readRecord_writeFields isSpace _ r k (by omega)
      (by rcases hk with e | e <;> simp [e, hr]) hg]
    simp [ih]
  | _, 0, _, _, _, hf, _ => by simp at hf

/-- Go's `csv.Reader` reads back from the text of `formatCSV` the header and one record for
each finding, when no field of a finding holds a carriage return directly before a line
feed. -/
theorem readAll_formatCSV (isSpace : Char → Bool) (result : AuditResult)
    (h : ∀ p ∈ result.Plugins, ∀ f ∈ csvRecord p, ¬ ['\r', '\n'] <:+: f.data) :
    csv.ReadAll (formatCSV isSpace result).1 =
      some (csvHeader :: result.Plugins.map csvRecord) := by
  have hfields : ∀ r ∈ (csvHeader :: result.Plugins.map csvRecord).map
      (fun r => r.map String.data), ∀ f ∈ r, ¬ ['\r', '\n'] <:+: f := by
    intro r hr f hf
    simp only [List.map_cons, List.map_map, List.mem_cons, List.mem_map,
      Function.comp_apply] at hr
    rcases hr with rfl | ⟨p, hp, rfl⟩
    · revert f
      decide
    · obtain ⟨s, hs, rfl⟩ := List.mem_map.1 hf
      exact h p hp s hs
  have hg := not_infix_of_dropCarriageReturns _
    (dropCarriageReturns_written isSpace _ hfields)
  unfold csv.ReadAll
  rw [formatCSV_text]
  rw [readAllLoop_written isSpace 9 (by decide) _ _ 0 _ (Or.inl rfl) _ hg]
  · simp only [Option.map_some', List.map_map, Option.some.injEq]
    have : ((fun r : List (List Char) => r.map String.mk) ∘
        fun r : List String => r.map String.data) = id := by
      funext r
      simp [List.map_map, Function.comp_def]
    rw [this, List.map_id]
  · intro r hr
    simp only [List.map_cons, List.map_map, List.mem_cons, List.mem_map,
      Function.comp_apply] at hr
    rcases hr with rfl | ⟨p, _, rfl⟩
    · simp [csvHeader]
    · simp [csvRecord]
  · have := length_flatten_written isSpace
      ((csvHeader :: result.Plugins.map csvRecord).map (fun r => r.map String.data))
    omega

/-! ### Normalising twice -/

theorem normalizeVersion_of_v {v : String} (h : v.data.head? = some 'v') :
    NormalizeVersion v = v := by
  have hne : v ≠ "" := by
    intro he
    rw [he] at h
    exact absurd h (by decide)
  simp [NormalizeVersion, hne, (stringsHasPrefix_v v).2 h]

theorem normalizeVersion_idem (v : String) :
    NormalizeVersion (NormalizeVersion v) = NormalizeVersion v := by
  by_cases he : v = ""
  · subst he
    rfl
  · by_cases hp : v.data.head? = some 'v'
    · rw [normalizeVersion_of_v hp, normalizeVersion_of_v hp]
    · have hf : stringsHasPrefix v "v" = false := by
        cases hh : stringsHasPrefix v "v" with
        | false => rfl
        | true => exact absurd ((stringsHasPrefix_v v).1 hh) hp
      have hn : NormalizeVersion v = "v" ++ v := by simp [NormalizeVersion, he, hf]
      rw [hn]
      exact normalizeVersion_of_v rfl

/-- On two strings with valid normal forms `CompareVersions` is `semver.Compare` of the
normal forms. -/
theorem compareVersions_of_valid {a b : String}
    (ha : IsValid (NormalizeVersion a) = true) (hb : IsValid (NormalizeVersion b) = true) :
    CompareVersions a b = Compare (NormalizeVersion a) (NormalizeVersion b) := by
  simp [CompareVersions, ha, hb]

/-- A string that is valid after "v" is put in front is not empty and does not begin with
'v'. -/
theorem normalizeVersion_of_valid_v {s : String} (h : IsValid ("v" ++ s) = true) :
    NormalizeVersion s = "v" ++ s := by
  obtain ⟨p, hp⟩ := isValid_iff_parse.1 h
  have hd : ("v" ++ s).data = 'v' :: s.data := rfl
  rw [hd] at hp
  cases hs : s.data with
  | nil =>
    rw [hs] at hp
    simp [parse, parseInt] at hp
  | cons c cs =>
    rw [hs] at hp
    have hc : c ≠ 'v' := by
      intro e
      subst e
      simp [parse, parseInt] at hp
    have hne : s ≠ "" := by
      intro e
      rw [e] at hs
      exact absurd hs (by simp)
    have hf : stringsHasPrefix s "v" = false := by
      cases hh : stringsHasPrefix s "v" with
      | false => rfl
      | true =>
        have := (stringsHasPrefix_v s).1 hh
        rw [hs] at this
        simp only [List.head?_cons, Option.some.injEq] at this
        exact absurd this hc
    simp [NormalizeVersion, hne, hf]

/-! ### The response of the server -/

/-- A response whose status is none of 401, 403 and 404 and is below 500 is classified as no
response is. -/
theorem classifyAPIError_other (serverURL : String) (resp : Response) (err : Option GoError)
    (h1 : resp.StatusCode ≠ 401) (h2 : resp.StatusCode ≠ 403) (h3 : resp.StatusCode ≠ 404)
    (h4 : resp.StatusCode < 500) :
    classifyAPIError serverURL (some resp) err = classifyAPIError serverURL none err := by
  have h5 : ¬ resp.StatusCode ≥ 500 := by omega
  simp [classifyAPIError, h1, h2, h3, h5]

/-- The error of `classifyAPIError` is a `*CLIError` that wraps `err`, with code 1 or 2. -/
theorem classifyAPIError_wraps (serverURL : String) (resp : Option Response)
    (err : Option GoError) :
    ∃ code msg, classifyAPIError serverURL resp err = .cliError code msg err ∧
      (code = ExitConfigError ∨ code = ExitAPIError) := by
  unfold classifyAPIError
  cases resp with
  | none =>
    by_cases hu : serverURL = ""
    · exact ⟨_, _, by simp only [hu, ne_eq, not_true_eq_false, if_false]; rfl, Or.inr rfl⟩
    · exact ⟨_, _, by simp only [ne_eq, hu, not_false_eq_true, if_true]; rfl, Or.inr rfl⟩
  | some r =>
    by_cases h1 : r.StatusCode = 401
    · exact ⟨_, _, by simp only [h1, if_true]; rfl, Or.inl rfl⟩
    · by_cases h2 : r.StatusCode = 403
      · exact ⟨_, _, by simp only [h1, h2, if_true, if_false]; rfl, Or.inl rfl⟩
      · by_cases h3 : r.StatusCode = 404
        · exact ⟨_, _, by simp only [h1, h2, h3, if_true, if_false]; rfl, Or.inr rfl⟩
        · by_cases h4 : r.StatusCode ≥ 500
          · exact ⟨_, _, by simp only [h1, h2, h3, h4, if_true, if_false]; rfl, Or.inr rfl⟩
          · by_cases hu : serverURL = ""
            · exact ⟨_, _, by
                simp only [h1, h2, h3, h4, hu, if_false, ne_eq, not_true_eq_false]; rfl,
                Or.inr rfl⟩
            · exact ⟨_, _, by
                simp only [h1, h2, h3, h4, hu, if_false, ne_eq, not_false_eq_true, if_true]
                rfl, Or.inr rfl⟩

/-! ### The loop over the installed plugins, plugin by plugin -/

theorem buildReports_reportOf {mpCatalogue : Catalogue} {installed : List InstalledPlugin}
    {reports : List PluginReport} (h : buildReports mpCatalogue installed = some reports) :
    List.Forall₂ (ReportOf mpCatalogue) installed reports :=
  (buildReports_forall2 h).imp (fun _ _ hr => buildReport_spec hr)

/-- The loop dereferences a nil pointer exactly at a plugin that is not bundled and under
whose ID the catalogue stores nil. -/
theorem buildReport_eq_none_iff (mpCatalogue : Catalogue) (p : InstalledPlugin) :
    buildReport mpCatalogue p = none ↔
      mpCatalogue.lookup p.ID = some none ∧ p.ID ∉ bundledPluginKeys := by
  unfold buildReport
  cases hl : mpCatalogue.lookup p.ID with
  | none =>
    have := classify_not_marketplace p.ID p.HomepageURL
    simp [this]
  | some v =>
    cases v with
    | none =>
      simp only [true_and, Option.some.injEq]
      by_cases hm : ClassifyPluginSource p.ID true p.HomepageURL = SourceMarketplace
      · simp only [hm, if_true, true_iff]
        exact ((classify_eq_marketplace_iff _ _ _).1 hm).1
      · simp only [hm, if_false]
        constructor
        · intro e; exact absurd e (by simp)
        · intro hb
          exact absurd ((classify_eq_marketplace_iff _ _ _).2 ⟨hb, rfl⟩) hm
    | some mp =>
      simp only [Option.some.injEq]
      constructor
      · intro e
        split at e
        · split at e <;> simp at e
        · simp at e
      · intro e
        exact absurd e.1 (by simp)

theorem exampleCatalogue_noNil : NoNilEntry exampleCatalogue := by
  intro k
  simp only [exampleCatalogue, List.lookup]
  split
  · simp
  · split
    · simp
    · simp

/-! ### The summary of the filtered findings -/

theorem countP_keepOutdated (l : List PluginReport) (q : PluginReport → Bool)
    (hq : ∀ r, q r = true → r.Source ≠ SourceMarketplace) :
    (l.filter keepOutdated).countP q = l.countP q := by
  rw [List.countP_filter]
  apply List.countP_congr
  intro r _
  cases hr : q r with
  | false => simp [hr]
  | true =>
    have := hq r hr
    simp [hr, keepOutdated, this]

/-! ### The claims -/

/-- C1: a plugin ID that is a key of `bundledPlugins` is classified "bundled", whatever the
marketplace flag and the homepage URL are. -/
theorem classify_bundled_wins (pluginID : String) (inMarketplace : Bool) (homepageURL : String)
    (hkey : pluginID ∈ bundledPluginKeys) :
    ClassifyPluginSource pluginID inMarketplace homepageURL = "bundled" := by
  have hb : bundledPlugins pluginID = true := by
    simpa [bundledPlugins] using hkey
  simp [ClassifyPluginSource, hb, SourceBundled]

/-- C1 at the tested input: "github", listed in the marketplace, with a vendor homepage. -/
theorem classify_bundled_wins_witness :
    "github" ∈ bundledPluginKeys ∧
      ClassifyPluginSource "github" true "https://github.com/mattermost/mattermost-plugin-github"
        = "bundled" :=
  ⟨by decide, classify_bundled_wins "github" true _ (by decide)⟩

/-- C2: in the result of `RunAudit`, a finding has `UpdateAvailable` "unknown" exactly when its
`Source` is not "marketplace", and a "marketplace" finding has "true" or "false". -/
theorem runAudit_updateAvailable_tristate (lib : GoLibrary)
    (hS : SortSliceContract lib.sortSlice) (mmClient : MattermostClient) (opts : AuditOptions)
    (res : AuditResult) (h : RunAudit lib mmClient opts = .ok res)
    (f : PluginReport) (hf : f ∈ res.Plugins) :
    (f.UpdateAvailable = "unknown" ↔ f.Source ≠ "marketplace") ∧
    (f.Source = "marketplace" → f.UpdateAvailable = "true" ∨ f.UpdateAvailable = "false") := by
  obtain ⟨_, cat, _, _, p, _, hr⟩ := RunAudit_finding hS h hf
  have hm := hr.marketplace
  have ho := hr.other
  change (_ ↔ f.Source ≠ SourceMarketplace) ∧ (f.Source = SourceMarketplace → _)
  by_cases hs : f.Source = SourceMarketplace
  · obtain ⟨mp, _, _, _, hcase⟩ := hm hs
    rcases hcase with ⟨_, hu, _⟩ | ⟨_, hu, _⟩
    · simp [hs, hu]
    · simp [hs, hu]
  · obtain ⟨_, _, hu, _⟩ := ho hs
    simp [hs, hu]

/-- C2 on the sample run: the outdated marketplace finding and the bundled one. -/
theorem runAudit_updateAvailable_tristate_witness :
    ((findingConfluence.UpdateAvailable = "unknown" ↔ findingConfluence.Source ≠ "marketplace") ∧
      (findingConfluence.Source = "marketplace" →
        findingConfluence.UpdateAvailable = "true" ∨
        findingConfluence.UpdateAvailable = "false")) ∧
    findingConfluence.Source = "marketplace" ∧ findingConfluence.UpdateAvailable = "true" ∧
    ((findingCalls.UpdateAvailable = "unknown" ↔ findingCalls.Source ≠ "marketplace") ∧
      (findingCalls.Source = "marketplace" →
        findingCalls.UpdateAvailable = "true" ∨ findingCalls.UpdateAvailable = "false")) ∧
    findingCalls.Source = "bundled" ∧ findingCalls.UpdateAvailable = "unknown" :=
  ⟨runAudit_updateAvailable_tristate refLibrary refLibrary_contract exampleClient {}
      exampleResult exampleClient_run findingConfluence (by decide), rfl, rfl,
    runAudit_updateAvailable_tristate refLibrary refLibrary_contract exampleClient {}
      exampleResult exampleClient_run findingCalls (by decide), rfl, rfl⟩

/-- C3: when the normalized forms of both strings are valid semantic versions,
`CompareVersions installed latest` is the semantic-version precedence of the two versions:
-1, 0 or 1 as `installed` precedes, equals or follows `latest`, with major, minor and patch
compared as numbers and a pre-release below its release. -/
theorem compareVersions_is_precedence (installed latest : String)
    (hi : semver.IsValid (NormalizeVersion installed) = true)
    (hl : semver.IsValid (NormalizeVersion latest) = true) :
    ∃ a b, versionOf (NormalizeVersion installed) = some a ∧
      versionOf (NormalizeVersion latest) = some b ∧
      CompareVersions installed latest = a.precedence b := by
  obtain ⟨pi, hpi⟩ := isValid_iff_parse.1 hi
  obtain ⟨pl, hpl⟩ := isValid_iff_parse.1 hl
  exact ⟨SemVer.ofParsed pi, SemVer.ofParsed pl, by simp [versionOf, hpi],
    by simp [versionOf, hpl], compareVersions_valid hpi hpl⟩

/-- C3 at the tested inputs: 1.9.0 against 1.10.0, 1.0.0-rc1 against 1.0.0, and two
pre-releases that differ in a numeric identifier. -/
theorem compareVersions_is_precedence_witness :
    (∃ a b, versionOf (NormalizeVersion "1.9.0") = some a ∧
      versionOf (NormalizeVersion "1.10.0") = some b ∧
      CompareVersions "1.9.0" "1.10.0" = a.precedence b) ∧
    versionOf (NormalizeVersion "1.9.0") = some ⟨1, 9, 0, []⟩ ∧
    versionOf (NormalizeVersion "1.10.0") = some ⟨1, 10, 0, []⟩ ∧
    CompareVersions "1.9.0" "1.10.0" = -1 ∧
    versionOf (NormalizeVersion "1.0.0-rc1") =
      some ⟨1, 0, 0, [.alphanumeric ['r', 'c', '1']]⟩ ∧
    CompareVersions "1.0.0-rc1" "1.0.0" = -1 ∧
    CompareVersions "1.0.0-beta.2" "1.0.0-beta.11" = -1 := by
  refine ⟨compareVersions_is_precedence "1.9.0" "1.10.0" (by decide) (by decide),
    by decide, by decide, by decide, by decide, by decide, ?_⟩
  obtain ⟨a, b, ha, hb, hc⟩ :=
    compareVersions_is_precedence "1.0.0-beta.2" "1.0.0-beta.11" (by decide) (by decide)
  have ha' : versionOf (NormalizeVersion "1.0.0-beta.2") =
      some ⟨1, 0, 0, [.alphanumeric ['b', 'e', 't', 'a'], .numeric 2]⟩ := by decide
  have hb' : versionOf (NormalizeVersion "1.0.0-beta.11") =
      some ⟨1, 0, 0, [.alphanumeric ['b', 'e', 't', 'a'], .numeric 11]⟩ := by decide
  rw [ha'] at ha
  rw [hb'] at hb
  injection ha with ha
  injection hb with hb
  rw [hc, ← ha, ← hb]
  decide

/-- C4: when the normalized form of at least one of the two strings is not a valid semantic
version, `CompareVersions` returns 0 if the strings are equal and -1 otherwise; it never
returns 1 there. -/
theorem compareVersions_fallback (installed latest : String)
    (h : semver.IsValid (NormalizeVersion installed) = false ∨
      semver.IsValid (NormalizeVersion latest) = false) :
    CompareVersions installed latest = (if installed = latest then 0 else -1) ∧
    CompareVersions installed latest ≠ 1 := by
  have hc : CompareVersions installed latest = (if installed = latest then 0 else -1) := by
    unfold CompareVersions
    rcases h with h | h <;> simp [h]
  refine ⟨hc, ?_⟩
  rw [hc]
  split <;> decide

/-- C4 at the tested inputs: a malformed installed version against a valid catalogue version,
and the reverse. -/
theorem compareVersions_fallback_witness :
    (CompareVersions "abc" "1.0.0" = (if "abc" = "1.0.0" then 0 else -1) ∧
      CompareVersions "abc" "1.0.0" ≠ 1) ∧
    CompareVersions "abc" "1.0.0" = -1 ∧ CompareVersions "1.0.0" "abc" = -1 ∧
    CompareVersions "abc" "abc" = 0 :=
  ⟨compareVersions_fallback "abc" "1.0.0" (Or.inl (by decide)), by decide, by decide,
    by decide⟩

/-- C5: for strings whose normalized forms are valid semantic versions,
`CompareVersions a b = -CompareVersions b a`, and `CompareVersions a a = 0`. -/
theorem compareVersions_antisymm (a b : String)
    (ha : semver.IsValid (NormalizeVersion a) = true)
    (hb : semver.IsValid (NormalizeVersion b) = true) :
    CompareVersions a b = -CompareVersions b a ∧ CompareVersions a a = 0 := by
  obtain ⟨pa, hpa⟩ := isValid_iff_parse.1 ha
  obtain ⟨pb, hpb⟩ := isValid_iff_parse.1 hb
  refine ⟨?_, compareVersions_self a⟩
  rw [compareVersions_valid hpa hpb, compareVersions_valid hpb hpa]
  exact precedence_antisymm _ _

/-- C5 at the tested inputs 1.9.0 and 1.10.0. -/
theorem compareVersions_antisymm_witness :
    (CompareVersions "1.10.0" "1.9.0" = -CompareVersions "1.9.0" "1.10.0" ∧
      CompareVersions "1.10.0" "1.10.0" = 0) ∧
    CompareVersions "1.10.0" "1.9.0" = 1 ∧ CompareVersions "1.9.0" "1.10.0" = -1 :=
  ⟨compareVersions_antisymm "1.10.0" "1.9.0" (by decide) (by decide), by decide, by decide⟩

/-- C6: in the result of a successful run, `Summary.Total` is the number of findings and
`Summary.Outdated + Summary.UpToDate` is `Summary.Marketplace`. -/
theorem runAudit_summary_total_and_freshness (lib : GoLibrary) (mmClient : MattermostClient)
    (opts : AuditOptions) (res : AuditResult) (h : RunAudit lib mmClient opts = .ok res) :
    res.Summary.Total = res.Plugins.length ∧
    res.Summary.Outdated + res.Summary.UpToDate = res.Summary.Marketplace := by
  obtain ⟨_, _, _, _, _, _, _, h5⟩ := RunAudit_ok_inv' h
  rw [h5, computeSummary, foldl_summaryStep]
  refine ⟨by simp, ?_⟩
  have := countP_and_split res.Plugins (fun r => r.Source = SourceMarketplace)
    (fun r => r.UpdateAvailable = "true")
  simpa using this

/-- C6 on the sample run: 5 findings, 1 outdated and 1 up to date of 2 marketplace findings. -/
theorem runAudit_summary_total_and_freshness_witness :
    (exampleResult.Summary.Total = exampleResult.Plugins.length ∧
      exampleResult.Summary.Outdated + exampleResult.Summary.UpToDate =
        exampleResult.Summary.Marketplace) ∧
    exampleResult.Summary.Total = 5 ∧ exampleResult.Summary.Marketplace = 2 :=
  ⟨runAudit_summary_total_and_freshness refLibrary exampleClient {} exampleResult
      exampleClient_run, rfl, rfl⟩

/-- C7: in the result of a successful run, `Summary.Total` is the sum of the four source
counters, and `Summary.Enabled + Summary.Disabled` is `Summary.Total`, whatever the status
strings are. -/
theorem runAudit_summary_partition (lib : GoLibrary) (hS : SortSliceContract lib.sortSlice)
    (mmClient : MattermostClient) (opts : AuditOptions) (res : AuditResult)
    (h : RunAudit lib mmClient opts = .ok res) :
    res.Summary.Total = res.Summary.Marketplace + res.Summary.Bundled +
      res.Summary.MattermostPlugin + res.Summary.ThirdParty ∧
    res.Summary.Enabled + res.Summary.Disabled = res.Summary.Total := by
  have hsrc : ∀ r ∈ res.Plugins, r.Source = SourceBundled ∨ r.Source = SourceMarketplace ∨
      r.Source = SourceMattermost ∨ r.Source = SourceThirdParty := by
    intro r hr
    obtain ⟨_, _, _, _, _, _, hrep⟩ := RunAudit_finding hS h hr
    exact reportOf_source_range hrep
  obtain ⟨_, _, _, _, _, _, _, h5⟩ := RunAudit_ok_inv' h
  rw [h5, computeSummary, foldl_summaryStep]
  constructor
  · simpa using length_eq_source_counts res.Plugins hsrc
  · simpa using countP_not_split res.Plugins (fun r => r.Status = "enabled")

/-- C7 on the sample run, where one plugin is disabled. -/
theorem runAudit_summary_partition_witness :
    (exampleResult.Summary.Total = exampleResult.Summary.Marketplace +
        exampleResult.Summary.Bundled + exampleResult.Summary.MattermostPlugin +
        exampleResult.Summary.ThirdParty ∧
      exampleResult.Summary.Enabled + exampleResult.Summary.Disabled =
        exampleResult.Summary.Total) ∧
    exampleResult.Summary.Enabled = 4 ∧ exampleResult.Summary.Disabled = 1 :=
  ⟨runAudit_summary_partition refLibrary refLibrary_contract exampleClient {} exampleResult
      exampleClient_run, rfl, rfl⟩

/-- C8: the findings returned with `OutdatedOnly = true` are, as a multiset, those returned
with `OutdatedOnly = false` that satisfy `UpdateAvailable == "true" || Source != "marketplace"`;
the filtered run returns whenever the unfiltered one does. -/
theorem runAudit_outdatedOnly_filter (lib : GoLibrary) (hS : SortSliceContract lib.sortSlice)
    (mmClient : MattermostClient) (verbose verbose' : Bool) (all : AuditResult)
    (h : RunAudit lib mmClient { OutdatedOnly := false, Verbose := verbose } = .ok all) :
    ∃ kept, RunAudit lib mmClient { OutdatedOnly := true, Verbose := verbose' } = .ok kept ∧
      kept.Plugins.Perm
        (all.Plugins.filter
          (fun f => decide (f.UpdateAvailable = "true" ∨ f.Source ≠ "marketplace"))) := by
  obtain ⟨installed, mpCatalogue, reports, h1, h2, h3, h4, _⟩ := RunAudit_ok_inv' h
  refine ⟨_, RunAudit_eq h1 h2 h3, ?_⟩
  have hk : (fun f : PluginReport =>
      decide (f.UpdateAvailable = "true" ∨ f.Source ≠ "marketplace")) = keepOutdated := by
    funext f
    by_cases hu : f.UpdateAvailable = "true" <;> by_cases hm : f.Source = "marketplace" <;>
      simp [keepOutdated, SourceMarketplace, hu, hm]
  rw [hk, h4]
  simp only [selected, if_true, Bool.false_eq_true, if_false]
  exact (hS.perm _ _).trans ((hS.perm _ _).filter _).symm

/-- C8 on the sample run: the up-to-date marketplace finding is the one dropped. -/
theorem runAudit_outdatedOnly_filter_witness :
    (∃ kept, RunAudit refLibrary exampleClient { OutdatedOnly := true, Verbose := false }
        = .ok kept ∧
      kept.Plugins.Perm
        (exampleResult.Plugins.filter
          (fun f => decide (f.UpdateAvailable = "true" ∨ f.Source ≠ "marketplace")))) ∧
    exampleResult.Plugins.filter
        (fun f => decide (f.UpdateAvailable = "true" ∨ f.Source ≠ "marketplace"))
      = [findingConfluence, findingGcal, findingCalls, findingZebra] :=
  ⟨runAudit_outdatedOnly_filter refLibrary refLibrary_contract exampleClient false false
      exampleResult exampleClient_run, by decide⟩

/-- C9: the findings of a successful run are sorted: for every adjacent pair `(p, q)` the rank
of `p.Source` is at most that of `q.Source` (marketplace 0, mattermost-plugin 1, bundled 2,
third-party 3, every finding having one of these sources), and at equal rank the lower-cased
name of `q` is not below that of `p`. -/
theorem runAudit_sorted (lib : GoLibrary) (hS : SortSliceContract lib.sortSlice)
    (mmClient : MattermostClient) (opts : AuditOptions) (res : AuditResult)
    (h : RunAudit lib mmClient opts = .ok res) :
    List.Chain' (fun p q =>
        sourceOrder p.Source ≤ sourceOrder q.Source ∧
        (sourceOrder p.Source = sourceOrder q.Source →
          strLess (lib.ToLower q.Name).data (lib.ToLower p.Name).data = false))
      res.Plugins ∧
    (∀ f ∈ res.Plugins,
      (f.Source = "marketplace" ∧ sourceOrder f.Source = 0) ∨
      (f.Source = "mattermost-plugin" ∧ sourceOrder f.Source = 1) ∨
      (f.Source = "bundled" ∧ sourceOrder f.Source = 2) ∨
      (f.Source = "third-party" ∧ sourceOrder f.Source = 3)) := by
  constructor
  · obtain ⟨_, _, _, _, _, _, h4, _⟩ := RunAudit_ok_inv' h
    rw [h4]
    have hp := hS.sorted (reportLess lib.ToLower) (selected opts ‹_›)
      (reportLess_strictWeakOrder lib.ToLower)
    refine List.Pairwise.chain' (hp.imp ?_)
    intro p q hqp
    rw [reportLess_false_iff] at hqp
    rcases hqp with hlt | ⟨heq, hs⟩
    · exact ⟨Nat.le_of_lt hlt, fun he => absurd he (Nat.ne_of_lt hlt)⟩
    · exact ⟨Nat.le_of_eq heq.symm, fun _ => hs⟩
  · intro f hf
    obtain ⟨_, _, _, _, _, _, hrep⟩ := RunAudit_finding hS h hf
    rcases reportOf_source_range hrep with hs | hs | hs | hs
    · exact Or.inr (Or.inr (Or.inl ⟨hs, by rw [hs]; rfl⟩))
    · exact Or.inl ⟨hs, by rw [hs]; rfl⟩
    · exact Or.inr (Or.inl ⟨hs, by rw [hs]; rfl⟩)
    · exact Or.inr (Or.inr (Or.inr ⟨hs, by rw [hs]; rfl⟩))

/-- C9 on the sample run: Confluence, WelcomeBot, Google Calendar, Calls, Zebra Plugin. -/
theorem runAudit_sorted_witness :
    (List.Chain' (fun p q =>
        sourceOrder p.Source ≤ sourceOrder q.Source ∧
        (sourceOrder p.Source = sourceOrder q.Source →
          strLess (refLibrary.ToLower q.Name).data (refLibrary.ToLower p.Name).data = false))
      exampleResult.Plugins ∧
    (∀ f ∈ exampleResult.Plugins,
      (f.Source = "marketplace" ∧ sourceOrder f.Source = 0) ∨
      (f.Source = "mattermost-plugin" ∧ sourceOrder f.Source = 1) ∨
      (f.Source = "bundled" ∧ sourceOrder f.Source = 2) ∨
      (f.Source = "third-party" ∧ sourceOrder f.Source = 3))) ∧
    exampleResult.Plugins.map (fun f => f.Name) =
      ["Confluence", "WelcomeBot", "Google Calendar", "Calls", "Zebra Plugin"] :=
  ⟨runAudit_sorted refLibrary refLibrary_contract exampleClient {} exampleResult
      exampleClient_run, rfl⟩

/-- C10, as stated, fails: with Go's `sort.Slice` the thirteen custom plugins, of which the
last twelve have the same rank and name, come out with "custom.06" ahead of "custom.01" to
"custom.05", which precede it in the installed list. -/
theorem runAudit_sort_not_stable :
    buildReports [] thirteenInstalled = some thirteenReports ∧
    RunAudit goLibrary thirteenClient {} =
      .ok { Plugins := thirteenFindings,
            Summary := { Total := 13, ThirdParty := 13, Unknown := 13, Enabled := 13 } } ∧
    thirteenReports.map (fun f => f.PluginID) =
      ["custom.00", "custom.01", "custom.02", "custom.03", "custom.04", "custom.05",
       "custom.06", "custom.07", "custom.08", "custom.09", "custom.10", "custom.11",
       "custom.12"] ∧
    thirteenFindings.map (fun f => f.PluginID) =
      ["custom.06", "custom.01", "custom.02", "custom.03", "custom.04", "custom.05",
       "custom.07", "custom.08", "custom.09", "custom.10", "custom.11", "custom.12",
       "custom.00"] ∧
    ¬ KeepsTiedOrder goLibrary.ToLower thirteenReports thirteenFindings := by
  refine ⟨thirteen_reports, thirteen_run, by decide, by decide, ?_⟩
  intro h
  have h1 := h (customFinding "custom.01" "Bridge")
  revert h1
  decide

/-- C10, amended: the sort keeps every group of tied findings (same provenance rank,
case-insensitively equal names) complete, as a multiset, and puts no finding after one that
the comparison places strictly after it, so that a group is contiguous in the result; the
order inside a group is left to `sort.Slice`. -/
theorem runAudit_sort_keeps_tied_groups (lib : GoLibrary) (hS : SortSliceContract lib.sortSlice)
    (mmClient : MattermostClient) (opts : AuditOptions) (installed : List InstalledPlugin)
    (mpCatalogue : Catalogue) (reports : List PluginReport)
    (h1 : mmClient.GetPlugins = .ok installed)
    (h2 : mmClient.GetMarketplacePlugins = .ok mpCatalogue)
    (h3 : buildReports mpCatalogue installed = some reports) :
    ∃ res, RunAudit lib mmClient opts = .ok res ∧
      (∀ f, (res.Plugins.filter (sameKey lib.ToLower f)).Perm
        ((if opts.OutdatedOnly then reports.filter keepOutdated else reports).filter
          (sameKey lib.ToLower f))) ∧
      res.Plugins.Pairwise (fun f g => reportLess lib.ToLower g f = false) := by
  refine ⟨_, RunAudit_eq h1 h2 h3, ?_, ?_⟩
  · intro f
    exact (hS.perm _ _).filter _
  · exact hS.sorted _ _ (reportLess_strictWeakOrder lib.ToLower)

/-- The amended C10 on the sample run. -/
theorem runAudit_sort_keeps_tied_groups_witness :
    ∃ res, RunAudit refLibrary exampleClient {} = .ok res ∧
      (∀ f, (res.Plugins.filter (sameKey refLibrary.ToLower f)).Perm
        ((if ({} : AuditOptions).OutdatedOnly then
            [findingZebra, findingConfluence, findingCalls, findingGcal,
              findingWelcomeBot].filter keepOutdated
          else [findingZebra, findingConfluence, findingCalls, findingGcal,
              findingWelcomeBot]).filter (sameKey refLibrary.ToLower f))) ∧
      res.Plugins.Pairwise (fun f g => reportLess refLibrary.ToLower g f = false) :=
  runAudit_sort_keeps_tied_groups refLibrary refLibrary_contract exampleClient {}
    exampleInstalled exampleCatalogue _ rfl rfl example_reports

/-- C11, as stated, fails: the findings of the two installed plugins "custom.01" and
"custom.02", both named "Bridge", tie (neither precedes the other); and the same thirteen
findings come out in two different sequences when the plugins are installed in two different
orders. -/
theorem sort_order_has_ties :
    customPlugin "custom.01" "Bridge" ∈ thirteenInstalled ∧
    customPlugin "custom.02" "Bridge" ∈ thirteenInstalled ∧
    customPlugin "custom.01" "Bridge" ≠ customPlugin "custom.02" "Bridge" ∧
    buildReport [] (customPlugin "custom.01" "Bridge") =
      some (customFinding "custom.01" "Bridge") ∧
    buildReport [] (customPlugin "custom.02" "Bridge") =
      some (customFinding "custom.02" "Bridge") ∧
    reportLess goLibrary.ToLower (customFinding "custom.01" "Bridge")
      (customFinding "custom.02" "Bridge") = false ∧
    reportLess goLibrary.ToLower (customFinding "custom.02" "Bridge")
      (customFinding "custom.01" "Bridge") = false ∧
    RunAudit goLibrary thirteenClient {} =
      .ok { Plugins := thirteenFindings,
            Summary := { Total := 13, ThirdParty := 13, Unknown := 13, Enabled := 13 } } ∧
    RunAudit goLibrary thirteenRotatedClient {} =
      .ok { Plugins := thirteenStable,
            Summary := { Total := 13, ThirdParty := 13, Unknown := 13, Enabled := 13 } } ∧
    thirteenFindings.Perm thirteenStable ∧ thirteenFindings ≠ thirteenStable := by
  refine ⟨by decide, by decide, by decide, rfl, rfl, by decide, by decide, thirteen_run,
    thirteen_run_rotated, by decide, by decide⟩

/-- C11, amended: the ordering is total up to ties. Of any two findings exactly one of three
holds: the first strictly precedes the second, the second strictly precedes the first, or
both have the same provenance rank and lower-cased name. So the set of findings determines
the sequence of (rank, lower-cased name) keys of the output: two runs that return the same
findings, in whatever order the plugins were installed and whatever sort meeting the contract
of `sort.Slice` was used, return them with the same sequence of keys. -/
theorem sort_order_total_up_to_ties (lib₁ lib₂ : GoLibrary)
    (h₁ : SortSliceContract lib₁.sortSlice) (h₂ : SortSliceContract lib₂.sortSlice)
    (hT : lib₂.ToLower = lib₁.ToLower)
    (client₁ client₂ : MattermostClient) (opts₁ opts₂ : AuditOptions)
    (res₁ res₂ : AuditResult)
    (hr₁ : RunAudit lib₁ client₁ opts₁ = .ok res₁)
    (hr₂ : RunAudit lib₂ client₂ opts₂ = .ok res₂)
    (hp : res₁.Plugins.Perm res₂.Plugins) :
    (∀ f g : PluginReport,
      (reportLess lib₁.ToLower f g = true ∧ reportLess lib₁.ToLower g f = false ∧
        sameKey lib₁.ToLower f g = false) ∨
      (reportLess lib₁.ToLower g f = true ∧ reportLess lib₁.ToLower f g = false ∧
        sameKey lib₁.ToLower f g = false) ∨
      (sameKey lib₁.ToLower f g = true ∧ reportLess lib₁.ToLower f g = false ∧
        reportLess lib₁.ToLower g f = false)) ∧
    res₁.Plugins.map (sortKey lib₁.ToLower) = res₂.Plugins.map (sortKey lib₁.ToLower) := by
  obtain ⟨_, _, _, _, _, _, g4, _⟩ := RunAudit_ok_inv' hr₁
  obtain ⟨_, _, _, _, _, _, g4', _⟩ := RunAudit_ok_inv' hr₂
  refine ⟨reportLess_trichotomy lib₁.ToLower, ?_⟩
  apply sorted_keys_unique lib₁.ToLower hp
  · rw [g4]
    exact h₁.sorted _ _ (reportLess_strictWeakOrder _)
  · rw [g4', hT]
    exact h₂.sorted _ _ (reportLess_strictWeakOrder _)

/-- C11 as amended, on the thirteen plugins installed in two orders and sorted by two sorts:
the two outputs differ and have the same sequence of keys. -/
theorem sort_order_total_up_to_ties_witness :
    RunAudit refLibrary thirteenClient {} =
      .ok { Plugins := thirteenStable,
            Summary := { Total := 13, ThirdParty := 13, Unknown := 13, Enabled := 13 } } ∧
    RunAudit reverseLibrary thirteenRotatedClient {} =
      .ok { Plugins := thirteenStable.reverse.tail ++ [customFinding "custom.00" "Relay"],
            Summary := { Total := 13, ThirdParty := 13, Unknown := 13, Enabled := 13 } } ∧
    thirteenStable ≠ thirteenStable.reverse.tail ++ [customFinding "custom.00" "Relay"] ∧
    thirteenStable.map (sortKey asciiToLower) =
      (thirteenStable.reverse.tail ++ [customFinding "custom.00" "Relay"]).map
        (sortKey asciiToLower) :=
  ⟨thirteen_run_stable, thirteen_run_rotated_reverse, by decide,
    (sort_order_total_up_to_ties refLibrary reverseLibrary insertionSortSlice_contract
      reverseInsertionSortSlice_contract rfl thirteenClient thirteenRotatedClient {} {} _ _
      thirteen_run_stable thirteen_run_rotated_reverse (by decide)).2⟩

/-- C12: a finding of `RunAudit` with source "marketplace" has `UpdateAvailable` "true" exactly
when `CompareVersions` of its installed version and the catalogue version stored under its
plugin ID (which is its `LatestVersion`) is negative, and "false" otherwise. -/
theorem runAudit_updateAvailable_iff_older (lib : GoLibrary)
    (hS : SortSliceContract lib.sortSlice) (mmClient : MattermostClient) (opts : AuditOptions)
    (mpCatalogue : Catalogue) (h2 : mmClient.GetMarketplacePlugins = .ok mpCatalogue)
    (res : AuditResult) (h : RunAudit lib mmClient opts = .ok res)
    (f : PluginReport) (hf : f ∈ res.Plugins) (hm : f.Source = "marketplace") :
    ∃ mp, mpCatalogue.lookup f.PluginID = some (some mp) ∧ f.LatestVersion = mp.Version ∧
      (f.UpdateAvailable = "true" ↔ CompareVersions f.InstalledVersion mp.Version < 0) ∧
      (0 ≤ CompareVersions f.InstalledVersion mp.Version → f.UpdateAvailable = "false") := by
  obtain ⟨_, cat, _, hc, p, _, hr⟩ := RunAudit_finding hS h hf
  rw [h2] at hc
  injection hc with hc
  subst hc
  obtain ⟨mp, hl, hv, _, hcase⟩ := hr.marketplace hm
  refine ⟨mp, by rw [hr.pluginID]; exact hl, hv, ?_, ?_⟩
  · rw [hr.installedVersion]
    rcases hcase with ⟨hlt, hu, _⟩ | ⟨hge, hu, _⟩
    · exact ⟨fun _ => hlt, fun _ => hu⟩
    · rw [hu]
      exact ⟨fun e => absurd e (by decide), fun e => absurd e hge⟩
  · rw [hr.installedVersion]
    intro hge
    rcases hcase with ⟨hlt, _, _⟩ | ⟨_, hu, _⟩
    · omega
    · exact hu

/-- C12 on the sample run: Confluence 1.3.0 against 1.4.0 is outdated, WelcomeBot 1.2.0 against
1.2.0 is not; and on the run of the newer installed version, 1.5.0 against 1.4.0 is not. -/
theorem runAudit_updateAvailable_iff_older_witness :
    (∃ mp, exampleCatalogue.lookup findingConfluence.PluginID = some (some mp) ∧
      findingConfluence.LatestVersion = mp.Version ∧
      (findingConfluence.UpdateAvailable = "true" ↔
        CompareVersions findingConfluence.InstalledVersion mp.Version < 0) ∧
      (0 ≤ CompareVersions findingConfluence.InstalledVersion mp.Version →
        findingConfluence.UpdateAvailable = "false")) ∧
    CompareVersions "1.3.0" "1.4.0" = -1 ∧ findingConfluence.UpdateAvailable = "true" ∧
    (∃ mp, exampleCatalogue.lookup findingWelcomeBot.PluginID = some (some mp) ∧
      findingWelcomeBot.LatestVersion = mp.Version ∧
      (findingWelcomeBot.UpdateAvailable = "true" ↔
        CompareVersions findingWelcomeBot.InstalledVersion mp.Version < 0) ∧
      (0 ≤ CompareVersions findingWelcomeBot.InstalledVersion mp.Version →
        findingWelcomeBot.UpdateAvailable = "false")) ∧
    CompareVersions "1.2.0" "1.2.0" = 0 ∧ findingWelcomeBot.UpdateAvailable = "false" ∧
    (∃ mp, newerCatalogue.lookup findingConfluenceNewer.PluginID = some (some mp) ∧
      findingConfluenceNewer.LatestVersion = mp.Version ∧
      (findingConfluenceNewer.UpdateAvailable = "true" ↔
        CompareVersions findingConfluenceNewer.InstalledVersion mp.Version < 0) ∧
      (0 ≤ CompareVersions findingConfluenceNewer.InstalledVersion mp.Version →
        findingConfluenceNewer.UpdateAvailable = "false")) ∧
    CompareVersions "1.5.0" "1.4.0" = 1 ∧ findingConfluenceNewer.UpdateAvailable = "false" :=
  ⟨runAudit_updateAvailable_iff_older refLibrary refLibrary_contract exampleClient {}
      exampleCatalogue rfl exampleResult exampleClient_run findingConfluence (by decide) rfl,
    by decide, rfl,
    runAudit_updateAvailable_iff_older refLibrary refLibrary_contract exampleClient {}
      exampleCatalogue rfl exampleResult exampleClient_run findingWelcomeBot (by decide) rfl,
    by decide, rfl,
    runAudit_updateAvailable_iff_older refLibrary refLibrary_contract newerClient {}
      newerCatalogue rfl newerResult newer_run findingConfluenceNewer (by decide) rfl,
    by decide, rfl⟩

/-- C13: `ClassifyPluginSource` returns "marketplace" exactly when the ID is not a key of
`bundledPlugins` and `inMarketplace` is true; the homepage URL does not matter. -/
theorem classify_marketplace_iff (pluginID : String) (inMarketplace : Bool)
    (homepageURL : String) :
    (ClassifyPluginSource pluginID inMarketplace homepageURL = "marketplace" ↔
      pluginID ∉ bundledPluginKeys ∧ inMarketplace = true) ∧
    (∀ otherURL : String,
      ClassifyPluginSource pluginID inMarketplace homepageURL = "marketplace" ↔
      ClassifyPluginSource pluginID inMarketplace otherURL = "marketplace") := by
  have key : ∀ url : String, ClassifyPluginSource pluginID inMarketplace url = "marketplace" ↔
      pluginID ∉ bundledPluginKeys ∧ inMarketplace = true := by
    intro url
    obtain ⟨d1, d2, d3, _, _, _⟩ := sources_distinct
    change _ = SourceMarketplace ↔ _
    rcases classify_cases pluginID inMarketplace url with
      ⟨hb, h⟩ | ⟨hb, hm, h⟩ | ⟨hb, hm, _, h⟩ | ⟨hb, hm, _, h⟩
    · rw [h]
      exact ⟨fun e => absurd e.symm d1, fun e => absurd hb e.1⟩
    · rw [h]
      exact ⟨fun _ => ⟨hb, hm⟩, fun _ => rfl⟩
    · rw [h]
      exact ⟨fun e => absurd e.symm d2, fun e => by rw [hm] at e; exact absurd e.2 (by decide)⟩
    · rw [h]
      exact ⟨fun e => absurd e.symm d3, fun e => by rw [hm] at e; exact absurd e.2 (by decide)⟩
  exact ⟨key homepageURL, fun otherURL => (key homepageURL).trans (key otherURL).symm⟩

/-- C14: for an ID that is not a key of `bundledPlugins` and `inMarketplace` false,
`ClassifyPluginSource` returns "mattermost-plugin" exactly when the homepage URL contains
"github.com/mattermost/" and does not contain "github.com/mattermost-community/", and
"third-party" in every other case, as for the empty URL and for a URL in other letter case. -/
theorem classify_homepage (pluginID homepageURL : String)
    (hb : pluginID ∉ bundledPluginKeys) :
    (ClassifyPluginSource pluginID false homepageURL = "mattermost-plugin" ↔
      ("github.com/mattermost/".data <:+: homepageURL.data ∧
        ¬ "github.com/mattermost-community/".data <:+: homepageURL.data)) ∧
    (ClassifyPluginSource pluginID false homepageURL = "third-party" ↔
      ¬ ("github.com/mattermost/".data <:+: homepageURL.data ∧
        ¬ "github.com/mattermost-community/".data <:+: homepageURL.data)) ∧
    ClassifyPluginSource pluginID false "" = "third-party" ∧
    ClassifyPluginSource pluginID false "https://GitHub.com/Mattermost/mattermost-plugin-gcal"
      = "third-party" := by
  have hb' : bundledPlugins pluginID = false := by
    cases h : bundledPlugins pluginID with
    | false => rfl
    | true => exact absurd ((bundledPlugins_iff pluginID).1 h) hb
  obtain ⟨_, _, _, _, _, d6⟩ := sources_distinct
  refine ⟨?_, ?_, ?_, ?_⟩
  · change _ = SourceMattermost ↔ _
    rcases classify_cases pluginID false homepageURL with
      ⟨hk, _⟩ | ⟨_, hm, _⟩ | ⟨_, _, hu, h⟩ | ⟨_, _, hu, h⟩
    · exact absurd hk hb
    · exact absurd hm (by decide)
    · rw [h]; exact ⟨fun _ => hu, fun _ => rfl⟩
    · rw [h]; exact ⟨fun e => absurd e.symm d6, fun e => absurd e hu⟩
  · change _ = SourceThirdParty ↔ _
    rcases classify_cases pluginID false homepageURL with
      ⟨hk, _⟩ | ⟨_, hm, _⟩ | ⟨_, _, hu, h⟩ | ⟨_, _, hu, h⟩
    · exact absurd hk hb
    · exact absurd hm (by decide)
    · rw [h]; exact ⟨fun e => absurd e d6, fun e => absurd hu e⟩
    · rw [h]; exact ⟨fun _ => hu, fun _ => rfl⟩
  · simp only [ClassifyPluginSource, hb']
    decide
  · simp only [ClassifyPluginSource, hb']
    decide

/-- C14 at the tested inputs: the vendor homepage, the community homepage, and no homepage. -/
theorem classify_homepage_witness :
    ((ClassifyPluginSource "com.mattermost.gcal" false
          "https://github.com/mattermost/mattermost-plugin-gcal" = "mattermost-plugin" ↔
        ("github.com/mattermost/".data <:+:
            "https://github.com/mattermost/mattermost-plugin-gcal".data ∧
          ¬ "github.com/mattermost-community/".data <:+:
            "https://github.com/mattermost/mattermost-plugin-gcal".data)) ∧
      (ClassifyPluginSource "com.mattermost.gcal" false
          "https://github.com/mattermost/mattermost-plugin-gcal" = "third-party" ↔
        ¬ ("github.com/mattermost/".data <:+:
            "https://github.com/mattermost/mattermost-plugin-gcal".data ∧
          ¬ "github.com/mattermost-community/".data <:+:
            "https://github.com/mattermost/mattermost-plugin-gcal".data)) ∧
      ClassifyPluginSource "com.mattermost.gcal" false "" = "third-party" ∧
      ClassifyPluginSource "com.mattermost.gcal" false
        "https://GitHub.com/Mattermost/mattermost-plugin-gcal" = "third-party") ∧
    ClassifyPluginSource "com.mattermost.gcal" false
      "https://github.com/mattermost/mattermost-plugin-gcal" = "mattermost-plugin" ∧
    ClassifyPluginSource "community.plugin" false
      "https://github.com/mattermost-community/some-plugin" = "third-party" ∧
    ClassifyPluginSource "com.pexip.meetings" false "" = "third-party" :=
  ⟨classify_homepage "com.mattermost.gcal"
      "https://github.com/mattermost/mattermost-plugin-gcal" (by decide),
    by decide, by decide, by decide⟩

/-- C15, as stated, fails for a plugin that the marketplace lists: the ID is not bundled, the
homepage contains both "github.com/mattermost/" and "github.com/mattermost-community/", and
the result is "marketplace", not "third-party". -/
theorem classify_both_paths_in_marketplace :
    "community.plugin" ∉ bundledPluginKeys ∧
    stringsContains
      "https://github.com/mattermost/redirect?to=github.com/mattermost-community/some-plugin"
      "github.com/mattermost/" = true ∧
    stringsContains
      "https://github.com/mattermost/redirect?to=github.com/mattermost-community/some-plugin"
      "github.com/mattermost-community/" = true ∧
    ClassifyPluginSource "community.plugin" true
      "https://github.com/mattermost/redirect?to=github.com/mattermost-community/some-plugin"
      = "marketplace" ∧
    ClassifyPluginSource "community.plugin" true
      "https://github.com/mattermost/redirect?to=github.com/mattermost-community/some-plugin"
      ≠ "third-party" := by
  decide

/-- C15, amended: for an ID that is not a key of `bundledPlugins` and a homepage URL that
contains both "github.com/mattermost/" and "github.com/mattermost-community/",
`ClassifyPluginSource` returns "third-party" when `inMarketplace` is false and "marketplace"
when it is true; it never returns "mattermost-plugin". -/
theorem classify_both_paths (pluginID homepageURL : String)
    (hb : pluginID ∉ bundledPluginKeys)
    (_hv : "github.com/mattermost/".data <:+: homepageURL.data)
    (hc : "github.com/mattermost-community/".data <:+: homepageURL.data) :
    ClassifyPluginSource pluginID false homepageURL = "third-party" ∧
    ClassifyPluginSource pluginID true homepageURL = "marketplace" ∧
    ∀ inMarketplace : Bool,
      ClassifyPluginSource pluginID inMarketplace homepageURL ≠ "mattermost-plugin" := by
  obtain ⟨_, d2, _, _, _, d6⟩ := sources_distinct
  have h1 : ClassifyPluginSource pluginID false homepageURL = SourceThirdParty := by
    rcases classify_cases pluginID false homepageURL with
      ⟨hk, _⟩ | ⟨_, hm, _⟩ | ⟨_, _, hu, _⟩ | ⟨_, _, _, h⟩
    · exact absurd hk hb
    · exact absurd hm (by decide)
    · exact absurd hc hu.2
    · exact h
  have h2 : ClassifyPluginSource pluginID true homepageURL = SourceMarketplace := by
    rcases classify_cases pluginID true homepageURL with
      ⟨hk, _⟩ | ⟨_, _, h⟩ | ⟨_, hm, _⟩ | ⟨_, hm, _⟩
    · exact absurd hk hb
    · exact h
    · exact absurd hm (by decide)
    · exact absurd hm (by decide)
  refine ⟨h1, h2, ?_⟩
  intro inMarketplace
  change _ ≠ SourceMattermost
  cases inMarketplace with
  | true => rw [h2]; exact d2
  | false => rw [h1]; exact d6.symm

/-- The amended C15 at a homepage that holds both paths. -/
theorem classify_both_paths_witness :
    ClassifyPluginSource "community.plugin" false
      "https://github.com/mattermost/redirect?to=github.com/mattermost-community/some-plugin"
      = "third-party" ∧
    ClassifyPluginSource "community.plugin" true
      "https://github.com/mattermost/redirect?to=github.com/mattermost-community/some-plugin"
      = "marketplace" ∧
    ∀ inMarketplace : Bool,
      ClassifyPluginSource "community.plugin" inMarketplace
        "https://github.com/mattermost/redirect?to=github.com/mattermost-community/some-plugin"
        ≠ "mattermost-plugin" :=
  classify_both_paths "community.plugin"
    "https://github.com/mattermost/redirect?to=github.com/mattermost-community/some-plugin"
    (by decide) ((stringsContains_iff _ _).1 (by decide)) ((stringsContains_iff _ _).1 (by decide))

/-- C16: `ClassifyPluginSource` returns one of the four source constants, which are pairwise
different, for every plugin ID, flag and URL; hence every finding of `RunAudit` has one of the
four sources. -/
theorem classify_total :
    (∀ (pluginID : String) (inMarketplace : Bool) (homepageURL : String),
      ClassifyPluginSource pluginID inMarketplace homepageURL = "marketplace" ∨
      ClassifyPluginSource pluginID inMarketplace homepageURL = "bundled" ∨
      ClassifyPluginSource pluginID inMarketplace homepageURL = "mattermost-plugin" ∨
      ClassifyPluginSource pluginID inMarketplace homepageURL = "third-party") ∧
    (SourceMarketplace = "marketplace" ∧ SourceBundled = "bundled" ∧
      SourceMattermost = "mattermost-plugin" ∧ SourceThirdParty = "third-party") ∧
    (∀ (lib : GoLibrary), SortSliceContract lib.sortSlice →
      ∀ (mmClient : MattermostClient) (opts : AuditOptions) (res : AuditResult),
        RunAudit lib mmClient opts = .ok res →
        ∀ f ∈ res.Plugins, f.Source = "marketplace" ∨ f.Source = "bundled" ∨
          f.Source = "mattermost-plugin" ∨ f.Source = "third-party") := by
  refine ⟨?_, ⟨rfl, rfl, rfl, rfl⟩, ?_⟩
  · intro pluginID inMarketplace homepageURL
    rcases classify_range pluginID inMarketplace homepageURL with h | h | h | h
    · exact Or.inr (Or.inl h)
    · exact Or.inl h
    · exact Or.inr (Or.inr (Or.inl h))
    · exact Or.inr (Or.inr (Or.inr h))
  · intro lib hS mmClient opts res h f hf
    obtain ⟨_, _, _, _, _, _, hrep⟩ := RunAudit_finding hS h hf
    rcases reportOf_source_range hrep with h | h | h | h
    · exact Or.inr (Or.inl h)
    · exact Or.inl h
    · exact Or.inr (Or.inr (Or.inl h))
    · exact Or.inr (Or.inr (Or.inr h))

/-- C16 on the sample run: the sources of the five findings. -/
theorem classify_total_witness :
    (∀ f ∈ exampleResult.Plugins, f.Source = "marketplace" ∨ f.Source = "bundled" ∨
      f.Source = "mattermost-plugin" ∨ f.Source = "third-party") ∧
    exampleResult.Plugins.map (fun f => f.Source) =
      ["marketplace", "marketplace", "mattermost-plugin", "bundled", "third-party"] :=
  ⟨classify_total.2.2 refLibrary refLibrary_contract exampleClient {} exampleResult
      exampleClient_run, rfl⟩

/-- C17: the source of every finding is `ClassifyPluginSource` of the installed plugin's ID,
whether that ID is a key of the catalogue, and the installed plugin's homepage URL; a finding
with a bundled ID is "bundled", and `Summary.Marketplace` counts exactly the findings whose ID
is not bundled and is a key of the catalogue. -/
theorem runAudit_source_is_classification (lib : GoLibrary)
    (hS : SortSliceContract lib.sortSlice) (mmClient : MattermostClient) (opts : AuditOptions)
    (installed : List InstalledPlugin) (mpCatalogue : Catalogue)
    (h1 : mmClient.GetPlugins = .ok installed)
    (h2 : mmClient.GetMarketplacePlugins = .ok mpCatalogue)
    (res : AuditResult) (h : RunAudit lib mmClient opts = .ok res) :
    (∀ f ∈ res.Plugins, ∃ p ∈ installed,
      f.PluginID = p.ID ∧ f.Name = p.Name ∧ f.InstalledVersion = p.Version ∧
      f.Status = p.Status ∧
      f.Source = ClassifyPluginSource p.ID (mpCatalogue.lookup p.ID).isSome p.HomepageURL) ∧
    (∀ f ∈ res.Plugins, f.PluginID ∈ bundledPluginKeys → f.Source = "bundled") ∧
    res.Summary.Marketplace = res.Plugins.countP (fun f =>
      decide (f.PluginID ∉ bundledPluginKeys ∧ (mpCatalogue.lookup f.PluginID).isSome = true)) := by
  have hrep : ∀ f ∈ res.Plugins, ∃ p ∈ installed, ReportOf mpCatalogue p f := by
    intro f hf
    obtain ⟨ins, cat, hi, hc, p, hp, hr⟩ := RunAudit_finding hS h hf
    rw [h1] at hi
    rw [h2] at hc
    injection hi with hi
    injection hc with hc
    subst hi
    subst hc
    exact ⟨p, hp, hr⟩
  refine ⟨?_, ?_, ?_⟩
  · intro f hf
    obtain ⟨p, hp, hr⟩ := hrep f hf
    exact ⟨p, hp, hr.pluginID, hr.name, hr.installedVersion, hr.status, hr.source⟩
  · intro f hf hb
    obtain ⟨p, _, hr⟩ := hrep f hf
    exact reportOf_bundled hr hb
  · obtain ⟨_, _, _, _, _, _, _, h5⟩ := RunAudit_ok_inv' h
    rw [h5, computeSummary, foldl_summaryStep]
    simp only [Nat.zero_add]
    apply List.countP_congr
    intro f hf
    obtain ⟨p, _, hr⟩ := hrep f hf
    simpa using reportOf_marketplace_iff hr

/-- C17 on the run of two bundled plugins that the catalogue lists: both are "bundled" and the
marketplace counter is 0. -/
theorem runAudit_source_is_classification_witness :
    ((∀ f ∈ bundledListedResult.Plugins, ∃ p ∈ bundledListedInstalled,
        f.PluginID = p.ID ∧ f.Name = p.Name ∧ f.InstalledVersion = p.Version ∧
        f.Status = p.Status ∧
        f.Source = ClassifyPluginSource p.ID (bundledListedCatalogue.lookup p.ID).isSome
          p.HomepageURL) ∧
      (∀ f ∈ bundledListedResult.Plugins,
        f.PluginID ∈ bundledPluginKeys → f.Source = "bundled") ∧
      bundledListedResult.Summary.Marketplace = bundledListedResult.Plugins.countP (fun f =>
        decide (f.PluginID ∉ bundledPluginKeys ∧
          (bundledListedCatalogue.lookup f.PluginID).isSome = true))) ∧
    bundledListedResult.Plugins.map (fun f => f.Source) = ["bundled", "bundled"] ∧
    bundledListedResult.Summary.Marketplace = 0 ∧ bundledListedResult.Summary.Bundled = 2 :=
  ⟨runAudit_source_is_classification refLibrary refLibrary_contract bundledListedClient {}
      bundledListedInstalled bundledListedCatalogue rfl rfl bundledListedResult
      bundledListed_run, rfl, rfl, rfl⟩

/-- C18: a finding with source "marketplace" has the `Version` and `HomepageURL` of the
catalogue entry stored under its plugin ID as `LatestVersion` and `MarketplaceURL`; any other
finding has both empty, whatever the catalogue stores for its ID. -/
theorem runAudit_latest_and_url (lib : GoLibrary) (hS : SortSliceContract lib.sortSlice)
    (mmClient : MattermostClient) (opts : AuditOptions) (mpCatalogue : Catalogue)
    (h2 : mmClient.GetMarketplacePlugins = .ok mpCatalogue)
    (res : AuditResult) (h : RunAudit lib mmClient opts = .ok res)
    (f : PluginReport) (hf : f ∈ res.Plugins) :
    (f.Source = "marketplace" →
      ∃ mp, mpCatalogue.lookup f.PluginID = some (some mp) ∧
        f.LatestVersion = mp.Version ∧ f.MarketplaceURL = mp.HomepageURL) ∧
    (f.Source ≠ "marketplace" → f.LatestVersion = "" ∧ f.MarketplaceURL = "") := by
  obtain ⟨_, cat, _, hc, p, _, hr⟩ := RunAudit_finding hS h hf
  rw [h2] at hc
  injection hc with hc
  subst hc
  constructor
  · intro hm
    obtain ⟨mp, hl, hv, hu, _⟩ := hr.marketplace hm
    exact ⟨mp, by rw [hr.pluginID]; exact hl, hv, hu⟩
  · intro hm
    obtain ⟨hv, hu, _, _⟩ := hr.other hm
    exact ⟨hv, hu⟩

/-- C18 on two findings: Confluence of the sample run (marketplace), and Calls of the run in
which the catalogue lists the bundled plugin. -/
theorem runAudit_latest_and_url_witness :
    ((findingConfluence.Source = "marketplace" →
        ∃ mp, exampleCatalogue.lookup findingConfluence.PluginID = some (some mp) ∧
          findingConfluence.LatestVersion = mp.Version ∧
          findingConfluence.MarketplaceURL = mp.HomepageURL) ∧
      (findingConfluence.Source ≠ "marketplace" →
        findingConfluence.LatestVersion = "" ∧ findingConfluence.MarketplaceURL = "")) ∧
    findingConfluence.Source = "marketplace" ∧ findingConfluence.LatestVersion = "1.4.0" ∧
    ((findingCallsListed.Source = "marketplace" →
        ∃ mp, bundledListedCatalogue.lookup findingCallsListed.PluginID = some (some mp) ∧
          findingCallsListed.LatestVersion = mp.Version ∧
          findingCallsListed.MarketplaceURL = mp.HomepageURL) ∧
      (findingCallsListed.Source ≠ "marketplace" →
        findingCallsListed.LatestVersion = "" ∧ findingCallsListed.MarketplaceURL = "")) ∧
    findingCallsListed.Source = "bundled" ∧
    (bundledListedCatalogue.lookup findingCallsListed.PluginID).isSome = true ∧
    findingCallsListed.LatestVersion = "" ∧ findingCallsListed.MarketplaceURL = "" :=
  ⟨runAudit_latest_and_url refLibrary refLibrary_contract exampleClient {} exampleCatalogue
      rfl exampleResult exampleClient_run findingConfluence (by decide),
    rfl, rfl,
    runAudit_latest_and_url refLibrary refLibrary_contract bundledListedClient {}
      bundledListedCatalogue rfl bundledListedResult bundledListed_run findingCallsListed
      (by decide),
    rfl, rfl, rfl, rfl⟩

/-- C19: with `OutdatedOnly`, no finding of the result has source "marketplace" and an installed
version equal, as a string, to the version the catalogue stores for it; and every installed
plugin with a bundled ID has its finding in the result. -/
theorem runAudit_outdatedOnly_keeps_bundled (lib : GoLibrary)
    (hS : SortSliceContract lib.sortSlice) (mmClient : MattermostClient) (verbose : Bool)
    (installed : List InstalledPlugin) (mpCatalogue : Catalogue)
    (h1 : mmClient.GetPlugins = .ok installed)
    (h2 : mmClient.GetMarketplacePlugins = .ok mpCatalogue)
    (res : AuditResult)
    (h : RunAudit lib mmClient { OutdatedOnly := true, Verbose := verbose } = .ok res) :
    (∀ f ∈ res.Plugins, f.Source = "marketplace" →
      ∀ mp, mpCatalogue.lookup f.PluginID = some (some mp) →
        f.InstalledVersion ≠ mp.Version) ∧
    (∀ p ∈ installed, p.ID ∈ bundledPluginKeys →
      ∃ f ∈ res.Plugins, f.PluginID = p.ID ∧ f.Name = p.Name ∧
        f.InstalledVersion = p.Version ∧ f.Status = p.Status ∧ f.Source = "bundled") := by
  obtain ⟨reports, h3, h4, _⟩ := RunAudit_ok_inv h1 h2 h
  simp only [selected, if_true] at h4
  constructor
  · intro f hf hm mp hl hv
    rw [h4] at hf
    have hf' := (hS.perm _ _).subset hf
    obtain ⟨hfr, hk⟩ := List.mem_filter.1 hf'
    obtain ⟨p, _, hr⟩ := buildReports_mem h3 hfr
    obtain ⟨mp', hl', _, _, hcase⟩ := hr.marketplace hm
    rw [hr.pluginID] at hl
    rw [hl'] at hl
    injection hl with hl
    injection hl with hl
    subst hl
    rw [hr.installedVersion] at hv
    rcases hcase with ⟨hlt, _, _⟩ | ⟨_, hu, _⟩
    · rw [hv, compareVersions_self] at hlt
      exact absurd hlt (by decide)
    · have hm' : f.Source = SourceMarketplace := hm
      simp [keepOutdated, hu, hm'] at hk
  · intro p hp hb
    obtain ⟨r, hr, hrep⟩ := buildReports_complete h3 hp
    have hsrc : r.Source = SourceBundled :=
      reportOf_bundled hrep (by rw [hrep.pluginID]; exact hb)
    have hk : keepOutdated r = true := by
      simp [keepOutdated, hsrc, SourceBundled, SourceMarketplace]
    refine ⟨r, ?_, hrep.pluginID, hrep.name, hrep.installedVersion, hrep.status, hsrc⟩
    rw [h4]
    exact (hS.perm _ _).symm.subset (List.mem_filter.2 ⟨hr, hk⟩)

/-- C19 on the sample run with `OutdatedOnly`: WelcomeBot (1.2.0 installed, 1.2.0 in the
catalogue) is absent, the bundled Calls is present. -/
theorem runAudit_outdatedOnly_keeps_bundled_witness :
    ((∀ f ∈ exampleOutdatedResult.Plugins, f.Source = "marketplace" →
        ∀ mp, exampleCatalogue.lookup f.PluginID = some (some mp) →
          f.InstalledVersion ≠ mp.Version) ∧
      (∀ p ∈ exampleInstalled, p.ID ∈ bundledPluginKeys →
        ∃ f ∈ exampleOutdatedResult.Plugins, f.PluginID = p.ID ∧ f.Name = p.Name ∧
          f.InstalledVersion = p.Version ∧ f.Status = p.Status ∧ f.Source = "bundled")) ∧
    findingWelcomeBot ∉ exampleOutdatedResult.Plugins ∧
    findingCalls ∈ exampleOutdatedResult.Plugins :=
  ⟨runAudit_outdatedOnly_keeps_bundled refLibrary refLibrary_contract exampleClient false
      exampleInstalled exampleCatalogue rfl rfl exampleOutdatedResult
      exampleClient_run_outdated, by decide, by decide⟩

/-- C20: in the result of a successful run `Summary.Unknown` is the sum of the bundled,
mattermost-plugin and third-party counters, `Summary.Outdated` is the number of findings with
source "marketplace" and `UpdateAvailable` "true", `Summary.UpToDate` the number of the other
"marketplace" findings, and both are unchanged when the findings of other sources are left
out. -/
theorem runAudit_summary_unknown_and_outdated (lib : GoLibrary) (mmClient : MattermostClient)
    (opts : AuditOptions) (res : AuditResult) (h : RunAudit lib mmClient opts = .ok res) :
    res.Summary.Unknown =
      res.Summary.Bundled + res.Summary.MattermostPlugin + res.Summary.ThirdParty ∧
    res.Summary.Outdated = res.Plugins.countP
      (fun f => decide (f.Source = "marketplace" ∧ f.UpdateAvailable = "true")) ∧
    res.Summary.UpToDate = res.Plugins.countP
      (fun f => decide (f.Source = "marketplace" ∧ f.UpdateAvailable ≠ "true")) ∧
    (computeSummary (res.Plugins.filter (fun f => decide (f.Source = "marketplace")))).Outdated
      = res.Summary.Outdated ∧
    (computeSummary (res.Plugins.filter (fun f => decide (f.Source = "marketplace")))).UpToDate
      = res.Summary.UpToDate := by
  obtain ⟨_, _, _, _, _, _, _, h5⟩ := RunAudit_ok_inv' h
  rw [h5]
  simp only [computeSummary, foldl_summaryStep, Nat.zero_add]
  refine ⟨countP_or_disjoint _, rfl, rfl, ?_, ?_⟩
  · rw [List.countP_filter]
    apply List.countP_congr
    intro f _
    by_cases hm : f.Source = "marketplace" <;> simp [SourceMarketplace, hm]
  · rw [List.countP_filter]
    apply List.countP_congr
    intro f _
    by_cases hm : f.Source = "marketplace" <;> simp [SourceMarketplace, hm]

/-- C20 on the sample run: 3 findings of unknown freshness, 1 outdated, 1 up to date. -/
theorem runAudit_summary_unknown_and_outdated_witness :
    (exampleResult.Summary.Unknown =
        exampleResult.Summary.Bundled + exampleResult.Summary.MattermostPlugin +
          exampleResult.Summary.ThirdParty ∧
      exampleResult.Summary.Outdated = exampleResult.Plugins.countP
        (fun f => decide (f.Source = "marketplace" ∧ f.UpdateAvailable = "true")) ∧
      exampleResult.Summary.UpToDate = exampleResult.Plugins.countP
        (fun f => decide (f.Source = "marketplace" ∧ f.UpdateAvailable ≠ "true")) ∧
      (computeSummary (exampleResult.Plugins.filter
          (fun f => decide (f.Source = "marketplace")))).Outdated
        = exampleResult.Summary.Outdated ∧
      (computeSummary (exampleResult.Plugins.filter
          (fun f => decide (f.Source = "marketplace")))).UpToDate
        = exampleResult.Summary.UpToDate) ∧
    exampleResult.Summary.Unknown = 3 ∧ exampleResult.Summary.Outdated = 1 ∧
    exampleResult.Summary.UpToDate = 1 :=
  ⟨runAudit_summary_unknown_and_outdated refLibrary exampleClient {} exampleResult
      exampleClient_run, rfl, rfl, rfl⟩

/-- C21: when `GetPlugins` returns the error `e`, `RunAudit` returns no result and `e`
itself, and `GetPlugins` is the only call it has made on the client; when `GetPlugins`
succeeds and `GetMarketplacePlugins` returns the error `e`, `RunAudit` returns no result and
`e` itself after these two calls, whatever plugins are installed. -/
theorem runAudit_forwards_errors (lib : GoLibrary) (mmClient : MattermostClient)
    (opts : AuditOptions) :
    (∀ e, mmClient.GetPlugins = .error e →
      RunAudit lib mmClient opts = .err e ∧
      RunAuditCalls lib mmClient opts = ([.getPlugins], .err e)) ∧
    (∀ installed e, mmClient.GetPlugins = .ok installed →
      mmClient.GetMarketplacePlugins = .error e →
      RunAudit lib mmClient opts = .err e ∧
      RunAuditCalls lib mmClient opts = ([.getPlugins, .getMarketplacePlugins], .err e)) := by
  constructor
  · intro e h1
    simp [RunAudit, RunAuditCalls, h1]
  · intro installed e h1 h2
    simp [RunAudit, RunAuditCalls, h1, h2]

/-- C21 on the two error tests of the repository: the client whose `GetPlugins` fails, and the
client whose marketplace is unreachable. -/
theorem runAudit_forwards_errors_witness :
    (RunAudit refLibrary failingClient {} = .err (apiError "connection failed" none) ∧
      RunAuditCalls refLibrary failingClient {} =
        ([.getPlugins], .err (apiError "connection failed" none))) ∧
    (RunAudit refLibrary unreachableClient {} =
        .err (.cliError 2 "marketplace unreachable" none) ∧
      RunAuditCalls refLibrary unreachableClient {} =
        ([.getPlugins, .getMarketplacePlugins],
          .err (.cliError 2 "marketplace unreachable" none))) :=
  ⟨(runAudit_forwards_errors refLibrary failingClient {}).1 _ rfl,
    (runAudit_forwards_errors refLibrary unreachableClient {}).2 _ _ rfl rfl⟩

/-- C22 fails on the code: on a server that answers the Marketplace request with the status
500, `MMClient.GetMarketplacePlugins` returns a `*CLIError` with code `ExitAPIError` (2); and
whatever the server answers, the code of an error it returns is `ExitConfigError` (1) or
`ExitAPIError` (2), never `ExitMarketplaceError` (3). -/
theorem getMarketplacePlugins_error_is_api_error :
    MMClient.GetMarketplacePlugins airGappedClient4 1 =
      some (.err (.cliError 2
        "error: the Mattermost server returned an unexpected error (HTTP 500). Check server logs for details."
        (some (.errorString "failed to get remote marketplace plugins")))) ∧
    ExitAPIError = 2 ∧ ExitMarketplaceError = 3 ∧
    ∀ (client : Client4) (fuel : Nat) (e : GoError),
      MMClient.GetMarketplacePlugins client fuel = some (.err e) →
      (e.code? = some ExitConfigError ∨ e.code? = some ExitAPIError) ∧
      e.code? ≠ some ExitMarketplaceError := by
  refine ⟨rfl, rfl, rfl, ?_⟩
  intro client fuel e h
  obtain ⟨resp, err, he⟩ := getMarketplacePluginsLoop_error client 200 fuel 0 [] e h
  have hc := classifyAPIError_code "" resp (some err)
  rw [← he] at hc
  refine ⟨hc, ?_⟩
  rcases hc with hc | hc <;> rw [hc] <;> decide

/-- C23: for an empty installed list, any catalogue and any options, `RunAudit` returns a
result with no findings and a summary whose ten counters are zero. -/
theorem runAudit_no_plugins (lib : GoLibrary) (hS : SortSliceContract lib.sortSlice)
    (mmClient : MattermostClient) (opts : AuditOptions) (mpCatalogue : Catalogue)
    (h1 : mmClient.GetPlugins = .ok [])
    (h2 : mmClient.GetMarketplacePlugins = .ok mpCatalogue) :
    ∃ res, RunAudit lib mmClient opts = .ok res ∧ res.Plugins = [] ∧
      res.Summary.Total = 0 ∧ res.Summary.Marketplace = 0 ∧ res.Summary.Bundled = 0 ∧
      res.Summary.MattermostPlugin = 0 ∧ res.Summary.ThirdParty = 0 ∧
      res.Summary.Outdated = 0 ∧ res.Summary.UpToDate = 0 ∧ res.Summary.Unknown = 0 ∧
      res.Summary.Enabled = 0 ∧ res.Summary.Disabled = 0 := by
  have h3 : buildReports mpCatalogue [] = some [] := rfl
  have hsel : selected opts [] = [] := by
    unfold selected
    split <;> rfl
  have hsort : lib.sortSlice (reportLess lib.ToLower) [] = [] :=
    List.perm_nil.1 (hS.perm _ _)
  refine ⟨_, RunAudit_eq h1 h2 h3, ?_⟩
  simp only [hsel, hsort]
  exact ⟨trivial, rfl, rfl, rfl, rfl, rfl, rfl, rfl, rfl, rfl, rfl⟩

/-- C23 on the run of `TestRunAudit_NoPlugins`. -/
theorem runAudit_no_plugins_witness :
    ∃ res, RunAudit refLibrary noPluginsClient {} = .ok res ∧ res.Plugins = [] ∧
      res.Summary.Total = 0 ∧ res.Summary.Marketplace = 0 ∧ res.Summary.Bundled = 0 ∧
      res.Summary.MattermostPlugin = 0 ∧ res.Summary.ThirdParty = 0 ∧
      res.Summary.Outdated = 0 ∧ res.Summary.UpToDate = 0 ∧ res.Summary.Unknown = 0 ∧
      res.Summary.Enabled = 0 ∧ res.Summary.Disabled = 0 :=
  runAudit_no_plugins refLibrary refLibrary_contract noPluginsClient {} [] rfl rfl

/-- C24: `NormalizeVersion v` is "" when `v` is empty, `v` when `v` begins with the character
'v', and "v" followed by `v` otherwise. -/
theorem normalizeVersion_cases (v : String) :
    (v = "" → NormalizeVersion v = "") ∧
    (v.data.head? = some 'v' → NormalizeVersion v = v) ∧
    (v ≠ "" → v.data.head? ≠ some 'v' → NormalizeVersion v = "v" ++ v) := by
  refine ⟨?_, ?_, ?_⟩
  · intro h
    simp [NormalizeVersion, h]
  · intro h
    have hne : v ≠ "" := by
      intro he
      rw [he] at h
      exact absurd h (by decide)
    simp [NormalizeVersion, hne, (stringsHasPrefix_v v).2 h]
  · intro hne h
    have hp : stringsHasPrefix v "v" = false := by
      cases hh : stringsHasPrefix v "v" with
      | false => rfl
      | true => exact absurd ((stringsHasPrefix_v v).1 hh) h
    simp [NormalizeVersion, hne, hp]

/-- C24 at the inputs of `TestNormalizeVersion`. -/
theorem normalizeVersion_cases_witness :
    NormalizeVersion "" = "" ∧ NormalizeVersion "v1.2.3" = "v1.2.3" ∧
    NormalizeVersion "1.2.3" = "v1.2.3" ∧ NormalizeVersion "version" = "version" :=
  ⟨(normalizeVersion_cases "").1 rfl, (normalizeVersion_cases "v1.2.3").2.1 rfl,
    (normalizeVersion_cases "1.2.3").2.2 (by decide) (by decide),
    (normalizeVersion_cases "version").2.1 rfl⟩

/-- C25: `CompareVersions` is a total function and its value, for every pair of strings, is
-1, 0 or 1. -/
theorem compareVersions_total (installed latest : String) :
    CompareVersions installed latest = -1 ∨ CompareVersions installed latest = 0 ∨
      CompareVersions installed latest = 1 := by
  unfold CompareVersions
  simp only
  split
  · split
    · exact Or.inr (Or.inl rfl)
    · exact Or.inl rfl
  · exact Compare_range _ _

/-- C26: the four values of `DeterminePluginType`, and the `PluginType` of every finding of
`RunAudit` is its value at the flags of the installed plugin the finding reports. -/
theorem determinePluginType_table (lib : GoLibrary) (hS : SortSliceContract lib.sortSlice)
    (mmClient : MattermostClient) (opts : AuditOptions) (installed : List InstalledPlugin)
    (h1 : mmClient.GetPlugins = .ok installed)
    (res : AuditResult) (h : RunAudit lib mmClient opts = .ok res) :
    (DeterminePluginType true true = "both" ∧ DeterminePluginType true false = "server" ∧
      DeterminePluginType false true = "webapp" ∧
      DeterminePluginType false false = "unknown") ∧
    ∀ f ∈ res.Plugins, ∃ p ∈ installed, f.PluginID = p.ID ∧ f.Name = p.Name ∧
      f.InstalledVersion = p.Version ∧ f.Status = p.Status ∧
      f.PluginType = DeterminePluginType p.HasServer p.HasWebapp := by
  refine ⟨⟨rfl, rfl, rfl, rfl⟩, ?_⟩
  intro f hf
  obtain ⟨ins, cat, hi, _, p, hp, hr⟩ := RunAudit_finding hS h hf
  rw [h1] at hi
  injection hi with hi
  subst hi
  exact ⟨p, hp, hr.pluginID, hr.name, hr.installedVersion, hr.status, hr.pluginType⟩

/-- C26 on the sample run: the plugin types of the five findings. -/
theorem determinePluginType_table_witness :
    ((DeterminePluginType true true = "both" ∧ DeterminePluginType true false = "server" ∧
        DeterminePluginType false true = "webapp" ∧
        DeterminePluginType false false = "unknown") ∧
      ∀ f ∈ exampleResult.Plugins, ∃ p ∈ exampleInstalled, f.PluginID = p.ID ∧
        f.Name = p.Name ∧ f.InstalledVersion = p.Version ∧ f.Status = p.Status ∧
        f.PluginType = DeterminePluginType p.HasServer p.HasWebapp) ∧
    exampleResult.Plugins.map (fun f => f.PluginType) =
      ["both", "webapp", "both", "both", "server"] :=
  ⟨determinePluginType_table refLibrary refLibrary_contract exampleClient {} exampleInstalled
      rfl exampleResult exampleClient_run, by decide⟩

set_option maxRecDepth 100000 in
/-- C27, as stated, fails: a plugin named "Release\r\nNotes" gives a result of `RunAudit`
whose CSV text holds the name between quotes with its carriage return and line feed; Go's
`csv.Reader` (`ReadAll`, as in `TestFormatCSV`) reads the name back as "Release\nNotes", so
the records it returns are not the records that were written. -/
theorem formatCSV_crlf_not_read_back :
    RunAudit refLibrary crlfClient {} = .ok crlfResult ∧
    (formatCSV latin1IsSpace crlfResult).1 =
      "plugin_id,name,installed_version,latest_version,update_available,status,type,source,marketplace_url\ncom.example.notes,\"Release\r\nNotes\",1.0.0,,unknown,enabled,server,third-party,\n" ∧
    csv.ReadAll (formatCSV latin1IsSpace crlfResult).1 =
      some
        [ ["plugin_id", "name", "installed_version", "latest_version", "update_available",
            "status", "type", "source", "marketplace_url"],
          ["com.example.notes", "Release\nNotes", "1.0.0", "", "unknown", "enabled", "server",
            "third-party", ""] ] ∧
    csv.ReadAll (formatCSV latin1IsSpace crlfResult).1 ≠
      some
        (["plugin_id", "name", "installed_version", "latest_version", "update_available",
            "status", "type", "source", "marketplace_url"] ::
          crlfResult.Plugins.map (fun p =>
            [p.PluginID, p.Name, p.InstalledVersion, p.LatestVersion, p.UpdateAvailable,
              p.Status, p.PluginType, p.Source, p.MarketplaceURL])) := by
  refine ⟨rfl, by decide, by decide, by decide⟩

/-- C27, amended: `formatCSV` returns no error and writes 1 + len(Plugins) records with
`csv.Writer.Write`: first the header, then for each finding in the order of `Plugins` its
nine fields, `UpdateAvailable` as the string it is; when no field of a finding holds a
carriage return directly before a line feed, Go's `csv.Reader` (`ReadAll`) reads these records
back from the text; and in a result of `RunAudit` the update string is "true", "false" or
"unknown". -/
theorem formatCSV_records (isSpace : Char → Bool) (result : AuditResult) :
    (formatCSV isSpace result).2 = none ∧
    (formatCSV isSpace result).1.data =
      ((["plugin_id", "name", "installed_version", "latest_version", "update_available",
          "status", "type", "source", "marketplace_url"] ::
        result.Plugins.map (fun p =>
          [p.PluginID, p.Name, p.InstalledVersion, p.LatestVersion, p.UpdateAvailable,
            p.Status, p.PluginType, p.Source, p.MarketplaceURL])).map
        (csv.Write isSpace)).flatten ∧
    (["plugin_id", "name", "installed_version", "latest_version", "update_available",
        "status", "type", "source", "marketplace_url"] ::
      result.Plugins.map (fun p =>
        [p.PluginID, p.Name, p.InstalledVersion, p.LatestVersion, p.UpdateAvailable,
          p.Status, p.PluginType, p.Source, p.MarketplaceURL])).length =
      1 + result.Plugins.length ∧
    ((∀ p ∈ result.Plugins,
        ∀ f ∈ [p.PluginID, p.Name, p.InstalledVersion, p.LatestVersion, p.UpdateAvailable,
          p.Status, p.PluginType, p.Source, p.MarketplaceURL],
        ¬ ['\r', '\n'] <:+: f.data) →
      csv.ReadAll (formatCSV isSpace result).1 =
        some
          (["plugin_id", "name", "installed_version", "latest_version", "update_available",
              "status", "type", "source", "marketplace_url"] ::
            result.Plugins.map (fun p =>
              [p.PluginID, p.Name, p.InstalledVersion, p.LatestVersion, p.UpdateAvailable,
                p.Status, p.PluginType, p.Source, p.MarketplaceURL]))) ∧
    (∀ (lib : GoLibrary) (mmClient : MattermostClient) (opts : AuditOptions),
      SortSliceContract lib.sortSlice → RunAudit lib mmClient opts = .ok result →
      ∀ p ∈ result.Plugins, p.UpdateAvailable = "true" ∨ p.UpdateAvailable = "false" ∨
        p.UpdateAvailable = "unknown") := by
  refine ⟨rfl, ?_, ?_, ?_, ?_⟩
  · simp [formatCSV, csvHeader, csvRecord, List.map_map, Function.comp_def]
  · simp [Nat.add_comm]
  · intro h
    exact readAll_formatCSV isSpace result h
  · intro lib mmClient opts hS h p hp
    obtain ⟨_, _, _, _, _, _, hr⟩ := RunAudit_finding hS h hp
    rcases reportOf_tristate hr with h1 | h1 | h1
    · exact Or.inl h1.1
    · exact Or.inr (Or.inl h1.1)
    · exact Or.inr (Or.inr h1.1)

set_option maxRecDepth 100000 in
/-- C27, amended, on the sample run: the six records that `ReadAll` reads back from its CSV
text, and the three values of the update column; and a name with a comma, quotes, a line feed
and a carriage return elsewhere is read back as it was. -/
theorem formatCSV_records_witness :
    csv.ReadAll (formatCSV latin1IsSpace exampleResult).1 =
      some
        [ ["plugin_id", "name", "installed_version", "latest_version", "update_available",
            "status", "type", "source", "marketplace_url"],
          ["com.mattermost.confluence", "Confluence", "1.3.0", "1.4.0", "true", "enabled",
            "both", "marketplace",
            "https://github.com/mattermost/mattermost-plugin-confluence"],
          ["com.mattermost.welcomebot", "WelcomeBot", "1.2.0", "1.2.0", "false", "enabled",
            "webapp", "marketplace",
            "https://github.com/mattermost/mattermost-plugin-welcomebot"],
          ["com.mattermost.gcal", "Google Calendar", "1.1.0", "", "unknown", "disabled",
            "both", "mattermost-plugin", ""],
          ["com.mattermost.calls", "Calls", "1.10.0", "", "unknown", "enabled", "both",
            "bundled", ""],
          ["com.example.zebra", "Zebra Plugin", "1.0.0", "", "unknown", "enabled", "server",
            "third-party", ""] ] ∧
    (∀ p ∈ exampleResult.Plugins, p.UpdateAvailable = "true" ∨ p.UpdateAvailable = "false" ∨
      p.UpdateAvailable = "unknown") ∧
    (formatCSV latin1IsSpace
        { Plugins := [{ Name := "Plugin, \"quoted\"\nsecond\rline" }], Summary := {} }).1 =
      "plugin_id,name,installed_version,latest_version,update_available,status,type,source,marketplace_url\n,\"Plugin, \"\"quoted\"\"\nsecond\rline\",,,,,,,\n" ∧
    csv.ReadAll (formatCSV latin1IsSpace
        { Plugins := [{ Name := "Plugin, \"quoted\"\nsecond\rline" }], Summary := {} }).1 =
      some
        [ ["plugin_id", "name", "installed_version", "latest_version", "update_available",
            "status", "type", "source", "marketplace_url"],
          ["", "Plugin, \"quoted\"\nsecond\rline", "", "", "", "", "", "", ""] ] :=
  ⟨(formatCSV_records latin1IsSpace exampleResult).2.2.2.1 (by decide),
    (formatCSV_records latin1IsSpace exampleResult).2.2.2.2 refLibrary exampleClient {}
      refLibrary_contract exampleClient_run,
    by decide,
    (formatCSV_records latin1IsSpace
      { Plugins := [{ Name := "Plugin, \"quoted\"\nsecond\rline" }], Summary := {} }).2.2.2.1
      (by decide)⟩

/-- C28: in every finding of `RunAudit` the pointer `UpdateAvailJSON` is nil exactly when
`UpdateAvailable` is "unknown", points to true exactly when it is "true" and to false exactly
when it is "false"; `formatJSON` copies the pointer to the field `update_available`, which is
encoded as `null`, `true` or `false` accordingly, so that it is `null` for every finding whose
source is not "marketplace"; and the document is the marshalled value and a line feed. -/
theorem updateAvailable_json_agrees (lib : GoLibrary) (hS : SortSliceContract lib.sortSlice)
    (mmClient : MattermostClient) (opts : AuditOptions) (res : AuditResult)
    (h : RunAudit lib mmClient opts = .ok res) (jsonString : String → String) :
    (∀ f ∈ res.Plugins,
      (f.UpdateAvailJSON = none ↔ f.UpdateAvailable = "unknown") ∧
      (f.UpdateAvailJSON = some true ↔ f.UpdateAvailable = "true") ∧
      (f.UpdateAvailJSON = some false ↔ f.UpdateAvailable = "false") ∧
      (toJSONPlugin f).UpdateAvailable = f.UpdateAvailJSON ∧
      (jsonPluginMembers jsonString (toJSONPlugin f)).lookup "update_available" =
        some (jsonBool f.UpdateAvailJSON) ∧
      (f.Source ≠ "marketplace" →
        (jsonPluginMembers jsonString (toJSONPlugin f)).lookup "update_available" =
          some "null")) ∧
    (formatJSON jsonString res).1 =
      jsonObject ""
        [ ("plugins", jsonArray "  " (res.Plugins.map (fun f =>
            jsonObject "    " (jsonPluginMembers jsonString (toJSONPlugin f))))),
          ("summary", jsonObject "  " (jsonSummaryMembers res.Summary)) ] ++ "\n" ∧
    (formatJSON jsonString res).2 = none := by
  refine ⟨?_, ?_, rfl⟩
  · intro f hf
    obtain ⟨_, _, _, _, _, _, hr⟩ := RunAudit_finding hS h hf
    have hl : (jsonPluginMembers jsonString (toJSONPlugin f)).lookup "update_available" =
        some (jsonBool f.UpdateAvailJSON) := by
      simp [jsonPluginMembers, toJSONPlugin, List.lookup]
    rcases reportOf_tristate hr with ⟨h1, h2⟩ | ⟨h1, h2⟩ | ⟨h1, h2, h3⟩
    · refine ⟨?_, ?_, ?_, rfl, hl, ?_⟩
      · simp [h1, h2]
      · simp [h1, h2]
      · simp [h1, h2]
      · intro hne
        obtain ⟨_, _, h4, _⟩ := hr.other hne
        rw [h1] at h4
        exact absurd h4 (by decide)
    · refine ⟨?_, ?_, ?_, rfl, hl, ?_⟩
      · simp [h1, h2]
      · simp [h1, h2]
      · simp [h1, h2]
      · intro hne
        obtain ⟨_, _, h4, _⟩ := hr.other hne
        rw [h1] at h4
        exact absurd h4 (by decide)
    · refine ⟨?_, ?_, ?_, rfl, hl, ?_⟩
      · simp [h1, h2]
      · simp [h1, h2]
      · simp [h1, h2]
      · intro _
        rw [hl, h2]
        rfl
  · simp [formatJSON, marshalIndent, toJSONOutput, List.map_map, Function.comp_def]

set_option maxRecDepth 100000 in
/-- C28 on the run of two bundled plugins that the catalogue lists: both findings are
"unknown" with a nil pointer, and the document shows `null` for both. -/
theorem updateAvailable_json_agrees_witness :
    (∀ f ∈ bundledListedResult.Plugins,
      (f.UpdateAvailJSON = none ↔ f.UpdateAvailable = "unknown") ∧
      (f.UpdateAvailJSON = some true ↔ f.UpdateAvailable = "true") ∧
      (f.UpdateAvailJSON = some false ↔ f.UpdateAvailable = "false") ∧
      (toJSONPlugin f).UpdateAvailable = f.UpdateAvailJSON ∧
      (jsonPluginMembers plainJSONString (toJSONPlugin f)).lookup "update_available" =
        some (jsonBool f.UpdateAvailJSON) ∧
      (f.Source ≠ "marketplace" →
        (jsonPluginMembers plainJSONString (toJSONPlugin f)).lookup "update_available" =
          some "null")) ∧
    (formatJSON plainJSONString bundledListedResult).1 =
      "\x7b\n  \"plugins\": [\n    \x7b\n      \"plugin_id\": \"com.mattermost.calls\",\n      \"name\": \"Calls\",\n      \"installed_version\": \"1.10.0\",\n      \"latest_version\": \"\",\n      \"update_available\": null,\n      \"status\": \"enabled\",\n      \"type\": \"both\",\n      \"source\": \"bundled\",\n      \"marketplace_url\": \"\"\n    \x7d,\n    \x7b\n      \"plugin_id\": \"github\",\n      \"name\": \"GitHub\",\n      \"installed_version\": \"2.6.0\",\n      \"latest_version\": \"\",\n      \"update_available\": null,\n      \"status\": \"enabled\",\n      \"type\": \"both\",\n      \"source\": \"bundled\",\n      \"marketplace_url\": \"\"\n    \x7d\n  ],\n  \"summary\": \x7b\n    \"total\": 2,\n    \"marketplace\": 0,\n    \"bundled\": 2,\n    \"mattermost_plugin\": 0,\n    \"third_party\": 0,\n    \"outdated\": 0,\n    \"up_to_date\": 0,\n    \"unknown\": 2,\n    \"enabled\": 2,\n    \"disabled\": 0\n  \x7d\n\x7d\n" ∧
    (formatJSON plainJSONString newerResult).1 =
      "\x7b\n  \"plugins\": [\n    \x7b\n      \"plugin_id\": \"com.mattermost.confluence\",\n      \"name\": \"Confluence\",\n      \"installed_version\": \"1.5.0\",\n      \"latest_version\": \"1.4.0\",\n      \"update_available\": false,\n      \"status\": \"enabled\",\n      \"type\": \"both\",\n      \"source\": \"marketplace\",\n      \"marketplace_url\": \"https://github.com/mattermost/mattermost-plugin-confluence\"\n    \x7d\n  ],\n  \"summary\": \x7b\n    \"total\": 1,\n    \"marketplace\": 1,\n    \"bundled\": 0,\n    \"mattermost_plugin\": 0,\n    \"third_party\": 0,\n    \"outdated\": 0,\n    \"up_to_date\": 1,\n    \"unknown\": 0,\n    \"enabled\": 1,\n    \"disabled\": 0\n  \x7d\n\x7d\n" :=
  ⟨(updateAvailable_json_agrees refLibrary refLibrary_contract bundledListedClient {}
      bundledListedResult bundledListed_run plainJSONString).1,
    by decide, by decide⟩

/-- C29: for a format whose lower-cased form is none of "table", "csv" and "json",
`FormatOutput` writes nothing and returns the error "unknown format: " followed by the format
as given; for a format whose lower-cased form is one of the three it is the formatter of that
name. -/
theorem formatOutput_dispatch (lib : GoLibrary) (out : OutputLibrary) (result : AuditResult)
    (format : String) :
    (lib.ToLower format ≠ "table" → lib.ToLower format ≠ "csv" →
      lib.ToLower format ≠ "json" →
      FormatOutput lib out result format =
        ("", some (.errorString ("unknown format: " ++ format)))) ∧
    (lib.ToLower format = "table" →
      FormatOutput lib out result format = formatTable out.tabwriter result) ∧
    (lib.ToLower format = "csv" →
      FormatOutput lib out result format = formatCSV out.IsSpace result) ∧
    (lib.ToLower format = "json" →
      FormatOutput lib out result format = formatJSON out.jsonString result) := by
  refine ⟨?_, ?_, ?_, ?_⟩
  · intro h1 h2 h3
    simp [FormatOutput, h1, h2, h3]
  · intro h1
    simp [FormatOutput, h1]
  · intro h1
    simp [FormatOutput, h1]
  · intro h1
    simp [FormatOutput, h1]

/-- C29 at the format of `TestFormatOutput_UnknownFormat` and at three spellings of the known
formats. -/
theorem formatOutput_dispatch_witness :
    FormatOutput refLibrary refOutputLibrary sampleResult "xml" =
      ("", some (.errorString "unknown format: xml")) ∧
    FormatOutput refLibrary refOutputLibrary sampleResult "Table" =
      formatTable plainTabwriter sampleResult ∧
    FormatOutput refLibrary refOutputLibrary sampleResult "CSV" =
      formatCSV latin1IsSpace sampleResult ∧
    FormatOutput refLibrary refOutputLibrary sampleResult "jSoN" =
      formatJSON plainJSONString sampleResult :=
  ⟨(formatOutput_dispatch refLibrary refOutputLibrary sampleResult "xml").1
      (by decide) (by decide) (by decide),
    (formatOutput_dispatch refLibrary refOutputLibrary sampleResult "Table").2.1 (by decide),
    (formatOutput_dispatch refLibrary refOutputLibrary sampleResult "CSV").2.2.1 (by decide),
    (formatOutput_dispatch refLibrary refOutputLibrary sampleResult "jSoN").2.2.2 (by decide)⟩

/-- C30: `formatTable` writes the four section headers in the order Marketplace, Mattermost,
Bundled Mattermost, Third-Party / Custom, each with the number of findings of its section,
the fourth section taking every finding whose source is none of the three others; under a
header it writes the line "(none)" exactly when the section has no finding, and a table
through the tabwriter otherwise; and the text for a result without findings holds "(none)"
exactly four times. -/
theorem formatTable_sections (tabwriter : String → String) (result : AuditResult) :
    (∃ b₁ b₂ b₃ b₄ : TablePiece,
      formatTablePieces result =
        [ .direct ("=== Marketplace Plugins (" ++
            fmtInt (result.Plugins.countP (fun p => p.Source = "marketplace")) ++ ") ===\n"),
          b₁, .direct "\n",
          .direct ("=== Mattermost Plugins (" ++
            fmtInt (result.Plugins.countP (fun p => p.Source = "mattermost-plugin")) ++
            ") ===\n"),
          b₂, .direct "\n",
          .direct ("=== Bundled Mattermost Plugins (" ++
            fmtInt (result.Plugins.countP (fun p => p.Source = "bundled")) ++ ") ===\n"),
          b₃, .direct "\n",
          .direct ("=== Third-Party / Custom Plugins (" ++
            fmtInt (result.Plugins.countP (fun p => ¬ p.Source = "marketplace" ∧
              ¬ p.Source = "mattermost-plugin" ∧ ¬ p.Source = "bundled")) ++ ") ===\n"),
          b₄, .direct "\n",
          .direct (summaryLine result.Summary) ] ∧
      (b₁ = .direct "(none)\n" ↔
        result.Plugins.countP (fun p => p.Source = "marketplace") = 0) ∧
      (b₂ = .direct "(none)\n" ↔
        result.Plugins.countP (fun p => p.Source = "mattermost-plugin") = 0) ∧
      (b₃ = .direct "(none)\n" ↔
        result.Plugins.countP (fun p => p.Source = "bundled") = 0) ∧
      (b₄ = .direct "(none)\n" ↔
        result.Plugins.countP (fun p => ¬ p.Source = "marketplace" ∧
          ¬ p.Source = "mattermost-plugin" ∧ ¬ p.Source = "bundled") = 0) ∧
      (∀ b ∈ [b₁, b₂, b₃, b₄], b = .direct "(none)\n" ∨ ∃ text, b = .tabbed text)) ∧
    (formatTable tabwriter result).1 =
      String.join ((formatTablePieces result).map (TablePiece.render tabwriter)) ∧
    (formatTable tabwriter result).2 = none ∧
    ((∀ p ∈ result.Plugins, p.Source = "marketplace" ∨ p.Source = "bundled" ∨
        p.Source = "mattermost-plugin" ∨ p.Source = "third-party") →
      result.Plugins.countP (fun p => ¬ p.Source = "marketplace" ∧
        ¬ p.Source = "mattermost-plugin" ∧ ¬ p.Source = "bundled") =
      result.Plugins.countP (fun p => p.Source = "third-party")) ∧
    (result.Plugins = [] →
      occurrences "(none)".data (formatTable tabwriter result).1.data = 4) := by
  have hb : ∀ l : List PluginReport,
      plainBody l = .direct "(none)\n" ∨ ∃ text, plainBody l = .tabbed text := by
    intro l
    unfold plainBody
    split
    · exact Or.inr ⟨_, rfl⟩
    · exact Or.inl rfl
  have hm : ∀ l : List PluginReport,
      marketplaceBody l = .direct "(none)\n" ∨ ∃ text, marketplaceBody l = .tabbed text := by
    intro l
    unfold marketplaceBody
    split
    · exact Or.inr ⟨_, rfl⟩
    · exact Or.inl rfl
  refine ⟨⟨marketplaceBody (groupBySource result.Plugins).marketplace,
    plainBody (groupBySource result.Plugins).mattermost,
    plainBody (groupBySource result.Plugins).bundled,
    plainBody (groupBySource result.Plugins).thirdParty, ?_, ?_, ?_, ?_, ?_, ?_⟩,
    rfl, rfl, ?_, occurrences_formatTable_empty tabwriter result⟩
  · simp only [formatTablePieces, groupBySource_eq, List.countP_eq_length_filter]
    rfl
  · rw [marketplaceBody_none, groupBySource_eq, List.countP_eq_length_filter]
    rfl
  · rw [plainBody_none, groupBySource_eq, List.countP_eq_length_filter]
    rfl
  · rw [plainBody_none, groupBySource_eq, List.countP_eq_length_filter]
    rfl
  · rw [plainBody_none, groupBySource_eq, List.countP_eq_length_filter]
    rfl
  · intro b hb'
    simp only [List.mem_cons, List.mem_singleton, List.not_mem_nil, or_false] at hb'
    rcases hb' with rfl | rfl | rfl | rfl
    · exact hm _
    · exact hb _
    · exact hb _
    · exact hb _
  · intro hall
    apply List.countP_congr
    intro p hp
    obtain ⟨d1, d2, d3, d4, d5, d6⟩ := sources_distinct
    rcases hall p hp with h | h | h | h <;> rw [h] <;> decide

set_option maxRecDepth 100000 in
/-- C30 on the sample result of the output tests, with the tabwriter that aligns nothing, and
on the result without findings. -/
theorem formatTable_sections_witness :
    (formatTable plainTabwriter sampleResult).1 =
      "=== Marketplace Plugins (2) ===\nNAME\tINSTALLED\tLATEST\tUPDATE?\tSTATUS\nConfluence\t1.3.0\t1.4.0\tYES ⚠\tEnabled\nWelcomeBot\t1.2.0\t1.2.0\tNo\tEnabled\n\n=== Mattermost Plugins (1) ===\nNAME\tINSTALLED\tSTATUS\nGoogle Calendar\t1.1.0\tEnabled\n\n=== Bundled Mattermost Plugins (1) ===\nNAME\tINSTALLED\tSTATUS\nCalls\t1.10.0\tEnabled\n\n=== Third-Party / Custom Plugins (1) ===\nNAME\tINSTALLED\tSTATUS\nPexip\t1.3.0\tDisabled\n\nSummary: 5 plugin(s) total — 2 marketplace (1 outdated, 1 up to date), 1 mattermost, 1 bundled, 1 third-party/custom — 4 enabled, 1 disabled\n" ∧
    occurrences "(none)".data (formatTable plainTabwriter sampleResult).1.data = 0 ∧
    (formatTable plainTabwriter emptyResult).1 =
      "=== Marketplace Plugins (0) ===\n(none)\n\n=== Mattermost Plugins (0) ===\n(none)\n\n=== Bundled Mattermost Plugins (0) ===\n(none)\n\n=== Third-Party / Custom Plugins (0) ===\n(none)\n\nSummary: 0 plugin(s) total — 0 marketplace (0 outdated, 0 up to date), 0 mattermost, 0 bundled, 0 third-party/custom — 0 enabled, 0 disabled\n" ∧
    occurrences "(none)".data (formatTable plainTabwriter emptyResult).1.data = 4 :=
  ⟨by decide, by decide, by decide,
    (formatTable_sections plainTabwriter emptyResult).2.2.2.2 rfl⟩

/-- C31: for every server URL and underlying error `classifyAPIError` returns a `*CLIError`
with code `ExitConfigError` for the status 401 or 403 and with code `ExitAPIError` for the
status 404, for a status of 500 or more and for a nil response; the message for 403 and the
message for a nil response with an empty server URL are the stated ones. -/
theorem classifyAPIError_table (serverURL : String) (err : Option GoError) :
    (ExitConfigError = 1 ∧ ExitAPIError = 2) ∧
    classifyAPIError serverURL (some { StatusCode := 401 }) err =
      .cliError ExitConfigError
        "error: authentication failed. Check your token or credentials." err ∧
    classifyAPIError serverURL (some { StatusCode := 403 }) err =
      .cliError ExitConfigError
        "error: permission denied. This operation requires a System Administrator account."
        err ∧
    classifyAPIError serverURL (some { StatusCode := 404 }) err =
      .cliError ExitAPIError
        ("error: API endpoint not found on " ++ serverURL ++ ". Check the server URL.") err ∧
    (∀ status : Int, 500 ≤ status →
      classifyAPIError serverURL (some { StatusCode := status }) err =
        .cliError ExitAPIError
          ("error: the Mattermost server returned an unexpected error (HTTP " ++
            fmtInt status ++ "). Check server logs for details.") err) ∧
    (classifyAPIError serverURL none err).code? = some ExitAPIError ∧
    (serverURL ≠ "" →
      classifyAPIError serverURL none err =
        .cliError ExitAPIError ("error: unable to connect to " ++ serverURL ++
          ". Check the URL and network connectivity.") err) ∧
    classifyAPIError "" none err = .cliError ExitAPIError "error: unexpected API error." err := by
  refine ⟨⟨rfl, rfl⟩, rfl, rfl, rfl, ?_, ?_, ?_, rfl⟩
  · intro status h
    have h1 : status ≠ 401 := by omega
    have h2 : status ≠ 403 := by omega
    have h3 : status ≠ 404 := by omega
    simp [classifyAPIError, h1, h2, h3, h, apiError]
  · by_cases hu : serverURL = "" <;> simp [classifyAPIError, hu, apiError, GoError.code?]
  · intro hu
    simp [classifyAPIError, hu, apiError]

/-- C31 at the inputs of the tests of `classifyAPIError`. -/
theorem classifyAPIError_table_witness :
    classifyAPIError "https://mm.example.com" (some { StatusCode := 500 }) none =
      .cliError 2
        "error: the Mattermost server returned an unexpected error (HTTP 500). Check server logs for details."
        none ∧
    classifyAPIError "https://mm.example.com" none none =
      .cliError 2
        "error: unable to connect to https://mm.example.com. Check the URL and network connectivity."
        none ∧
    classifyAPIError "https://mm.example.com" (some { StatusCode := 403 }) none =
      .cliError 1
        "error: permission denied. This operation requires a System Administrator account."
        none ∧
    classifyAPIError "" none none = .cliError 2 "error: unexpected API error." none :=
  ⟨(classifyAPIError_table "https://mm.example.com" none).2.2.2.2.1 500 (by decide),
    (classifyAPIError_table "https://mm.example.com" none).2.2.2.2.2.2.1 (by decide),
    (classifyAPIError_table "https://mm.example.com" none).2.2.1,
    (classifyAPIError_table "https://mm.example.com" none).2.2.2.2.2.2.2⟩

/-- C32: for two strings whose normal forms are valid semantic versions `CompareVersions` of
the strings is `CompareVersions` of their normal forms; and `CompareVersions s ("v" ++ s)` is
0 for every `s` that is a valid version once "v" is put in front. -/
theorem compareVersions_ignores_v (a b : String)
    (ha : IsValid (NormalizeVersion a) = true) (hb : IsValid (NormalizeVersion b) = true) :
    CompareVersions a b = CompareVersions (NormalizeVersion a) (NormalizeVersion b) ∧
    (∀ s : String, IsValid ("v" ++ s) = true → CompareVersions s ("v" ++ s) = 0 ∧
      CompareVersions ("v" ++ s) s = 0) := by
  constructor
  · have ha' : IsValid (NormalizeVersion (NormalizeVersion a)) = true := by
      rw [normalizeVersion_idem]; exact ha
    have hb' : IsValid (NormalizeVersion (NormalizeVersion b)) = true := by
      rw [normalizeVersion_idem]; exact hb
    rw [compareVersions_of_valid ha hb, compareVersions_of_valid ha' hb',
      normalizeVersion_idem, normalizeVersion_idem]
  · intro s hs
    have h1 : NormalizeVersion s = "v" ++ s := normalizeVersion_of_valid_v hs
    have h2 : NormalizeVersion ("v" ++ s) = "v" ++ s := normalizeVersion_of_v rfl
    have v1 : IsValid (NormalizeVersion s) = true := by rw [h1]; exact hs
    have v2 : IsValid (NormalizeVersion ("v" ++ s)) = true := by rw [h2]; exact hs
    have hself := compareVersions_self ("v" ++ s)
    rw [compareVersions_of_valid v2 v2, h2] at hself
    constructor
    · rw [compareVersions_of_valid v1 v2, h1, h2]
      exact hself
    · rw [compareVersions_of_valid v2 v1, h1, h2]
      exact hself

/-- C32 at versions of `TestCompareVersions`: "1.0.0" against "v1.0.0", and "1.9.0" against
"v1.10.0". -/
theorem compareVersions_ignores_v_witness :
    CompareVersions "1.9.0" "v1.10.0" = CompareVersions "v1.9.0" "v1.10.0" ∧
    CompareVersions "1.9.0" "v1.10.0" = -1 ∧
    CompareVersions "1.0.0" "v1.0.0" = 0 ∧ CompareVersions "v1.0.0" "1.0.0" = 0 :=
  ⟨(compareVersions_ignores_v "1.9.0" "v1.10.0" (by decide) (by decide)).1, by decide,
    (compareVersions_ignores_v "1.9.0" "v1.10.0" (by decide) (by decide)).2 "1.0.0"
      (by decide)⟩

/-- C33: `updateIndicator p` is "YES ⚠" exactly when `p.UpdateAvailable` is "true" and "No"
otherwise, whatever the installed and the latest version of `p` are. -/
theorem updateIndicator_iff (p : PluginReport) :
    (updateIndicator p = "YES ⚠" ↔ p.UpdateAvailable = "true") ∧
    (p.UpdateAvailable ≠ "true" → updateIndicator p = "No") ∧
    (∀ installedVersion latestVersion : String,
      updateIndicator
          { p with InstalledVersion := installedVersion, LatestVersion := latestVersion } =
        updateIndicator p) := by
  refine ⟨?_, ?_, fun _ _ => rfl⟩
  · unfold updateIndicator
    by_cases h : p.UpdateAvailable = "true"
    · simp [h]
    · simp only [h, if_false, iff_false]
      decide
  · intro h
    simp [updateIndicator, h]

/-- C33 at the three reports of `TestUpdateIndicator`. -/
theorem updateIndicator_iff_witness :
    updateIndicator
        { UpdateAvailable := "true", InstalledVersion := "1.0.0", LatestVersion := "2.0.0" } =
      "YES ⚠" ∧
    updateIndicator
        { UpdateAvailable := "false", InstalledVersion := "1.0.0", LatestVersion := "1.0.0" } =
      "No" ∧
    updateIndicator
        { UpdateAvailable := "false", InstalledVersion := "1.11.0",
          LatestVersion := "1.10.0" } = "No" :=
  ⟨(updateIndicator_iff
      { UpdateAvailable := "true", InstalledVersion := "1.0.0", LatestVersion := "2.0.0" }).1.2
      rfl,
    (updateIndicator_iff
      { UpdateAvailable := "false", InstalledVersion := "1.0.0",
        LatestVersion := "1.0.0" }).2.1 (by decide),
    (updateIndicator_iff
      { UpdateAvailable := "false", InstalledVersion := "1.11.0",
        LatestVersion := "1.10.0" }).2.1 (by decide)⟩

/-- C34: without `OutdatedOnly` the findings of `RunAudit` are as many as the installed
plugins, and they are a rearrangement of a list of reports that matches the installed list
plugin by plugin, each report with the ID, name, version and status of its plugin. -/
theorem runAudit_keeps_every_plugin (lib : GoLibrary) (hS : SortSliceContract lib.sortSlice)
    (mmClient : MattermostClient) (verbose : Bool) (installed : List InstalledPlugin)
    (h1 : mmClient.GetPlugins = .ok installed) (res : AuditResult)
    (h : RunAudit lib mmClient { OutdatedOnly := false, Verbose := verbose } = .ok res) :
    res.Plugins.length = installed.length ∧
    ∃ reports : List PluginReport,
      List.Forall₂ (fun p f => f.PluginID = p.ID ∧ f.Name = p.Name ∧
        f.InstalledVersion = p.Version ∧ f.Status = p.Status) installed reports ∧
      res.Plugins.Perm reports := by
  obtain ⟨ins, cat, reports, g1, _, g3, g4, _⟩ := RunAudit_ok_inv' h
  rw [h1] at g1
  injection g1 with g1
  subst g1
  have hsel : selected { OutdatedOnly := false, Verbose := verbose } reports = reports := by
    simp [selected]
  rw [hsel] at g4
  have hp : res.Plugins.Perm reports := by
    rw [g4]
    exact hS.perm _ _
  have hf := buildReports_reportOf g3
  refine ⟨?_, reports, ?_, hp⟩
  · rw [hp.length_eq, hf.length_eq]
  · exact hf.imp (fun p f hr =>
      ⟨hr.pluginID, hr.name, hr.installedVersion, hr.status⟩)

/-- C34 on the sample run: five installed plugins, five findings. -/
theorem runAudit_keeps_every_plugin_witness :
    exampleResult.Plugins.length = exampleInstalled.length ∧
    ∃ reports : List PluginReport,
      List.Forall₂ (fun p f => f.PluginID = p.ID ∧ f.Name = p.Name ∧
        f.InstalledVersion = p.Version ∧ f.Status = p.Status) exampleInstalled reports ∧
      exampleResult.Plugins.Perm reports :=
  runAudit_keeps_every_plugin refLibrary refLibrary_contract exampleClient false
    exampleInstalled rfl exampleResult exampleClient_run

/-- C35: the summary of a run with `OutdatedOnly` counts the filtered findings: `UpToDate` is
0 and `Marketplace` equals `Outdated`; the run without `OutdatedOnly` on the same client
returns too, and its summary has the same `Bundled`, `MattermostPlugin`, `ThirdParty` and
`Unknown`. -/
theorem runAudit_outdatedOnly_summary (lib : GoLibrary) (hS : SortSliceContract lib.sortSlice)
    (mmClient : MattermostClient) (verbose verbose' : Bool) (res : AuditResult)
    (h : RunAudit lib mmClient { OutdatedOnly := true, Verbose := verbose } = .ok res) :
    res.Summary.UpToDate = 0 ∧ res.Summary.Marketplace = res.Summary.Outdated ∧
    ∃ all : AuditResult,
      RunAudit lib mmClient { OutdatedOnly := false, Verbose := verbose' } = .ok all ∧
      res.Summary.Bundled = all.Summary.Bundled ∧
      res.Summary.MattermostPlugin = all.Summary.MattermostPlugin ∧
      res.Summary.ThirdParty = all.Summary.ThirdParty ∧
      res.Summary.Unknown = all.Summary.Unknown := by
  obtain ⟨ins, cat, reports, g1, g2, g3, g4, g5⟩ := RunAudit_ok_inv' h
  have hsel : selected { OutdatedOnly := true, Verbose := verbose } reports =
      reports.filter keepOutdated := by simp [selected]
  have hsel' : selected { OutdatedOnly := false, Verbose := verbose' } reports = reports := by
    simp [selected]
  rw [hsel] at g4
  have hp : res.Plugins.Perm (reports.filter keepOutdated) := by
    rw [g4]
    exact hS.perm _ _
  obtain ⟨d1, d2, d3, _, _, _⟩ := sources_distinct
  have hkeep : ∀ r ∈ res.Plugins, r.Source = SourceMarketplace → r.UpdateAvailable = "true" := by
    intro r hr hm
    have := (List.mem_filter.1 (hp.subset hr)).2
    simpa [keepOutdated, hm] using this
  have hcnt : ∀ q : PluginReport → Bool, (∀ r, q r = true → r.Source ≠ SourceMarketplace) →
      res.Plugins.countP q =
        (lib.sortSlice (reportLess lib.ToLower) reports).countP q := by
    intro q hq
    rw [hp.countP_eq, countP_keepOutdated _ _ hq, (hS.perm (reportLess lib.ToLower) reports).countP_eq]
  refine ⟨?_, ?_, _, RunAudit_eq g1 g2 g3, ?_, ?_, ?_, ?_⟩
  · rw [g5, computeSummary, foldl_summaryStep]
    simp only [Nat.zero_add]
    rw [List.countP_eq_zero]
    intro r hr
    simp only [decide_eq_true_eq, not_and, not_not]
    exact hkeep r hr
  · rw [g5, computeSummary, foldl_summaryStep]
    simp only [Nat.zero_add]
    apply List.countP_congr
    intro r hr
    simp only [decide_eq_true_eq]
    exact ⟨fun hm => ⟨hm, hkeep r hr hm⟩, fun hm => hm.1⟩
  · rw [g5, hsel']
    simp only [computeSummary, foldl_summaryStep, Nat.zero_add]
    apply hcnt
    intro r hr
    simp only [decide_eq_true_eq] at hr
    rw [hr]
    exact d1.symm
  · rw [g5, hsel']
    simp only [computeSummary, foldl_summaryStep, Nat.zero_add]
    apply hcnt
    intro r hr
    simp only [decide_eq_true_eq] at hr
    rw [hr]
    exact d2.symm
  · rw [g5, hsel']
    simp only [computeSummary, foldl_summaryStep, Nat.zero_add]
    apply hcnt
    intro r hr
    simp only [decide_eq_true_eq] at hr
    rw [hr]
    exact d3.symm
  · rw [g5, hsel']
    simp only [computeSummary, foldl_summaryStep, Nat.zero_add]
    apply hcnt
    intro r hr
    simp only [decide_eq_true_eq] at hr
    rcases hr with hr | hr | hr <;> rw [hr]
    · exact d1.symm
    · exact d2.symm
    · exact d3.symm

/-- C35 on the sample run: with `OutdatedOnly` the summary counts 1 marketplace finding, 1
outdated and 0 up to date, where the full run counts 2, 1 and 1; the other counters agree. -/
theorem runAudit_outdatedOnly_summary_witness :
    (exampleOutdatedResult.Summary.UpToDate = 0 ∧
      exampleOutdatedResult.Summary.Marketplace = exampleOutdatedResult.Summary.Outdated ∧
      ∃ all : AuditResult,
        RunAudit refLibrary exampleClient { OutdatedOnly := false, Verbose := false } =
          .ok all ∧
        exampleOutdatedResult.Summary.Bundled = all.Summary.Bundled ∧
        exampleOutdatedResult.Summary.MattermostPlugin = all.Summary.MattermostPlugin ∧
        exampleOutdatedResult.Summary.ThirdParty = all.Summary.ThirdParty ∧
        exampleOutdatedResult.Summary.Unknown = all.Summary.Unknown) ∧
    exampleOutdatedResult.Summary.Marketplace = 1 ∧ exampleResult.Summary.Marketplace = 2 ∧
    exampleResult.Summary.UpToDate = 1 ∧ exampleOutdatedResult.Summary.Total = 4 ∧
    exampleResult.Summary.Total = 5 :=
  ⟨runAudit_outdatedOnly_summary refLibrary refLibrary_contract exampleClient false false
      exampleOutdatedResult exampleClient_run_outdated, rfl, rfl, rfl, rfl, rfl⟩

/-- C36: the loop dereferences the catalogue entry of a plugin only when its ID is a key of
the catalogue and not bundled: it fails exactly at such a plugin whose stored pointer is nil.
So when both fetches succeed and the catalogue stores no nil, `RunAudit` returns a result for
every installed list and all options, and a finding with source "marketplace" has its ID
among the keys of the catalogue. -/
theorem runAudit_no_nil_dereference (lib : GoLibrary) (hS : SortSliceContract lib.sortSlice)
    (mmClient : MattermostClient) (opts : AuditOptions) (installed : List InstalledPlugin)
    (mpCatalogue : Catalogue) (h1 : mmClient.GetPlugins = .ok installed)
    (h2 : mmClient.GetMarketplacePlugins = .ok mpCatalogue) (hc : NoNilEntry mpCatalogue) :
    (∃ res, RunAudit lib mmClient opts = .ok res ∧
      ∀ f ∈ res.Plugins, f.Source = "marketplace" →
        ∃ mp, mpCatalogue.lookup f.PluginID = some (some mp)) ∧
    (∀ (anyCatalogue : Catalogue) (p : InstalledPlugin),
      buildReport anyCatalogue p = none ↔
        anyCatalogue.lookup p.ID = some none ∧ p.ID ∉ bundledPluginKeys) := by
  refine ⟨?_, buildReport_eq_none_iff⟩
  obtain ⟨res, hres⟩ := RunAudit_returns lib mmClient opts h1 h2 hc
  refine ⟨res, hres, ?_⟩
  intro f hf hm
  obtain ⟨_, cat, _, g2, p, _, hr⟩ := RunAudit_finding hS hres hf
  rw [h2] at g2
  injection g2 with g2
  subst g2
  obtain ⟨mp, hl, _⟩ := hr.marketplace hm
  exact ⟨mp, by rw [hr.pluginID]; exact hl⟩

/-- C36 on the sample run, which has a plugin that the catalogue does not list and a bundled
plugin. -/
theorem runAudit_no_nil_dereference_witness :
    (∃ res, RunAudit refLibrary exampleClient {} = .ok res ∧
      ∀ f ∈ res.Plugins, f.Source = "marketplace" →
        ∃ mp, exampleCatalogue.lookup f.PluginID = some (some mp)) ∧
    exampleCatalogue.lookup "com.example.zebra" = none ∧
    "com.mattermost.calls" ∈ bundledPluginKeys ∧
    buildReport [("com.mattermost.calls", none)]
      { ID := "com.mattermost.calls", Name := "Calls" } ≠ none ∧
    buildReport [("com.example.zebra", none)]
      { ID := "com.example.zebra", Name := "Zebra Plugin" } = none :=
  ⟨(runAudit_no_nil_dereference refLibrary refLibrary_contract exampleClient {}
      exampleInstalled exampleCatalogue rfl rfl exampleCatalogue_noNil).1,
    rfl, by decide, by decide, rfl⟩

/-- C37: for every server URL, response and error, `classifyAPIError` returns a `*CLIError`
whose `Err` is the error given and whose code is `ExitConfigError` or `ExitAPIError`; and a
response whose status is none of 401, 403 and 404 and is below 500 gives what a nil response
gives. -/
theorem classifyAPIError_wraps_err (serverURL : String) (resp : Option Response)
    (err : Option GoError) :
    (∃ code msg, classifyAPIError serverURL resp err = .cliError code msg err ∧
      (code = ExitConfigError ∨ code = ExitAPIError)) ∧
    (∀ status : Int, status ≠ 401 → status ≠ 403 → status ≠ 404 → status < 500 →
      classifyAPIError serverURL (some { StatusCode := status }) err =
        classifyAPIError serverURL none err) :=
  ⟨classifyAPIError_wraps serverURL resp err,
    fun status h1 h2 h3 h4 =>
      classifyAPIError_other serverURL { StatusCode := status } err h1 h2 h3 h4⟩

/-- C37 at a redirect status and at a status that is not an HTTP status: both are classified
as no response is. -/
theorem classifyAPIError_wraps_err_witness :
    classifyAPIError "https://mm.example.com" (some { StatusCode := 302 })
        (some (.errorString "redirected")) =
      .cliError 2
        "error: unable to connect to https://mm.example.com. Check the URL and network connectivity."
        (some (.errorString "redirected")) ∧
    classifyAPIError "" (some { StatusCode := 0 }) none =
      .cliError 2 "error: unexpected API error." none :=
  ⟨((classifyAPIError_wraps_err "https://mm.example.com" none
      (some (.errorString "redirected"))).2 302 (by decide) (by decide) (by decide)
      (by decide)).trans rfl,
    ((classifyAPIError_wraps_err "" none none).2 0 (by decide) (by decide) (by decide)
      (by decide)).trans rfl⟩

end MMPluginAudit


